import Mathlib

/-
Verification development for the procsim repository: a cycle-accurate
Tomasulo-style out-of-order processor simulator.  The repository contains
several implementation variants of the same five-stage pipeline
(fetch, dispatch, schedule, execute, state-update/retire):

  * namespace `P1` embeds src/unnamed/part_001 (register-status table with a
    producing tag per register, per-slot parent tags, FIFO completed queue);
  * namespace `P2` embeds src/unnamed/part_002 (plain register-ready bit
    array, completion-cycle/tag sorted broadcast selection);
  * namespace `PC` embeds the full simulator in src/procsim.cpp
    (in-flight-writer sets, last-state-updated and last-scheduled-writer
    tables, completion-cycle/tag sorted broadcast selection).

All machine integers of the source (uint64_t tags and counters, int32_t
opcodes and register indices) are far below any overflow in every quantity
the simulator manipulates, and are embedded as `Nat` / `Int`.  File logging
(fprintf/printf) is embedded as the ghost per-tag stamp table
`instruction_cycles` that the sources themselves maintain for reporting;
statistics accumulators that no claim observes (average/maximum dispatch
queue occupancy) are omitted.  `read_instruction` (an external collaborator
per the spec) is embedded as a list of pending instructions: reading pops
the head, and `read_instruction(NULL)` probing for exhaustion is emptiness
of that list.
-/

namespace Procsim

/-- An instruction record, mirroring `proc_inst_t` of procsim.hpp:
opcode, two source registers, destination register (−1 meaning none), and
the tag assigned at fetch.  The instruction address is never read by any
simulator code and is omitted. -/
structure ProcInst where
  op_code : Int
  src_reg1 : Int
  src_reg2 : Int
  dest_reg : Int
  tag : Nat
deriving Repr, DecidableEq

instance : Inhabited ProcInst := ⟨⟨0, -1, -1, -1, 0⟩⟩

/-- Per-tag cycle stamps, mirroring `struct InstructionCycles` kept by
part_001, part_002s sibling and procsim.cpp for the reporting sink
(fetch, dispatch, schedule=fire, execute=complete, state_update=retire). -/
structure Stamps where
  fetch : Nat := 0
  dispatch : Nat := 0
  schedule : Nat := 0
  execute : Nat := 0
  state_update : Nat := 0
deriving Repr, DecidableEq

instance : Inhabited Stamps := ⟨{}⟩

/-- Simulator configuration as passed to `setup_proc`. -/
structure Cfg where
  RESULT_BUSES : Nat
  K0_FU_COUNT : Nat
  K1_FU_COUNT : Nat
  K2_FU_COUNT : Nat
  FETCH_RATE : Nat
deriving Repr, DecidableEq

/-- Reservation-station size: `2 * (K0_FU_COUNT + K1_FU_COUNT + K2_FU_COUNT)`
as computed in every variant of `setup_proc`. -/
def Cfg.rs_size (cfg : Cfg) : Nat :=
  2 * (cfg.K0_FU_COUNT + cfg.K1_FU_COUNT + cfg.K2_FU_COUNT)

/-- The opcode-to-functional-unit-class mapping
`int fu_type = (op_code == -1) ? 1 : op_code;` that appears verbatim in
procsim.cpp, part_001, part_002 and (as `get_counter`/`get_fu_count`)
in part_000. -/
def fu_type (op : Int) : Int :=
  if op = -1 then 1 else op

/-- Pointwise function update, used for the register tables and the
per-tag stamp map. -/
def updFun {α β : Type} [DecidableEq α] (f : α → β) (k : α) (v : β) : α → β :=
  fun x => if x = k then v else f x

end Procsim

namespace Procsim.P1

/-- Register status entry of part_001: the tag of the latest dispatched
writer and the ready bit.  All registers start ready with tag 0. -/
structure RegStatus where
  tag : Nat := 0
  ready : Bool := true
deriving Repr, DecidableEq

/-- Reservation-station slot (`rs_entry_t`) as written by part_001. -/
structure Slot where
  valid : Bool := false
  instruction : ProcInst := default
  src1_ready : Bool := false
  src2_ready : Bool := false
  src1_parent : Nat := 0
  src2_parent : Nat := 0
  fired : Bool := false
  completed : Bool := false
  state_updated : Bool := false
  execute_cycles_left : Nat := 0
  completed_cycle : Nat := 0
  tag_dispatched : Bool := false
  fetch_cycle : Nat := 0
  dispatch_cycle : Nat := 0
  state_update_cycle : Nat := 0
deriving Repr, DecidableEq

instance : Inhabited Slot := ⟨{}⟩

/-- Full simulator state of part_001.  `completed_instructions` holds
reservation-station slot indices: the C++ stores `rs_entry_t*` pointers
into the fixed `reservation_station` vector, so a stable slot index is the
pointers value. -/
structure State where
  dispatch_queue : List ProcInst := []
  reserved_slots : Nat := 0
  reservation_station : List Slot := []
  result_bus_tags : List Nat := []
  completed_instructions : List Nat := []
  register_status : Int → RegStatus := fun _ => {}
  k0_fu_available : Nat := 0
  k1_fu_available : Nat := 0
  k2_fu_available : Nat := 0
  global_tag_counter : Nat := 1
  current_cycle : Nat := 0
  instructions_retired : Nat := 0
  source : List ProcInst := []
  instruction_cycles : Nat → Stamps := fun _ => {}

/-- `setup_proc` of part_001. -/
def setup_proc (cfg : Cfg) (input : List ProcInst) : State :=
  { reservation_station := List.replicate cfg.rs_size {}
    k0_fu_available := cfg.K0_FU_COUNT
    k1_fu_available := cfg.K1_FU_COUNT
    k2_fu_available := cfg.K2_FU_COUNT
    source := input }

/-- The cycle-counter increment at the top of the `run_proc` loop. -/
def tick (s : State) : State :=
  { s with current_cycle := s.current_cycle + 1 }

/-- Fetch loop body: up to `FETCH_RATE` reads; a failed read leaves the
remaining iterations with nothing to do. -/
def fetch_go (c : Nat) : Nat → State → State
  | 0, s => s
  | n + 1, s =>
    match s.source with
    | [] => s
    | inst :: rest =>
      let t := s.global_tag_counter
      let inst2 := { inst with tag := t }
      let st := Procsim.updFun s.instruction_cycles t
        { s.instruction_cycles t with fetch := c, dispatch := c + 1 }
      fetch_go c n
        { s with source := rest
                 global_tag_counter := t + 1
                 dispatch_queue := s.dispatch_queue ++ [inst2]
                 instruction_cycles := st }

/-- `fetch_stage` of part_001: pull up to F instructions, assign strictly
increasing tags, record fetch stamps. -/
def fetch_stage (cfg : Cfg) (s : State) : State :=
  fetch_go s.current_cycle cfg.FETCH_RATE s

/-- `state_update_stage_first_half` of part_001: empty. -/
def state_update_stage_first_half (s : State) : State := s

/-- `execute_stage_second_half` of part_001: empty. -/
def execute_stage_second_half (s : State) : State := s

/-- `dispatch_stage_first_half` of part_001: reserve slots — one per free
slot while below both the RS size and the queue length (the loop reads and
increments the global `reserved_slots`). -/
def dispatch_stage_first_half (s : State) : State :=
  let r2 :=
    s.reservation_station.foldl
      (fun r slot =>
        if slot.valid = false ∧ r < s.reservation_station.length ∧
            r < s.dispatch_queue.length then r + 1 else r)
      s.reserved_slots
  { s with reserved_slots := r2 }

/-- Loop of `dispatch_stage_second_half` of part_001: walk the slots,
stopping (`break`) when no reservation or no queued instruction remains;
fill each free slot with the queue head, reading source readiness and the
parent tag from the register-status table and then overwriting the
destination registers entry with this instruction. -/
def dispatch_second_go (c : Nat) :
    List Slot → Nat → List ProcInst → (Int → RegStatus) → (Nat → Stamps) →
    (List Slot × Nat × List ProcInst × (Int → RegStatus) × (Nat → Stamps))
  | [], r, q, regs, st => ([], r, q, regs, st)
  | slot :: rest, r, q, regs, st =>
    match q with
    | [] => (slot :: rest, r, [], regs, st)
    | inst :: qtail =>
      if r = 0 then (slot :: rest, r, inst :: qtail, regs, st)
      else if slot.valid then
        let out := dispatch_second_go c rest r (inst :: qtail) regs st
        (slot :: out.1, out.2)
      else
        let slot2 : Slot :=
          { slot with
            valid := true
            instruction := inst
            src1_ready :=
              if inst.src_reg1 = -1 then true else (regs inst.src_reg1).ready
            src2_ready :=
              if inst.src_reg2 = -1 then true else (regs inst.src_reg2).ready
            src1_parent :=
              if inst.src_reg1 = -1 then 0 else (regs inst.src_reg1).tag
            src2_parent :=
              if inst.src_reg2 = -1 then 0 else (regs inst.src_reg2).tag
            fired := false
            completed := false
            state_updated := false
            execute_cycles_left := 0
            completed_cycle := 0
            tag_dispatched := false
            fetch_cycle := c - 1
            dispatch_cycle := c }
        let st2 := Procsim.updFun st inst.tag
          { st inst.tag with dispatch := c }
        let regs2 :=
          if inst.dest_reg = -1 then regs
          else Procsim.updFun regs inst.dest_reg { tag := inst.tag, ready := false }
        let out := dispatch_second_go c rest (r - 1) qtail regs2 st2
        (slot2 :: out.1, out.2)

/-- `dispatch_stage_second_half` of part_001. -/
def dispatch_stage_second_half (s : State) : State :=
  let out := dispatch_second_go s.current_cycle s.reservation_station
    s.reserved_slots s.dispatch_queue s.register_status s.instruction_cycles
  { s with reservation_station := out.1
           reserved_slots := out.2.1
           dispatch_queue := out.2.2.1
           register_status := out.2.2.2.1
           instruction_cycles := out.2.2.2.2 }

/-- Loop of `schedule_stage_first_half` of part_001: walk the slots in
storage order; every valid, not-yet-fired slot with both sources ready
tries to acquire a functional unit of its opcodes class and fires on
success. -/
def fire_go (c : Nat) :
    List Slot → Nat → Nat → Nat → (Nat → Stamps) →
    (List Slot × Nat × Nat × Nat × (Nat → Stamps))
  | [], k0, k1, k2, st => ([], k0, k1, k2, st)
  | slot :: rest, k0, k1, k2, st =>
    if slot.valid = true ∧ slot.fired = false ∧
        slot.src1_ready = true ∧ slot.src2_ready = true then
      let ft := Procsim.fu_type slot.instruction.op_code
      let acq : Bool × Nat × Nat × Nat :=
        if ft = 0 ∧ 0 < k0 then (true, k0 - 1, k1, k2)
        else if ft = 1 ∧ 0 < k1 then (true, k0, k1 - 1, k2)
        else if ft = 2 ∧ 0 < k2 then (true, k0, k1, k2 - 1)
        else (false, k0, k1, k2)
      if acq.1 then
        let slot2 := { slot with fired := true }
        let st2 := Procsim.updFun st slot.instruction.tag
          { st slot.instruction.tag with schedule := c }
        let out := fire_go c rest acq.2.1 acq.2.2.1 acq.2.2.2 st2
        (slot2 :: out.1, out.2)
      else
        let out := fire_go c rest k0 k1 k2 st
        (slot :: out.1, out.2)
    else
      let out := fire_go c rest k0 k1 k2 st
      (slot :: out.1, out.2)

/-- `schedule_stage_first_half` of part_001 (the fire phase). -/
def schedule_stage_first_half (s : State) : State :=
  let out := fire_go s.current_cycle s.reservation_station
    s.k0_fu_available s.k1_fu_available s.k2_fu_available s.instruction_cycles
  { s with reservation_station := out.1
           k0_fu_available := out.2.1
           k1_fu_available := out.2.2.1
           k2_fu_available := out.2.2.2.1
           instruction_cycles := out.2.2.2.2 }

/-- Wakeup of one slot in `schedule_stage_second_half` of part_001: a
source becomes ready when its recorded parent tag is among this cycles
broadcast tags. -/
def wake_slot (bus : List Nat) (slot : Slot) : Slot :=
  if slot.valid = true ∧ slot.fired = false then
    { slot with
        src1_ready := slot.src1_ready || bus.contains slot.src1_parent
        src2_ready := slot.src2_ready || bus.contains slot.src2_parent }
  else slot

/-- `schedule_stage_second_half` of part_001 (the wakeup phase). -/
def schedule_stage_second_half (s : State) : State :=
  { s with reservation_station :=
      s.reservation_station.map (wake_slot s.result_bus_tags) }

/-- Completion sweep of `execute_stage_first_half` of part_001: every
valid fired not-yet-completed slot completes this cycle and its index is
appended to the completed queue. -/
def complete_go (c : Nat) :
    List Slot → Nat → (Nat → Stamps) → List Nat →
    (List Slot × (Nat → Stamps) × List Nat)
  | [], _, st, acc => ([], st, acc)
  | slot :: rest, i, st, acc =>
    if slot.valid = true ∧ slot.fired = true ∧ slot.completed = false then
      let slot2 := { slot with completed := true, completed_cycle := c }
      let st2 := Procsim.updFun st slot.instruction.tag
        { st slot.instruction.tag with execute := c }
      let out := complete_go c rest (i + 1) st2 (acc ++ [i])
      (slot2 :: out.1, out.2)
    else
      let out := complete_go c rest (i + 1) st acc
      (slot :: out.1, out.2)

/-- Broadcast loop of `execute_stage_first_half` of part_001: pop the
completed queue front-first while result buses remain; each popped slot is
marked state-updated, its tag goes on the bus, its destination register is
marked ready only when it is still that registers recorded writer, and
its functional unit is released.  (A queue index without a live slot would
be a dangling pointer in the C++ and is skipped.) -/
def broadcast_go (c : Nat) :
    List Nat → Nat → List Slot → List Nat → (Int → RegStatus) →
    Nat → Nat → Nat →
    (List Nat × List Slot × List Nat × (Int → RegStatus) × Nat × Nat × Nat)
  | [], _, rs, bus, regs, k0, k1, k2 => ([], rs, bus, regs, k0, k1, k2)
  | idx :: qrest, allow, rs, bus, regs, k0, k1, k2 =>
    if allow = 0 then (idx :: qrest, rs, bus, regs, k0, k1, k2)
    else
      match rs.get? idx with
      | none => broadcast_go c qrest allow rs bus regs k0 k1 k2
      | some slot =>
        let t := slot.instruction.tag
        let rs2 := rs.set idx
          { slot with state_updated := true, state_update_cycle := c }
        let regs2 :=
          if slot.instruction.dest_reg ≠ -1 ∧
              (regs slot.instruction.dest_reg).tag = t then
            Procsim.updFun regs slot.instruction.dest_reg
              { regs slot.instruction.dest_reg with ready := true }
          else regs
        let ft := Procsim.fu_type slot.instruction.op_code
        let k0b := if ft = 0 then k0 + 1 else k0
        let k1b := if ft = 1 then k1 + 1 else k1
        let k2b := if ft = 2 then k2 + 1 else k2
        broadcast_go c qrest (allow - 1) rs2 (bus ++ [t]) regs2 k0b k1b k2b

/-- `execute_stage_first_half` of part_001: complete all fired slots, then
clear the result bus and broadcast up to `RESULT_BUSES` queued completions. -/
def execute_stage_first_half (cfg : Cfg) (s : State) : State :=
  let comp := complete_go s.current_cycle s.reservation_station 0
    s.instruction_cycles s.completed_instructions
  let out := broadcast_go s.current_cycle comp.2.2 cfg.RESULT_BUSES comp.1
    [] s.register_status s.k0_fu_available s.k1_fu_available s.k2_fu_available
  { s with reservation_station := out.2.1
           completed_instructions := out.1
           result_bus_tags := out.2.2.1
           register_status := out.2.2.2.1
           k0_fu_available := out.2.2.2.2.1
           k1_fu_available := out.2.2.2.2.2.1
           k2_fu_available := out.2.2.2.2.2.2
           instruction_cycles := comp.2.1 }

/-- Retirement condition of `state_update_stage_second_half` of part_001:
a valid slot whose state update (broadcast) happened strictly before the
current cycle. -/
def retires (c : Nat) (slot : Slot) : Bool :=
  slot.valid && slot.state_updated && decide (slot.state_update_cycle < c)

/-- `state_update_stage_second_half` of part_001: free every slot whose
broadcast occurred strictly before the current cycle and count it retired. -/
def state_update_stage_second_half (s : State) : State :=
  { s with
      reservation_station := s.reservation_station.map
        (fun slot => if retires s.current_cycle slot then
          { slot with valid := false, state_updated := false } else slot)
      instructions_retired := s.instructions_retired +
        s.reservation_station.countP (retires s.current_cycle) }

/-- One iteration of the `run_proc` loop of part_001, in its phase order:
first half state-update, execute, schedule, dispatch; second half
state-update, execute, schedule, dispatch; then fetch. -/
def cycleStep (cfg : Cfg) (s : State) : State :=
  fetch_stage cfg
    (dispatch_stage_second_half
      (schedule_stage_second_half
        (execute_stage_second_half
          (state_update_stage_second_half
            (dispatch_stage_first_half
              (schedule_stage_first_half
                (execute_stage_first_half cfg
                  (state_update_stage_first_half (tick s)))))))))

/-- `all_rs_empty` of part_001. -/
def all_rs_empty (s : State) : Bool :=
  s.reservation_station.all (fun slot => !slot.valid)

/-- Loop-exit condition of `run_proc`: the source is exhausted, the
dispatch queue is empty and no reservation-station slot is occupied. -/
def done (s : State) : Bool :=
  s.source.isEmpty && s.dispatch_queue.isEmpty && all_rs_empty s

/-- `n` iterations of the part_001 cycle loop. -/
def steps (cfg : Cfg) (n : Nat) (s : State) : State :=
  (cycleStep cfg)^[n] s

end Procsim.P1

namespace Procsim

/-- Lexicographic order on pairs of naturals: the order in which
`std::sort` arranges the `(tag, index)` candidate pairs in the fire phase
of procsim.cpp and part_002 (strict comparison totalized with `≤` on the
second component; the sorted candidate pairs have distinct tags, where the
two orders agree). -/
def pairLe (a b : Nat × Nat) : Prop :=
  a.1 < b.1 ∨ (a.1 = b.1 ∧ a.2 ≤ b.2)

instance : DecidableRel pairLe := fun a b =>
  inferInstanceAs (Decidable (a.1 < b.1 ∨ (a.1 = b.1 ∧ a.2 ≤ b.2)))

/-- Broadcast ranking used by procsim.cpp and part_002: completion cycle
first (earlier first), then tag (older first).  Applied to
`(completed_cycle, tag, slot index)` triples; the slot index rides along
and does not participate in the comparison. -/
def bcastLe (a b : Nat × Nat × Nat) : Prop :=
  a.1 < b.1 ∨ (a.1 = b.1 ∧ a.2.1 ≤ b.2.1)

instance : DecidableRel bcastLe := fun a b =>
  inferInstanceAs (Decidable (a.1 < b.1 ∨ (a.1 = b.1 ∧ a.2.1 ≤ b.2.1)))

end Procsim

namespace Procsim.P2

/-- Reservation-station slot (`rs_entry_t`) as used by part_002: no parent
tags, readiness flags refreshed each cycle from the register-ready array. -/
structure Slot where
  valid : Bool := false
  instruction : ProcInst := default
  src1_ready : Bool := false
  src2_ready : Bool := false
  fired : Bool := false
  completed : Bool := false
  state_updated : Bool := false
  execute_cycles_left : Nat := 0
  completed_cycle : Nat := 0
  tag_dispatched : Bool := false
deriving Repr, DecidableEq

instance : Inhabited Slot := ⟨{}⟩

/-- Full simulator state of part_002.  `log_stamps` is a ghost observer
recording, per tag, the cycles at which part_002 prints its FETCHED /
SCHEDULED / EXECUTED / STATE UPDATE trace lines (part_002 keeps no stamp
map of its own; its observable cycle table is this printf trace). -/
structure State where
  dispatch_queue : List ProcInst := []
  reservation_station : List Slot := []
  result_bus_tags : List Nat := []
  register_ready : Int → Bool := fun _ => true
  k0_fu_available : Nat := 0
  k1_fu_available : Nat := 0
  k2_fu_available : Nat := 0
  global_tag_counter : Nat := 1
  current_cycle : Nat := 0
  instructions_retired : Nat := 0
  source : List ProcInst := []
  log_stamps : Nat → Stamps := fun _ => {}

/-- `setup_proc` of part_002. -/
def setup_proc (cfg : Cfg) (input : List ProcInst) : State :=
  { reservation_station := List.replicate cfg.rs_size {}
    k0_fu_available := cfg.K0_FU_COUNT
    k1_fu_available := cfg.K1_FU_COUNT
    k2_fu_available := cfg.K2_FU_COUNT
    source := input }

/-- The cycle-counter increment at the top of the `run_proc` loop. -/
def tick (s : State) : State :=
  { s with current_cycle := s.current_cycle + 1 }

/-- Fetch loop body of part_002 (identical control flow to part_001). -/
def fetch_go (c : Nat) : Nat → State → State
  | 0, s => s
  | n + 1, s =>
    match s.source with
    | [] => s
    | inst :: rest =>
      let t := s.global_tag_counter
      let inst2 := { inst with tag := t }
      let st := Procsim.updFun s.log_stamps t
        { s.log_stamps t with fetch := c }
      fetch_go c n
        { s with source := rest
                 global_tag_counter := t + 1
                 dispatch_queue := s.dispatch_queue ++ [inst2]
                 log_stamps := st }

/-- `fetch_stage` of part_002. -/
def fetch_stage (cfg : Cfg) (s : State) : State :=
  fetch_go s.current_cycle cfg.FETCH_RATE s

/-- Loop of `dispatch_stage_first_half` of part_002: scan the slots,
break when the queue empties, move the queue head into each free slot
(readiness flags start false; they are refreshed from the register file in
the second half). -/
def dispatch_first_go (c : Nat) :
    List Slot → List ProcInst → (Nat → Stamps) →
    (List Slot × List ProcInst × (Nat → Stamps))
  | [], q, st => ([], q, st)
  | slot :: rest, q, st =>
    match q with
    | [] => (slot :: rest, [], st)
    | inst :: qtail =>
      if slot.valid then
        let out := dispatch_first_go c rest (inst :: qtail) st
        (slot :: out.1, out.2)
      else
        let slot2 : Slot :=
          { slot with
            instruction := inst
            valid := true
            src1_ready := false
            src2_ready := false
            fired := false
            completed := false
            execute_cycles_left := 0
            tag_dispatched := true }
        let st2 := Procsim.updFun st inst.tag
          { st inst.tag with dispatch := c }
        let out := dispatch_first_go c rest qtail st2
        (slot2 :: out.1, out.2)

/-- `dispatch_stage_first_half` of part_002. -/
def dispatch_stage_first_half (s : State) : State :=
  let out := dispatch_first_go s.current_cycle s.reservation_station
    s.dispatch_queue s.log_stamps
  { s with reservation_station := out.1
           dispatch_queue := out.2.1
           log_stamps := out.2.2 }

/-- `dispatch_stage_second_half` of part_002: empty (the register-file
read it once held is commented out in the source). -/
def dispatch_stage_second_half (s : State) : State := s

/-- Candidate collection of `schedule_stage_first_half` of part_002:
`(tag, index)` pairs of the valid, unfired, uncompleted slots whose
readiness flags are both set. -/
def collect_ready (i : Nat) : List Slot → List (Nat × Nat)
  | [] => []
  | slot :: rest =>
    if slot.valid = true ∧ slot.fired = false ∧ slot.completed = false ∧
        slot.src1_ready = true ∧ slot.src2_ready = true then
      (slot.instruction.tag, i) :: collect_ready (i + 1) rest
    else collect_ready (i + 1) rest

/-- Fire loop of `schedule_stage_first_half` of part_002: process the
sorted candidates; each acquires a unit of its class if available, is
marked fired with a one-cycle execution latency, and marks its destination
register not ready. -/
def fire_pairs_go (c : Nat) :
    List (Nat × Nat) → List Slot → (Int → Bool) → Nat → Nat → Nat →
    (Nat → Stamps) →
    (List Slot × (Int → Bool) × Nat × Nat × Nat × (Nat → Stamps))
  | [], rs, regs, k0, k1, k2, st => (rs, regs, k0, k1, k2, st)
  | (_, i) :: rest, rs, regs, k0, k1, k2, st =>
    match rs.get? i with
    | none => fire_pairs_go c rest rs regs k0 k1 k2 st
    | some slot =>
      let ft := Procsim.fu_type slot.instruction.op_code
      let acq : Bool × Nat × Nat × Nat :=
        if ft = 0 ∧ 0 < k0 then (true, k0 - 1, k1, k2)
        else if ft = 1 ∧ 0 < k1 then (true, k0, k1 - 1, k2)
        else if ft = 2 ∧ 0 < k2 then (true, k0, k1, k2 - 1)
        else (false, k0, k1, k2)
      if acq.1 then
        let rs2 := rs.set i
          { slot with fired := true, execute_cycles_left := 1 }
        let st2 := Procsim.updFun st slot.instruction.tag
          { st slot.instruction.tag with schedule := c }
        let regs2 :=
          if slot.instruction.dest_reg ≠ -1 then
            Procsim.updFun regs slot.instruction.dest_reg false
          else regs
        fire_pairs_go c rest rs2 regs2 acq.2.1 acq.2.2.1 acq.2.2.2 st2
      else fire_pairs_go c rest rs regs k0 k1 k2 st

/-- `schedule_stage_first_half` of part_002: collect the ready candidates,
sort them by tag (`std::sort` on `(tag, index)` pairs), and fire them in
that order subject to functional-unit availability. -/
def schedule_stage_first_half (s : State) : State :=
  let cands := (collect_ready 0 s.reservation_station).insertionSort Procsim.pairLe
  let out := fire_pairs_go s.current_cycle cands s.reservation_station
    s.register_ready s.k0_fu_available s.k1_fu_available s.k2_fu_available
    s.log_stamps
  { s with reservation_station := out.1
           register_ready := out.2.1
           k0_fu_available := out.2.2.1
           k1_fu_available := out.2.2.2.1
           k2_fu_available := out.2.2.2.2.1
           log_stamps := out.2.2.2.2.2 }

/-- `schedule_stage_second_half` of part_002: refresh the readiness flags
of every valid, unfired, uncompleted slot from the register-ready array. -/
def schedule_stage_second_half (s : State) : State :=
  { s with reservation_station := s.reservation_station.map (fun slot =>
      if slot.valid = true ∧ slot.fired = false ∧ slot.completed = false then
        { slot with
            src1_ready :=
              if slot.instruction.src_reg1 = -1 then true
              else s.register_ready slot.instruction.src_reg1
            src2_ready :=
              if slot.instruction.src_reg2 = -1 then true
              else s.register_ready slot.instruction.src_reg2 }
      else slot) }

/-- Execution-latency decrement of `execute_stage_first_half` of part_002:
a fired slot with one cycle left completes and stamps its completion
cycle. -/
def exec_tick (c : Nat) (slot : Slot) : Slot :=
  if slot.valid = true ∧ slot.fired = true ∧ slot.completed = false ∧
      0 < slot.execute_cycles_left then
    if slot.execute_cycles_left - 1 = 0 then
      { slot with execute_cycles_left := 0, completed := true,
                  completed_cycle := c }
    else { slot with execute_cycles_left := slot.execute_cycles_left - 1 }
  else slot

/-- Ghost EXECUTED stamps for the slots completing this cycle. -/
def exec_stamps (c : Nat) (rs : List Slot) (st : Nat → Stamps) :
    Nat → Stamps :=
  rs.foldl (fun st slot =>
    if slot.valid = true ∧ slot.fired = true ∧ slot.completed = false ∧
        slot.execute_cycles_left = 1 then
      Procsim.updFun st slot.instruction.tag
        { st slot.instruction.tag with execute := c }
    else st) st

/-- Broadcast candidates of part_002 and procsim.cpp: `(completed_cycle,
tag, index)` triples of the valid, completed, not-yet-state-updated
slots, in slot-scan order. -/
def collect_completed (i : Nat) : List Slot → List (Nat × Nat × Nat)
  | [] => []
  | slot :: rest =>
    if slot.valid = true ∧ slot.completed = true ∧
        slot.state_updated = false then
      (slot.completed_cycle, slot.instruction.tag, i) ::
        collect_completed (i + 1) rest
    else collect_completed (i + 1) rest

/-- Broadcast loop of `execute_stage_first_half` of part_002: push sorted
completed instructions onto the result bus while it has room (capacity R),
free each ones functional unit and mark its destination register ready. -/
def bus_push_go (R : Nat) :
    List (Nat × Nat × Nat) → List Slot → List Nat → (Int → Bool) →
    Nat → Nat → Nat →
    (List Nat × (Int → Bool) × Nat × Nat × Nat)
  | [], _, bus, regs, k0, k1, k2 => (bus, regs, k0, k1, k2)
  | (_, _, i) :: rest, rs, bus, regs, k0, k1, k2 =>
    if bus.length < R then
      match rs.get? i with
      | none => bus_push_go R rest rs bus regs k0 k1 k2
      | some slot =>
        let ft := Procsim.fu_type slot.instruction.op_code
        let k0b := if ft = 0 then k0 + 1 else k0
        let k1b := if ft = 1 then k1 + 1 else k1
        let k2b := if ft = 2 then k2 + 1 else k2
        let regs2 :=
          if slot.instruction.dest_reg ≠ -1 then
            Procsim.updFun regs slot.instruction.dest_reg true
          else regs
        bus_push_go R rest rs (bus ++ [slot.instruction.tag]) regs2 k0b k1b k2b
    else (bus, regs, k0, k1, k2)

/-- `execute_stage_first_half` of part_002: tick execution latencies, then
rank the completed-unbroadcast slots by completion cycle and tag and push
the first R onto the result bus. -/
def execute_stage_first_half (cfg : Cfg) (s : State) : State :=
  let st2 := exec_stamps s.current_cycle s.reservation_station s.log_stamps
  let rs2 := s.reservation_station.map (exec_tick s.current_cycle)
  let cands := (collect_completed 0 rs2).insertionSort Procsim.bcastLe
  let out := bus_push_go cfg.RESULT_BUSES cands rs2 s.result_bus_tags
    s.register_ready s.k0_fu_available s.k1_fu_available s.k2_fu_available
  { s with reservation_station := rs2
           result_bus_tags := out.1
           register_ready := out.2.1
           k0_fu_available := out.2.2.1
           k1_fu_available := out.2.2.2.1
           k2_fu_available := out.2.2.2.2
           log_stamps := st2 }

/-- `execute_stage_second_half` of part_002: empty. -/
def execute_stage_second_half (s : State) : State := s

/-- Marking of the first valid slot carrying a given tag, as done by the
find-loop in `state_update_stage_first_half` of part_002. -/
def mark_state_updated (t : Nat) : List Slot → List Slot
  | [] => []
  | slot :: rest =>
    if slot.valid = true ∧ slot.instruction.tag = t then
      { slot with state_updated := true } :: rest
    else slot :: mark_state_updated t rest

/-- `state_update_stage_first_half` of part_002: mark every instruction on
the result bus as state-updated, then clear the bus. -/
def state_update_stage_first_half (s : State) : State :=
  let out := s.result_bus_tags.foldl
    (fun (p : List Slot × (Nat → Stamps)) t =>
      (mark_state_updated t p.1,
       Procsim.updFun p.2 t { p.2 t with state_update := s.current_cycle }))
    (s.reservation_station, s.log_stamps)
  { s with reservation_station := out.1
           log_stamps := out.2
           result_bus_tags := [] }

/-- `state_update_stage_second_half` of part_002: free every state-updated
slot and count it retired. -/
def state_update_stage_second_half (s : State) : State :=
  { s with
      reservation_station := s.reservation_station.map (fun slot =>
        if slot.valid = true ∧ slot.state_updated = true then
          { slot with valid := false, state_updated := false }
        else slot)
      instructions_retired := s.instructions_retired +
        s.reservation_station.countP
          (fun slot => slot.valid && slot.state_updated) }

/-- One iteration of the `run_proc` loop of part_002, in its phase order:
first half state-update, execute, schedule, dispatch, fetch; second half
dispatch, schedule, execute, state-update. -/
def cycleStep (cfg : Cfg) (s : State) : State :=
  state_update_stage_second_half
    (execute_stage_second_half
      (schedule_stage_second_half
        (dispatch_stage_second_half
          (fetch_stage cfg
            (dispatch_stage_first_half
              (schedule_stage_first_half
                (execute_stage_first_half cfg
                  (state_update_stage_first_half (tick s)))))))))

/-- `all_rs_empty` of part_002. -/
def all_rs_empty (s : State) : Bool :=
  s.reservation_station.all (fun slot => !slot.valid)

/-- Loop-exit condition of `run_proc` of part_002. -/
def done (s : State) : Bool :=
  s.source.isEmpty && s.dispatch_queue.isEmpty && all_rs_empty s

/-- `n` iterations of the part_002 cycle loop. -/
def steps (cfg : Cfg) (n : Nat) (s : State) : State :=
  (cycleStep cfg)^[n] s

end Procsim.P2

namespace Procsim.PC

/-- Reservation-station slot (`rs_entry_t`) as used by procsim.cpp. -/
structure Slot where
  valid : Bool := false
  instruction : ProcInst := default
  src1_ready : Bool := false
  src2_ready : Bool := false
  fired : Bool := false
  completed : Bool := false
  state_updated : Bool := false
  execute_cycles_left : Nat := 0
  completed_cycle : Nat := 0
  tag_dispatched : Bool := false
  fired_cycle : Nat := 0
deriving Repr, DecidableEq

instance : Inhabited Slot := ⟨{}⟩

/-- Full simulator state of procsim.cpp.  The four per-register tables are
the registers ready bit, the tag of its last state-updated writer, the
set of its in-flight (dispatched but not state-updated) writers
(`std::set`, embedded as a duplicate-free list), and the tag of its last
scheduled (fired) writer. -/
structure State where
  dispatch_queue : List ProcInst := []
  reservation_station : List Slot := []
  result_bus_tags : List Nat := []
  register_ready : Int → Bool := fun _ => true
  register_last_state_updated : Int → Nat := fun _ => 0
  register_in_flight_writers : Int → List Nat := fun _ => []
  register_last_scheduled_writer : Int → Nat := fun _ => 0
  k0_fu_available : Nat := 0
  k1_fu_available : Nat := 0
  k2_fu_available : Nat := 0
  global_tag_counter : Nat := 1
  current_cycle : Nat := 0
  instructions_retired : Nat := 0
  source : List ProcInst := []
  instruction_cycles : Nat → Stamps := fun _ => {}

/-- `setup_proc` of procsim.cpp. -/
def setup_proc (cfg : Cfg) (input : List ProcInst) : State :=
  { reservation_station := List.replicate cfg.rs_size {}
    k0_fu_available := cfg.K0_FU_COUNT
    k1_fu_available := cfg.K1_FU_COUNT
    k2_fu_available := cfg.K2_FU_COUNT
    source := input }

/-- The cycle-counter increment at the top of the `run_proc` loop. -/
def tick (s : State) : State :=
  { s with current_cycle := s.current_cycle + 1 }

/-- `std::set` insertion (no duplicates). -/
def setInsert (t : Nat) (l : List Nat) : List Nat :=
  if l.contains t then l else t :: l

/-- `*std::max_element` over a (nonempty) writer set. -/
def maxElem (l : List Nat) : Nat :=
  l.foldl Nat.max 0

/-- Source-operand readiness computation of `schedule_stage_first_half`
of procsim.cpp: a source register can be read when it has no register at
all, or the last state-updated writer already covers this instructions
tag with no older pending writer, or no in-flight writer sits between the
last state-updated tag and this instructions tag. -/
def src_ready (srcReg : Int) (myTag : Nat)
    (lsu : Int → Nat) (infl : Int → List Nat) : Bool :=
  if srcReg = -1 then true
  else
    let last := lsu srcReg
    let writers := infl srcReg
    if myTag ≤ last then
      !(writers.any (fun w => decide (w < myTag) && decide (w < last)))
    else if writers.isEmpty || decide (maxElem writers ≤ last) then true
    else !(writers.any (fun w => decide (last < w) && decide (w < myTag)))

/-- Fetch loop body of procsim.cpp (identical control flow to part_001). -/
def fetch_go (c : Nat) : Nat → State → State
  | 0, s => s
  | n + 1, s =>
    match s.source with
    | [] => s
    | inst :: rest =>
      let t := s.global_tag_counter
      let inst2 := { inst with tag := t }
      let st := Procsim.updFun s.instruction_cycles t
        { s.instruction_cycles t with fetch := c, dispatch := c + 1 }
      fetch_go c n
        { s with source := rest
                 global_tag_counter := t + 1
                 dispatch_queue := s.dispatch_queue ++ [inst2]
                 instruction_cycles := st }

/-- `fetch_stage` of procsim.cpp. -/
def fetch_stage (cfg : Cfg) (s : State) : State :=
  fetch_go s.current_cycle cfg.FETCH_RATE s

/-- Loop of `dispatch_stage_first_half` of procsim.cpp: scan the slots,
break when the queue empties, move the queue head into each free slot and
register it as an in-flight writer of its destination register. -/
def dispatch_first_go (c : Nat) :
    List Slot → List ProcInst → (Int → List Nat) → (Nat → Stamps) →
    (List Slot × List ProcInst × (Int → List Nat) × (Nat → Stamps))
  | [], q, infl, st => ([], q, infl, st)
  | slot :: rest, q, infl, st =>
    match q with
    | [] => (slot :: rest, [], infl, st)
    | inst :: qtail =>
      if slot.valid then
        let out := dispatch_first_go c rest (inst :: qtail) infl st
        (slot :: out.1, out.2)
      else
        let slot2 : Slot :=
          { slot with
            instruction := inst
            valid := true
            src1_ready := false
            src2_ready := false
            fired := false
            completed := false
            execute_cycles_left := 0
            tag_dispatched := true
            state_updated := false
            fired_cycle := 0 }
        let st2 := Procsim.updFun st inst.tag
          { st inst.tag with schedule := c + 1 }
        let infl2 :=
          if inst.dest_reg ≠ -1 then
            Procsim.updFun infl inst.dest_reg
              (setInsert inst.tag (infl inst.dest_reg))
          else infl
        let out := dispatch_first_go c rest qtail infl2 st2
        (slot2 :: out.1, out.2)

/-- `dispatch_stage_first_half` of procsim.cpp. -/
def dispatch_stage_first_half (s : State) : State :=
  let out := dispatch_first_go s.current_cycle s.reservation_station
    s.dispatch_queue s.register_in_flight_writers s.instruction_cycles
  { s with reservation_station := out.1
           dispatch_queue := out.2.1
           register_in_flight_writers := out.2.2.1
           instruction_cycles := out.2.2.2 }

/-- `dispatch_stage_second_half` of procsim.cpp: empty. -/
def dispatch_stage_second_half (s : State) : State := s

/-- Candidate collection of `schedule_stage_first_half` of procsim.cpp:
`(tag, index)` pairs of the valid, unfired, uncompleted slots whose source
operands are ready per `src_ready`. -/
def collect_ready (lsu : Int → Nat) (infl : Int → List Nat) (i : Nat) :
    List Slot → List (Nat × Nat)
  | [] => []
  | slot :: rest =>
    if slot.valid = true ∧ slot.fired = false ∧ slot.completed = false ∧
        src_ready slot.instruction.src_reg1 slot.instruction.tag lsu infl = true ∧
        src_ready slot.instruction.src_reg2 slot.instruction.tag lsu infl = true then
      (slot.instruction.tag, i) :: collect_ready lsu infl (i + 1) rest
    else collect_ready lsu infl (i + 1) rest

/-- Fire loop of `schedule_stage_first_half` of procsim.cpp: the sorted
candidates each try to acquire a unit of their class; on success the slot
fires with a one-cycle latency and the destination register is marked not
ready with this instruction as its last scheduled writer. -/
def fire_pairs_go (c : Nat) :
    List (Nat × Nat) → List Slot → (Int → Bool) → (Int → Nat) →
    Nat → Nat → Nat →
    (List Slot × (Int → Bool) × (Int → Nat) × Nat × Nat × Nat)
  | [], rs, regs, lsw, k0, k1, k2 => (rs, regs, lsw, k0, k1, k2)
  | (_, i) :: rest, rs, regs, lsw, k0, k1, k2 =>
    match rs.get? i with
    | none => fire_pairs_go c rest rs regs lsw k0 k1 k2
    | some slot =>
      let ft := Procsim.fu_type slot.instruction.op_code
      let acq : Bool × Nat × Nat × Nat :=
        if ft = 0 ∧ 0 < k0 then (true, k0 - 1, k1, k2)
        else if ft = 1 ∧ 0 < k1 then (true, k0, k1 - 1, k2)
        else if ft = 2 ∧ 0 < k2 then (true, k0, k1, k2 - 1)
        else (false, k0, k1, k2)
      if acq.1 then
        let rs2 := rs.set i
          { slot with fired := true, fired_cycle := c, execute_cycles_left := 1 }
        let regs2 :=
          if slot.instruction.dest_reg ≠ -1 then
            Procsim.updFun regs slot.instruction.dest_reg false
          else regs
        let lsw2 :=
          if slot.instruction.dest_reg ≠ -1 then
            Procsim.updFun lsw slot.instruction.dest_reg slot.instruction.tag
          else lsw
        fire_pairs_go c rest rs2 regs2 lsw2 acq.2.1 acq.2.2.1 acq.2.2.2
      else fire_pairs_go c rest rs regs lsw k0 k1 k2

/-- `schedule_stage_first_half` of procsim.cpp: collect the ready
candidates, sort them by tag, and fire them in that order subject to
functional-unit availability. -/
def schedule_stage_first_half (s : State) : State :=
  let cands := (collect_ready s.register_last_state_updated
    s.register_in_flight_writers 0 s.reservation_station).insertionSort
    Procsim.pairLe
  let out := fire_pairs_go s.current_cycle cands s.reservation_station
    s.register_ready s.register_last_scheduled_writer
    s.k0_fu_available s.k1_fu_available s.k2_fu_available
  { s with reservation_station := out.1
           register_ready := out.2.1
           register_last_scheduled_writer := out.2.2.1
           k0_fu_available := out.2.2.2.1
           k1_fu_available := out.2.2.2.2.1
           k2_fu_available := out.2.2.2.2.2 }

/-- `schedule_stage_second_half` of procsim.cpp: refresh the readiness
flags of every valid, unfired, uncompleted slot from the register-ready
array (these flags are not read by the fire phase, which recomputes
readiness from the writer tables). -/
def schedule_stage_second_half (s : State) : State :=
  { s with reservation_station := s.reservation_station.map (fun slot =>
      if slot.valid = true ∧ slot.fired = false ∧ slot.completed = false then
        { slot with
            src1_ready :=
              if slot.instruction.src_reg1 = -1 then true
              else s.register_ready slot.instruction.src_reg1
            src2_ready :=
              if slot.instruction.src_reg2 = -1 then true
              else s.register_ready slot.instruction.src_reg2 }
      else slot) }

/-- Execution-latency decrement of `execute_stage_first_half` of
procsim.cpp: a fired slot with one cycle left completes and stamps its
completion cycle. -/
def exec_tick (c : Nat) (slot : Slot) : Slot :=
  if slot.valid = true ∧ slot.fired = true ∧ slot.completed = false ∧
      0 < slot.execute_cycles_left then
    if slot.execute_cycles_left - 1 = 0 then
      { slot with execute_cycles_left := 0, completed := true,
                  completed_cycle := c }
    else { slot with execute_cycles_left := slot.execute_cycles_left - 1 }
  else slot

/-- EXECUTED stamps for the slots completing this cycle (procsim.cpp sets
them while printing the completions in sorted order; the per-tag map is
order-insensitive). -/
def exec_stamps (c : Nat) (rs : List Slot) (st : Nat → Stamps) :
    Nat → Stamps :=
  rs.foldl (fun st slot =>
    if slot.valid = true ∧ slot.fired = true ∧ slot.completed = false ∧
        slot.execute_cycles_left = 1 then
      Procsim.updFun st slot.instruction.tag
        { st slot.instruction.tag with execute := c }
    else st) st

/-- Broadcast candidates of procsim.cpp: `(completed_cycle, tag, index)`
triples of the valid, completed, not-yet-state-updated slots, in slot-scan
order. -/
def collect_completed (i : Nat) : List Slot → List (Nat × Nat × Nat)
  | [] => []
  | slot :: rest =>
    if slot.valid = true ∧ slot.completed = true ∧
        slot.state_updated = false then
      (slot.completed_cycle, slot.instruction.tag, i) ::
        collect_completed (i + 1) rest
    else collect_completed (i + 1) rest

/-- Broadcast loop of `execute_stage_first_half` of procsim.cpp: walk the
sorted completed instructions; while fewer than R buses are used, put the
next tag on the result bus and release its functional unit. -/
def bus_push_go (R : Nat) :
    List (Nat × Nat × Nat) → List Slot → Nat → List Nat →
    Nat → Nat → Nat →
    (List Nat × Nat × Nat × Nat)
  | [], _, _, bus, k0, k1, k2 => (bus, k0, k1, k2)
  | (_, _, i) :: rest, rs, used, bus, k0, k1, k2 =>
    if used < R then
      match rs.get? i with
      | none => bus_push_go R rest rs used bus k0 k1 k2
      | some slot =>
        let ft := Procsim.fu_type slot.instruction.op_code
        let k0b := if ft = 0 then k0 + 1 else k0
        let k1b := if ft = 1 then k1 + 1 else k1
        let k2b := if ft = 2 then k2 + 1 else k2
        bus_push_go R rest rs (used + 1) (bus ++ [slot.instruction.tag])
          k0b k1b k2b
    else (bus, k0, k1, k2)

/-- `execute_stage_first_half` of procsim.cpp: tick execution latencies,
then rank the completed-unbroadcast slots by completion cycle and tag and
put the first R of them on the result bus, releasing their units. -/
def execute_stage_first_half (cfg : Cfg) (s : State) : State :=
  let st2 := exec_stamps s.current_cycle s.reservation_station
    s.instruction_cycles
  let rs2 := s.reservation_station.map (exec_tick s.current_cycle)
  let cands := (collect_completed 0 rs2).insertionSort Procsim.bcastLe
  let out := bus_push_go cfg.RESULT_BUSES cands rs2 0 s.result_bus_tags
    s.k0_fu_available s.k1_fu_available s.k2_fu_available
  { s with reservation_station := rs2
           result_bus_tags := out.1
           k0_fu_available := out.2.1
           k1_fu_available := out.2.2.1
           k2_fu_available := out.2.2.2
           instruction_cycles := st2 }

/-- `execute_stage_second_half` of procsim.cpp: empty. -/
def execute_stage_second_half (s : State) : State := s

/-- Lookup of the first valid slot carrying a given tag (the find-loops of
`state_update_stage_first_half` of procsim.cpp). -/
def findByTag (t : Nat) : List Slot → Option Slot
  | [] => none
  | slot :: rest =>
    if slot.valid = true ∧ slot.instruction.tag = t then some slot
    else findByTag t rest

/-- Marking of the first valid slot carrying a given tag as state-updated. -/
def mark_state_updated (t : Nat) : List Slot → List Slot
  | [] => []
  | slot :: rest =>
    if slot.valid = true ∧ slot.instruction.tag = t then
      { slot with state_updated := true } :: rest
    else slot :: mark_state_updated t rest

/-- Per-broadcast state update of `state_update_stage_first_half` of
procsim.cpp: stamp the retirement cycle, mark the slot state-updated, and
update the destination registers writer tables — raise the
last-state-updated tag, remove this writer from the in-flight set, and
mark the register ready (clearing the last-scheduled-writer tag) only if
this instruction is still the last scheduled writer. -/
def su_process_one (c : Nat) (s : State) (t : Nat) : State :=
  let st2 := Procsim.updFun s.instruction_cycles t
    { s.instruction_cycles t with state_update := c }
  match findByTag t s.reservation_station with
  | none => { s with instruction_cycles := st2 }
  | some slot =>
    let rs2 := mark_state_updated t s.reservation_station
    let d := slot.instruction.dest_reg
    if d ≠ -1 then
      let lsu2 :=
        if s.register_last_state_updated d < t then
          Procsim.updFun s.register_last_state_updated d t
        else s.register_last_state_updated
      let infl2 := Procsim.updFun s.register_in_flight_writers d
        ((s.register_in_flight_writers d).erase t)
      let sched := s.register_last_scheduled_writer d
      let regs2 :=
        if sched = t then Procsim.updFun s.register_ready d true
        else s.register_ready
      let lsw2 :=
        if sched = t then Procsim.updFun s.register_last_scheduled_writer d 0
        else s.register_last_scheduled_writer
      { s with reservation_station := rs2
               instruction_cycles := st2
               register_last_state_updated := lsu2
               register_in_flight_writers := infl2
               register_ready := regs2
               register_last_scheduled_writer := lsw2 }
    else
      { s with reservation_station := rs2, instruction_cycles := st2 }

/-- `state_update_stage_first_half` of procsim.cpp: pair every bus tag
with its completion cycle, sort by completion cycle then tag, process each
in that order, and clear the bus. -/
def state_update_stage_first_half (s : State) : State :=
  let pairs := s.result_bus_tags.filterMap (fun t =>
    (findByTag t s.reservation_station).map
      (fun slot => (slot.completed_cycle, t, 0)))
  let sorted := pairs.insertionSort Procsim.bcastLe
  let s2 := sorted.foldl (fun s p => su_process_one s.current_cycle s p.2.1) s
  { s2 with result_bus_tags := [] }

/-- `state_update_stage_second_half` of procsim.cpp: free every
state-updated slot and count it retired (no cycle comparison: a slot is
marked state-updated only in the first half of the cycle after its
broadcast). -/
def state_update_stage_second_half (s : State) : State :=
  { s with
      reservation_station := s.reservation_station.map (fun slot =>
        if slot.valid = true ∧ slot.state_updated = true then
          { slot with valid := false, state_updated := false }
        else slot)
      instructions_retired := s.instructions_retired +
        s.reservation_station.countP
          (fun slot => slot.valid && slot.state_updated) }

/-- One iteration of the `run_proc` loop of procsim.cpp, in its phase
order: first half state-update, execute, schedule, dispatch, fetch; second
half dispatch, schedule, execute, state-update. -/
def cycleStep (cfg : Cfg) (s : State) : State :=
  state_update_stage_second_half
    (execute_stage_second_half
      (schedule_stage_second_half
        (dispatch_stage_second_half
          (fetch_stage cfg
            (dispatch_stage_first_half
              (schedule_stage_first_half
                (execute_stage_first_half cfg
                  (state_update_stage_first_half (tick s)))))))))

/-- `all_rs_empty` of procsim.cpp. -/
def all_rs_empty (s : State) : Bool :=
  s.reservation_station.all (fun slot => !slot.valid)

/-- Loop-exit condition of `run_proc` of procsim.cpp: the source is
exhausted, the dispatch queue is empty and no RS slot is occupied. -/
def done (s : State) : Bool :=
  s.source.isEmpty && s.dispatch_queue.isEmpty && all_rs_empty s

/-- `n` iterations of the procsim.cpp cycle loop. -/
def steps (cfg : Cfg) (n : Nat) (s : State) : State :=
  (cycleStep cfg)^[n] s

end Procsim.PC

namespace Procsim.Scen

/-- Scenario 1 configuration: F=1, one unit per pool, R=1. -/
def c7cfg : Cfg := ⟨1, 1, 1, 1, 1⟩

/-- A single dependency-free class-A instruction. -/
def c7in : List ProcInst := [⟨0, -1, -1, -1, 0⟩]

/-- Run of procsim.cpp on scenario 1. -/
def c7s (n : Nat) : PC.State := PC.steps c7cfg n (PC.setup_proc c7cfg c7in)

/-- Slot-reuse fairness scenario: one class-A and one class-B unit
(RS size 4), F=4, R=1. -/
def c2cfg : Cfg := ⟨1, 1, 1, 0, 4⟩

/-- Five instructions: a class-B filler, a class-A filler, a class-A
writer of r1, a class-A reader of r1, and a dependency-free class-A
straggler that is dispatched into the recycled slot 0. -/
def c2in : List ProcInst :=
  [⟨1, -1, -1, -1, 0⟩, ⟨0, -1, -1, -1, 0⟩, ⟨0, -1, -1, 1, 0⟩,
   ⟨0, 1, -1, -1, 0⟩, ⟨0, -1, -1, -1, 0⟩]

/-- Run of part_001 on the slot-reuse scenario. -/
def c2s (n : Nat) : P1.State := P1.steps c2cfg n (P1.setup_proc c2cfg c2in)

/-- Write-after-write scenario for the broadcast readiness check:
one class-A unit (RS size 2), F=2, R=1. -/
def c3cfg : Cfg := ⟨1, 1, 0, 0, 2⟩

/-- Two class-A writers of the same register r1. -/
def c3in : List ProcInst := [⟨0, -1, -1, 1, 0⟩, ⟨0, -1, -1, 1, 0⟩]

/-- Run of part_002 on the write-after-write scenario. -/
def c3s (n : Nat) : P2.State := P2.steps c3cfg n (P2.setup_proc c3cfg c3in)

/-- The part_002 state in the middle of cycle 4 of the write-after-write
scenario, right after its `execute_stage_first_half` (the broadcast). -/
def c3mid : P2.State :=
  P2.execute_stage_first_half c3cfg
    (P2.state_update_stage_first_half (P2.tick (c3s 3)))

/-- Read-after-write scenario for cross-implementation comparison:
two class-A units (RS size 4), F=2, R=1. -/
def c9cfg : Cfg := ⟨1, 2, 0, 0, 2⟩

/-- A class-A writer of r1 followed by a class-A reader of r1. -/
def c9in : List ProcInst := [⟨0, -1, -1, 1, 0⟩, ⟨0, 1, -1, -1, 0⟩]

/-- Run of part_001 on the read-after-write scenario. -/
def c9s1 (n : Nat) : P1.State := P1.steps c9cfg n (P1.setup_proc c9cfg c9in)

/-- Run of part_002 on the read-after-write scenario. -/
def c9s2 (n : Nat) : P2.State := P2.steps c9cfg n (P2.setup_proc c9cfg c9in)

/-- A single instruction with the unrecognized opcode 3. -/
def c8in : List ProcInst := [⟨3, -1, -1, -1, 0⟩]

/-- Run of procsim.cpp on the unrecognized-opcode input (configuration of
scenario 1: every pool has one unit). -/
def c8s (n : Nat) : PC.State := PC.steps c7cfg n (PC.setup_proc c7cfg c8in)

/-- Zero-result-bus configuration: R=0, one unit per pool, F=1. -/
def r0cfg : Cfg := ⟨0, 1, 1, 1, 1⟩

/-- Run of procsim.cpp with R=0 on the single class-A instruction. -/
def r0s (n : Nat) : PC.State := PC.steps r0cfg n (PC.setup_proc r0cfg c7in)

/-- Zero-fetch-rate configuration: F=0, one unit per pool, R=1. -/
def f0cfg : Cfg := ⟨1, 1, 1, 1, 0⟩

/-- Run of procsim.cpp with F=0 on the single class-A instruction. -/
def f0s (n : Nat) : PC.State := PC.steps f0cfg n (PC.setup_proc f0cfg c7in)

/-- A single instruction with the unrecognized opcode 5 (its class under
the specs reading is B, whose pool is nonzero in `c7cfg`). -/
def c5in : List ProcInst := [⟨5, -1, -1, -1, 0⟩]

/-- Run of procsim.cpp on the opcode-5 input. -/
def c5s (n : Nat) : PC.State := PC.steps c7cfg n (PC.setup_proc c7cfg c5in)

end Procsim.Scen

namespace Procsim

instance : IsTotal (Nat × Nat) pairLe :=
  ⟨fun a b => by
    unfold pairLe
    rcases Nat.lt_trichotomy a.1 b.1 with h | h | h
    · exact Or.inl (Or.inl h)
    · rcases Nat.le_total a.2 b.2 with h2 | h2
      · exact Or.inl (Or.inr ⟨h, h2⟩)
      · exact Or.inr (Or.inr ⟨h.symm, h2⟩)
    · exact Or.inr (Or.inl h)⟩

instance : IsTrans (Nat × Nat) pairLe :=
  ⟨fun a b c hab hbc => by
    unfold pairLe at hab hbc ⊢
    rcases hab with h | ⟨h1, h2⟩ <;> rcases hbc with g | ⟨g1, g2⟩
    · exact Or.inl (Nat.lt_trans h g)
    · exact Or.inl (g1 ▸ h)
    · exact Or.inl (h1 ▸ g)
    · exact Or.inr ⟨h1.trans g1, h2.trans g2⟩⟩

instance : IsTotal (Nat × Nat × Nat) bcastLe :=
  ⟨fun a b => by
    unfold bcastLe
    rcases Nat.lt_trichotomy a.1 b.1 with h | h | h
    · exact Or.inl (Or.inl h)
    · rcases Nat.le_total a.2.1 b.2.1 with h2 | h2
      · exact Or.inl (Or.inr ⟨h, h2⟩)
      · exact Or.inr (Or.inr ⟨h.symm, h2⟩)
    · exact Or.inr (Or.inl h)⟩

instance : IsTrans (Nat × Nat × Nat) bcastLe :=
  ⟨fun a b c hab hbc => by
    unfold bcastLe at hab hbc ⊢
    rcases hab with h | ⟨h1, h2⟩ <;> rcases hbc with g | ⟨g1, g2⟩
    · exact Or.inl (Nat.lt_trans h g)
    · exact Or.inl (g1 ▸ h)
    · exact Or.inl (h1 ▸ g)
    · exact Or.inr ⟨h1.trans g1, h2.trans g2⟩⟩

end Procsim

namespace Procsim.PC

/-- The broadcast ranking computed inside `execute_stage_first_half` of
procsim.cpp: the completed-but-not-state-updated slots (after this cycles
completion sweep), ordered by completion cycle and then by tag. -/
def rankedCandidates (c : Nat) (rs : List Slot) : List (Nat × Nat × Nat) :=
  (collect_completed 0 (rs.map (exec_tick c))).insertionSort Procsim.bcastLe

end Procsim.PC

namespace Procsim.PC

/-- Bounds-checked read of a 128-entry register table.  The C++ tables
`register_ready`, `register_last_state_updated`,
`register_in_flight_writers` and `register_last_scheduled_writer` all
have `NUM_REGISTERS = 128` entries and are indexed by raw `int32_t`
values with no bounds check; this total embedding of that indexing
returns `none` outside [0, 128). -/
def readReg {β : Type} (f : Int → β) (i : Int) : Option β :=
  if 0 ≤ i ∧ i < 128 then some (f i) else none

/-- The C10 precondition on one register index of an input instruction:
either −1 (no register) or a table index in [0, 128). -/
def regIdxOk (i : Int) : Prop := i = -1 ∨ (0 ≤ i ∧ i < 128)

instance (i : Int) : Decidable (regIdxOk i) :=
  inferInstanceAs (Decidable (i = -1 ∨ (0 ≤ i ∧ i < 128)))

/-- `src_ready` of procsim.cpp with its two register-table accesses
(last-state-updated tag and in-flight-writer set) bounds-checked. -/
def src_ready_checked (srcReg : Int) (myTag : Nat)
    (lsu : Int → Nat) (infl : Int → List Nat) : Option Bool :=
  if srcReg = -1 then some true
  else
    match readReg lsu srcReg, readReg infl srcReg with
    | some last, some writers =>
      some (if myTag ≤ last then
        !(writers.any (fun w => decide (w < myTag) && decide (w < last)))
      else if writers.isEmpty || decide (maxElem writers ≤ last) then true
      else !(writers.any (fun w => decide (last < w) && decide (w < myTag))))
    | _, _ => none

/-- The dispatch-time in-flight-writer insertion of procsim.cpp with its
access bounds-checked. -/
def dispatch_inflight_checked (destReg : Int) (t : Nat)
    (infl : Int → List Nat) : Option (Int → List Nat) :=
  if destReg = -1 then some infl
  else
    match readReg infl destReg with
    | some writers =>
      some (Procsim.updFun infl destReg (setInsert t writers))
    | none => none

/-- The wakeup-phase register-ready read of procsim.cpp with its access
bounds-checked. -/
def reg_ready_checked (srcReg : Int) (regs : Int → Bool) : Option Bool :=
  if srcReg = -1 then some true
  else readReg regs srcReg

end Procsim.PC

namespace Procsim.PC

/-- Functional-unit pool capacity of an opcode class, as configured. -/
def capOf (cfg : Cfg) (ft : Int) : Nat :=
  if ft = 0 then cfg.K0_FU_COUNT
  else if ft = 1 then cfg.K1_FU_COUNT
  else if ft = 2 then cfg.K2_FU_COUNT
  else 0

/-- Available-unit count of an opcode class in a state. -/
def availOf (c : Int) (s : State) : Nat :=
  if c = 0 then s.k0_fu_available
  else if c = 1 then s.k1_fu_available
  else s.k2_fu_available

/-- Precondition on one instruction for the amended termination claim:
its opcode is one the code recognizes (−1, 0, 1 or 2) and the pool of its
class is nonzero. -/
def opOk (cfg : Cfg) (inst : ProcInst) : Prop :=
  (inst.op_code = -1 ∨ inst.op_code = 0 ∨ inst.op_code = 1 ∨
    inst.op_code = 2) ∧
  1 ≤ capOf cfg (Procsim.fu_type inst.op_code)

/-- Pipeline-progress potential of one reservation-station slot: 4 while
waiting to fire, 3 while executing, 2 once completed and awaiting its
state update, 0 after the state update (or free). -/
def slotPot (σ : Slot) : Nat :=
  if σ.valid = false then 0
  else if σ.fired = false then 4
  else if σ.completed = false then 3
  else if σ.state_updated = true then 0
  else 2

/-- Total slot potential of a reservation station. -/
def rsPot (rs : List Slot) : Nat :=
  (rs.map slotPot).sum

/-- Global progress measure: every pipeline transition of every
instruction strictly decreases it, and some transition happens in every
cycle of a non-finished run. -/
def M (s : State) : Nat :=
  6 * s.source.length + 5 * s.dispatch_queue.length +
    rsPot s.reservation_station

/-- Tags of the occupied reservation-station slots. -/
def validTags (rs : List Slot) : List Nat :=
  rs.filterMap (fun σ => if σ.valid = true then some σ.instruction.tag
    else none)

/-- Tags of the queued instructions. -/
def queueTags (q : List ProcInst) : List Nat :=
  q.map (fun inst => inst.tag)

/-- In-flight (fired, not state-updated, not on the bus) instructions of
one opcode class: the instructions currently holding a functional unit of
that class. -/
def pendingCnt (c : Int) (bus : List Nat) (rs : List Slot) : Nat :=
  rs.countP (fun σ => σ.valid && σ.fired && !σ.state_updated &&
    !(bus.contains σ.instruction.tag) &&
    decide (Procsim.fu_type σ.instruction.op_code = c))

/-- The run invariant of procsim.cpp used for the termination proof.
`N` is the total number of instructions of the input stream. -/
structure Inv (cfg : Cfg) (N : Nat) (s : State) : Prop where
  slotOk : ∀ σ ∈ s.reservation_station, σ.valid = true →
    opOk cfg σ.instruction ∧ (σ.completed = true → σ.fired = true) ∧
    (σ.fired = true → σ.completed = false → σ.execute_cycles_left = 1) ∧
    σ.state_updated = false
  nodup : (validTags s.reservation_station ++
    queueTags s.dispatch_queue).Nodup
  tagLt : ∀ t ∈ validTags s.reservation_station ++
    queueTags s.dispatch_queue, t < s.global_tag_counter
  busOk : ∀ t ∈ s.result_bus_tags, ∃ σ ∈ s.reservation_station,
    σ.valid = true ∧ σ.instruction.tag = t ∧ σ.fired = true ∧
    σ.completed = true ∧ σ.state_updated = false
  busEmpty : s.result_bus_tags = [] → ∀ σ ∈ s.reservation_station,
    σ.valid = true → σ.completed = true → σ.state_updated = true
  fuAcct0 : s.k0_fu_available +
    pendingCnt 0 s.result_bus_tags s.reservation_station = cfg.K0_FU_COUNT
  fuAcct1 : s.k1_fu_available +
    pendingCnt 1 s.result_bus_tags s.reservation_station = cfg.K1_FU_COUNT
  fuAcct2 : s.k2_fu_available +
    pendingCnt 2 s.result_bus_tags s.reservation_station = cfg.K2_FU_COUNT
  inflOk : ∀ r : Int, r ≠ -1 → ∀ w ∈ s.register_in_flight_writers r,
    ∃ σ ∈ s.reservation_station, σ.valid = true ∧ σ.instruction.tag = w ∧
      σ.instruction.dest_reg = r ∧ σ.state_updated = false
  inflNodup : ∀ r : Int, (s.register_in_flight_writers r).Nodup
  queueOk : ∀ inst ∈ s.dispatch_queue, opOk cfg inst
  srcOk : ∀ inst ∈ s.source, opOk cfg inst
  cons : s.instructions_retired + s.dispatch_queue.length +
    s.reservation_station.countP (fun σ => σ.valid) + s.source.length = N
  rsLen : s.reservation_station.length = cfg.rs_size

end Procsim.PC

namespace Procsim.PC

/-- Mid-cycle form of the run invariant, threaded between the phases of
one cycle: identical to `Inv` except that an occupied slot may already be
state-updated (then it is completed), and the no-pending-completion
property of an empty bus is tracked separately. -/
structure MidInv (cfg : Cfg) (N : Nat) (s : State) : Prop where
  slotOk : ∀ σ ∈ s.reservation_station, σ.valid = true →
    opOk cfg σ.instruction ∧ (σ.completed = true → σ.fired = true) ∧
    (σ.fired = true → σ.completed = false →
      σ.execute_cycles_left = 1) ∧
    (σ.state_updated = true → σ.completed = true)
  nodup : (validTags s.reservation_station ++
    queueTags s.dispatch_queue).Nodup
  tagLt : ∀ t ∈ validTags s.reservation_station ++
    queueTags s.dispatch_queue, t < s.global_tag_counter
  busOk : ∀ t ∈ s.result_bus_tags, ∃ σ ∈ s.reservation_station,
    σ.valid = true ∧ σ.instruction.tag = t ∧ σ.fired = true ∧
    σ.completed = true ∧ σ.state_updated = false
  fuAcct0 : s.k0_fu_available +
    pendingCnt 0 s.result_bus_tags s.reservation_station = cfg.K0_FU_COUNT
  fuAcct1 : s.k1_fu_available +
    pendingCnt 1 s.result_bus_tags s.reservation_station = cfg.K1_FU_COUNT
  fuAcct2 : s.k2_fu_available +
    pendingCnt 2 s.result_bus_tags s.reservation_station = cfg.K2_FU_COUNT
  inflOk : ∀ r : Int, r ≠ -1 → ∀ w ∈ s.register_in_flight_writers r,
    ∃ σ ∈ s.reservation_station, σ.valid = true ∧ σ.instruction.tag = w ∧
      σ.instruction.dest_reg = r ∧ σ.state_updated = false
  inflNodup : ∀ r : Int, (s.register_in_flight_writers r).Nodup
  queueOk : ∀ inst ∈ s.dispatch_queue, opOk cfg inst
  srcOk : ∀ inst ∈ s.source, opOk cfg inst
  cons : s.instructions_retired + s.dispatch_queue.length +
    s.reservation_station.countP (fun σ => σ.valid) + s.source.length = N
  rsLen : s.reservation_station.length = cfg.rs_size

/-- Empty-bus exhaustiveness: a clear bus means no occupied completed
slot is still awaiting its state update. -/
def BE (s : State) : Prop :=
  s.result_bus_tags = [] → ∀ σ ∈ s.reservation_station,
    σ.valid = true → σ.completed = true → σ.state_updated = true

end Procsim.PC

-- ===================== THEOREMS =====================

namespace Procsim

/-- C7: with F=1, one functional unit per pool, R=1 and a single
dependency-free instruction, procsim.cpp stamps fetch at cycle 1, dispatch
at cycle 2, fire (schedule) at cycle 3, complete (execute) at cycle 4,
broadcasts on cycle 4 (the tag is on the result bus at the end of cycle
4), and retires (state update) at cycle 5, after which the run is done
with exactly one instruction retired. -/
theorem c7_scenario1_cycle_stamps :
    (Scen.c7s 5).instruction_cycles 1 =
      { fetch := 1, dispatch := 2, schedule := 3, execute := 4,
        state_update := 5 } ∧
    (Scen.c7s 4).result_bus_tags = [1] ∧
    PC.done (Scen.c7s 5) = true ∧
    (Scen.c7s 5).instructions_retired = 1 := by
  decide

end Procsim

namespace Procsim

/-- C2 (failing run of part_001): on the slot-reuse scenario, at the start
of cycle 7 both tag 5 (recycled slot 0) and the older tag 4 (slot 3) are
valid, unfired, with both sources ready, and both need a class-0 unit; in
cycle 7 part_001 — which walks the reservation station in storage order,
not tag order — fires the younger tag 5 and leaves the older tag 4
unfired. -/
theorem c2_part001_fires_younger_before_older :
    ((Scen.c2s 6).reservation_station.get? 0).map (fun sl =>
      (sl.instruction.tag, sl.valid, sl.fired, sl.src1_ready, sl.src2_ready,
       fu_type sl.instruction.op_code)) =
      some (5, true, false, true, true, 0) ∧
    ((Scen.c2s 6).reservation_station.get? 3).map (fun sl =>
      (sl.instruction.tag, sl.valid, sl.fired, sl.src1_ready, sl.src2_ready,
       fu_type sl.instruction.op_code)) =
      some (4, true, false, true, true, 0) ∧
    ((Scen.c2s 7).reservation_station.get? 0).map (fun sl =>
      (sl.instruction.tag, sl.fired)) = some (5, true) ∧
    ((Scen.c2s 7).instruction_cycles 5).schedule = 7 ∧
    ((Scen.c2s 7).reservation_station.get? 3).map (fun sl =>
      (sl.instruction.tag, sl.valid, sl.fired)) = some (4, true, false) :=
  ⟨by decide, by decide, by decide, by decide, by decide⟩

/-- C3 (failing run of part_002): on the write-after-write scenario, at
the start of cycle 4 register 1 is not ready; during cycle 4 the
superseded writer tag 1 broadcasts while the later-dispatched writer tag 2
of the same register is still in flight and unfired, and the broadcast
nevertheless marks register 1 ready (part_002 performs no
most-recent-writer check). -/
theorem c3_part002_superseded_broadcast_sets_ready :
    (Scen.c3s 3).register_ready 1 = false ∧
    Scen.c3mid.result_bus_tags = [1] ∧
    (Scen.c3mid.reservation_station.get? 1).map (fun sl =>
      (sl.instruction.tag, sl.valid, sl.fired, sl.instruction.dest_reg)) =
      some (2, true, false, 1) ∧
    Scen.c3mid.register_ready 1 = true :=
  ⟨by decide, by decide, by decide, by decide⟩

/-- C9 (failing input): on the read-after-write scenario with two class-A
units, part_001 fires the dependent reader (tag 2) at cycle 5 — one cycle
after its producers broadcast — while part_002 fires it at cycle 3,
before the producer has even completed (cycle 4); the per-tag cycle-stamp
tables of the two implementation variants differ. -/
theorem c9_part001_part002_stamp_tables_differ :
    ((Scen.c9s1 8).instruction_cycles 2).schedule = 5 ∧
    ((Scen.c9s2 8).log_stamps 2).schedule = 3 ∧
    ((Scen.c9s2 8).log_stamps 1).execute = 4 ∧
    P1.done (Scen.c9s1 8) = true ∧ P2.done (Scen.c9s2 8) = true :=
  ⟨by decide, by decide, by decide, by decide, by decide⟩

/-- C8 (counterexample): opcode 3 is mapped by `fu_type` to none of the
three functional-unit classes, and an instruction carrying it is never
fired even though all three pools have a free unit — after ten cycles of
procsim.cpp it still sits valid and unfired in the reservation station
and the run is not done. -/
theorem c8_unrecognized_opcode_counterexample :
    fu_type 3 ≠ 0 ∧ fu_type 3 ≠ 1 ∧ fu_type 3 ≠ 2 ∧
    ((Scen.c8s 10).reservation_station.get? 0).map (fun sl =>
      (sl.valid, sl.fired, sl.instruction.op_code)) = some (true, false, 3) ∧
    (Scen.c8s 10).k0_fu_available = 1 ∧
    (Scen.c8s 10).k1_fu_available = 1 ∧
    (Scen.c8s 10).k2_fu_available = 1 ∧
    PC.done (Scen.c8s 10) = false :=
  ⟨by decide, by decide, by decide, by decide, by decide, by decide, by decide,
   by decide⟩

end Procsim

namespace Procsim

/-- With R=0, once the lone instruction of the single-instruction run has
completed (after cycle 4) the procsim.cpp cycle function only advances the
cycle counter: nothing can ever broadcast, so the completed slot is never
freed. -/
theorem pc_r0_stuck (s : PC.State)
    (hrs : s.reservation_station = (Scen.r0s 4).reservation_station)
    (hsrc : s.source = []) (hq : s.dispatch_queue = [])
    (hbus : s.result_bus_tags = []) :
    PC.cycleStep Scen.r0cfg s = PC.tick s := by
  obtain ⟨q, rs, bus, rr, rlsu, rifw, rlsw, k0, k1, k2, tagc, cyc, ret, src, st⟩ := s
  dsimp only at hrs hsrc hq hbus
  subst hrs hsrc hq hbus
  rfl

/-- The stuck components of the R=0 run persist from cycle 4 on. -/
theorem pc_r0_frozen (m : Nat) :
    (Scen.r0s (4 + m)).reservation_station =
      (Scen.r0s 4).reservation_station ∧
    (Scen.r0s (4 + m)).source = [] ∧
    (Scen.r0s (4 + m)).dispatch_queue = [] ∧
    (Scen.r0s (4 + m)).result_bus_tags = [] := by
  induction m with
  | zero => exact ⟨rfl, by decide, by decide, by decide⟩
  | succ k ih =>
    have hstep : Scen.r0s (4 + (k + 1)) =
        PC.cycleStep Scen.r0cfg (Scen.r0s (4 + k)) := by
      show PC.steps _ ((4 + k) + 1) _ = _
      exact Function.iterate_succ_apply' _ _ _
    rw [hstep, pc_r0_stuck _ ih.1 ih.2.1 ih.2.2.1 ih.2.2.2]
    exact ⟨ih.1, ih.2.1, ih.2.2.1, ih.2.2.2⟩

/-- The R=0 run is never done from cycle 4 on. -/
theorem pc_r0_done_false (m : Nat) : PC.done (Scen.r0s (4 + m)) = false := by
  obtain ⟨h1, h2, h3, _⟩ := pc_r0_frozen m
  unfold PC.done PC.all_rs_empty
  rw [h1, h2, h3]
  decide

/-- With F=0 nothing is ever fetched: the procsim.cpp cycle function only
advances the cycle counter while the source stays nonempty. -/
theorem pc_f0_stuck (s : PC.State)
    (hrs : s.reservation_station = (Scen.f0s 0).reservation_station)
    (hq : s.dispatch_queue = []) (hbus : s.result_bus_tags = []) :
    PC.cycleStep Scen.f0cfg s = PC.tick s := by
  obtain ⟨q, rs, bus, rr, rlsu, rifw, rlsw, k0, k1, k2, tagc, cyc, ret, src, st⟩ := s
  dsimp only at hrs hq hbus
  subst hrs hq hbus
  rfl

/-- The stuck components of the F=0 run persist from cycle 0 on. -/
theorem pc_f0_frozen (m : Nat) :
    (Scen.f0s m).reservation_station = (Scen.f0s 0).reservation_station ∧
    (Scen.f0s m).source = Scen.c7in ∧
    (Scen.f0s m).dispatch_queue = [] ∧
    (Scen.f0s m).result_bus_tags = [] := by
  induction m with
  | zero => exact ⟨rfl, rfl, rfl, rfl⟩
  | succ k ih =>
    have hstep : Scen.f0s (k + 1) =
        PC.cycleStep Scen.f0cfg (Scen.f0s k) := by
      show PC.steps _ (k + 1) _ = _
      exact Function.iterate_succ_apply' _ _ _
    rw [hstep, pc_f0_stuck _ ih.1 ih.2.2.1 ih.2.2.2]
    exact ⟨ih.1, ih.2.1, ih.2.2.1, ih.2.2.2⟩

/-- The F=0 run is never done. -/
theorem pc_f0_done_false (m : Nat) : PC.done (Scen.f0s m) = false := by
  obtain ⟨h1, h2, h3, _⟩ := pc_f0_frozen m
  unfold PC.done PC.all_rs_empty
  rw [h1, h2, h3]
  decide

/-- An instruction with opcode 5 can never fire (no functional-unit branch
matches), so from cycle 2 on the procsim.cpp cycle function only advances
the cycle counter. -/
theorem pc_op5_stuck (s : PC.State)
    (hrs : s.reservation_station = (Scen.c5s 2).reservation_station)
    (hsrc : s.source = []) (hq : s.dispatch_queue = [])
    (hbus : s.result_bus_tags = []) :
    PC.cycleStep Scen.c7cfg s = PC.tick s := by
  obtain ⟨q, rs, bus, rr, rlsu, rifw, rlsw, k0, k1, k2, tagc, cyc, ret, src, st⟩ := s
  dsimp only at hrs hsrc hq hbus
  subst hrs hsrc hq hbus
  rfl

/-- The stuck components of the opcode-5 run persist from cycle 2 on. -/
theorem pc_op5_frozen (m : Nat) :
    (Scen.c5s (2 + m)).reservation_station =
      (Scen.c5s 2).reservation_station ∧
    (Scen.c5s (2 + m)).source = [] ∧
    (Scen.c5s (2 + m)).dispatch_queue = [] ∧
    (Scen.c5s (2 + m)).result_bus_tags = [] := by
  induction m with
  | zero => exact ⟨rfl, by decide, by decide, by decide⟩
  | succ k ih =>
    have hstep : Scen.c5s (2 + (k + 1)) =
        PC.cycleStep Scen.c7cfg (Scen.c5s (2 + k)) := by
      show PC.steps _ ((2 + k) + 1) _ = _
      exact Function.iterate_succ_apply' _ _ _
    rw [hstep, pc_op5_stuck _ ih.1 ih.2.1 ih.2.2.1 ih.2.2.2]
    exact ⟨ih.1, ih.2.1, ih.2.2.1, ih.2.2.2⟩

/-- The opcode-5 run is never done from cycle 2 on. -/
theorem pc_op5_done_false (m : Nat) : PC.done (Scen.c5s (2 + m)) = false := by
  obtain ⟨h1, h2, h3, _⟩ := pc_op5_frozen m
  unfold PC.done PC.all_rs_empty
  rw [h1, h2, h3]
  decide

/-- C5 (counterexample): the claims precondition (nonzero pool capacity
for every instructions class) does not suffice for termination of
procsim.cpp.  Three runs that satisfy it never reach the loop-exit
condition: (i) R=0 with a single class-A instruction and all pools of
size 1 — the instruction completes but can never broadcast; (ii) F=0 with
a nonempty source — nothing is ever fetched and the source is never
exhausted; (iii) an instruction with the unrecognized opcode 5 (class B
under the specs mapping, and the class-B pool is nonzero) — it never
matches a functional-unit branch and never fires. -/
theorem c5_nontermination_counterexample :
    (¬ ∃ n, PC.done (Scen.r0s n) = true) ∧
    (¬ ∃ n, PC.done (Scen.f0s n) = true) ∧
    (¬ ∃ n, PC.done (Scen.c5s n) = true) := by
  refine ⟨?_, ?_, ?_⟩ <;> rintro ⟨n, hn⟩
  · rcases Nat.lt_or_ge n 4 with h | h
    · interval_cases n <;> exact absurd hn (by decide)
    · obtain ⟨m, rfl⟩ := Nat.exists_eq_add_of_le h
      rw [pc_r0_done_false m] at hn
      exact Bool.false_ne_true hn
  · rw [pc_f0_done_false n] at hn
    exact Bool.false_ne_true hn
  · rcases Nat.lt_or_ge n 2 with h | h
    · interval_cases n <;> exact absurd hn (by decide)
    · obtain ⟨m, rfl⟩ := Nat.exists_eq_add_of_le h
      rw [pc_op5_done_false m] at hn
      exact Bool.false_ne_true hn

end Procsim

namespace Procsim

/-- The fire loop of procsim.cpp never touches a slot whose opcode maps to
none of the three functional-unit classes: no acquisition branch matches,
so the slot is left exactly as it was. -/
theorem pc_fire_pairs_go_no_class (c : Nat) (cands : List (Nat × Nat))
    (rs : List PC.Slot) (regs : Int → Bool) (lsw : Int → Nat)
    (k0 k1 k2 : Nat) (i : Nat) (slot : PC.Slot)
    (hget : rs.get? i = some slot)
    (h0 : fu_type slot.instruction.op_code ≠ 0)
    (h1 : fu_type slot.instruction.op_code ≠ 1)
    (h2 : fu_type slot.instruction.op_code ≠ 2) :
    (PC.fire_pairs_go c cands rs regs lsw k0 k1 k2).1.get? i = some slot := by
  induction cands generalizing rs regs lsw k0 k1 k2 with
  | nil => exact hget
  | cons p rest ih =>
    obtain ⟨t, j⟩ := p
    rw [PC.fire_pairs_go]
    rcases hj : rs.get? j with _ | slotj
    · exact ih rs regs lsw k0 k1 k2 hget
    · simp only []
      by_cases hji : j = i
      · subst hji
        rw [hget] at hj
        injection hj with hj
        subst hj
        have hacq :
            (if fu_type slot.instruction.op_code = 0 ∧ 0 < k0 then
              (true, k0 - 1, k1, k2)
            else if fu_type slot.instruction.op_code = 1 ∧ 0 < k1 then
              (true, k0, k1 - 1, k2)
            else if fu_type slot.instruction.op_code = 2 ∧ 0 < k2 then
              (true, k0, k1, k2 - 1)
            else ((false, k0, k1, k2) : Bool × Nat × Nat × Nat)) =
            (false, k0, k1, k2) := by
          rw [if_neg (by simp [h0]), if_neg (by simp [h1]), if_neg (by simp [h2])]
        rw [hacq]
        exact ih rs regs lsw k0 k1 k2 hget
      · by_cases hfire : (if fu_type slotj.instruction.op_code = 0 ∧ 0 < k0 then
            (true, k0 - 1, k1, k2)
          else if fu_type slotj.instruction.op_code = 1 ∧ 0 < k1 then
            (true, k0, k1 - 1, k2)
          else if fu_type slotj.instruction.op_code = 2 ∧ 0 < k2 then
            (true, k0, k1, k2 - 1)
          else ((false, k0, k1, k2) : Bool × Nat × Nat × Nat)).1 = true
        · rw [if_pos hfire]
          exact ih _ _ _ _ _ _ (by rw [List.get?_set_ne _ _ hji]; exact hget)
        · rw [if_neg hfire]
          exact ih rs regs lsw k0 k1 k2 hget

/-- C8 (amended): the opcode mapping of the code sends the absent opcode
−1 to class B (class 1) and the recognized opcodes 0, 1, 2 to themselves;
any other opcode value maps to none of the three classes, and a
reservation-station slot holding such an opcode is never touched by the
fire phase of procsim.cpp — the instruction can never acquire a
functional unit. -/
theorem c8_opcode_mapping_amended :
    fu_type (-1) = 1 ∧
    (∀ op : Int, op = 0 ∨ op = 1 ∨ op = 2 → fu_type op = op) ∧
    (∀ (s : PC.State) (i : Nat) (slot : PC.Slot),
        s.reservation_station.get? i = some slot →
        fu_type slot.instruction.op_code ≠ 0 →
        fu_type slot.instruction.op_code ≠ 1 →
        fu_type slot.instruction.op_code ≠ 2 →
        (PC.schedule_stage_first_half s).reservation_station.get? i =
          some slot) := by
  refine ⟨by decide, ?_, ?_⟩
  · rintro op (rfl | rfl | rfl) <;> decide
  · intro s i slot hget h0 h1 h2
    exact pc_fire_pairs_go_no_class _ _ _ _ _ _ _ _ _ slot hget h0 h1 h2

/-- Witness for the amended C8 theorem: the concrete opcode-3 instruction
of `Scen.c8s`, valid and ready in slot 0 at the fire phase of cycle 3, is
left untouched by that fire phase. -/
theorem c8_opcode_mapping_amended_witness :
    fu_type (-1) = 1 ∧ fu_type 2 = 2 ∧
    (PC.schedule_stage_first_half
        (PC.tick (Scen.c8s 2))).reservation_station.get? 0 =
      some { valid := true, instruction := ⟨3, -1, -1, -1, 1⟩,
             src1_ready := true, src2_ready := true, fired := false,
             completed := false, state_updated := false,
             execute_cycles_left := 0, completed_cycle := 0,
             tag_dispatched := true, fired_cycle := 0 } :=
  ⟨c8_opcode_mapping_amended.1,
   c8_opcode_mapping_amended.2.1 2 (Or.inr (Or.inr rfl)),
   c8_opcode_mapping_amended.2.2 (PC.tick (Scen.c8s 2)) 0 _ (by decide)
     (by decide) (by decide) (by decide)⟩

end Procsim


namespace Procsim

/-- A successful indexed lookup bounds the index. -/
theorem get_some_lt {α : Type} {l : List α} {n : Nat} {a : α}
    (h : l.get? n = some a) : n < l.length := by
  by_contra hge
  rw [List.get?_eq_none.mpr (Nat.le_of_not_lt hge)] at h
  cases h

/-- The completion sweep of part_001 transforms the reservation station
pointwise: every valid fired uncompleted slot completes this cycle. -/
theorem p1_complete_go_fst (c : Nat) (rs : List P1.Slot) (i : Nat)
    (st : Nat → Stamps) (acc : List Nat) :
    (P1.complete_go c rs i st acc).1 = rs.map (fun σ =>
      if σ.valid = true ∧ σ.fired = true ∧ σ.completed = false then
        { σ with completed := true, completed_cycle := c } else σ) := by
  induction rs generalizing i st acc with
  | nil => rfl
  | cons head rest ih =>
    rw [P1.complete_go]
    by_cases h : head.valid = true ∧ head.fired = true ∧ head.completed = false
    · simp only [if_pos h, List.map_cons, ih]
    · simp only [if_neg h, List.map_cons, ih]

/-- The broadcast loop of part_001 can only mark slots state-updated with
the current cycle as their state-update cycle; every other slot field that
matters to firing is untouched. -/
theorem p1_broadcast_go_track (c : Nat) (q : List Nat) (allow : Nat)
    (rs : List P1.Slot) (bus : List Nat) (regs : Int → P1.RegStatus)
    (k0 k1 k2 : Nat) (i : Nat) (σ : P1.Slot)
    (hget : rs.get? i = some σ) :
    ∃ σ', (P1.broadcast_go c q allow rs bus regs k0 k1 k2).2.1.get? i =
        some σ' ∧
      σ'.valid = σ.valid ∧ σ'.fired = σ.fired ∧
      σ'.instruction = σ.instruction ∧
      σ'.src1_ready = σ.src1_ready ∧ σ'.src2_ready = σ.src2_ready ∧
      σ'.src1_parent = σ.src1_parent ∧ σ'.src2_parent = σ.src2_parent ∧
      σ'.completed = σ.completed ∧
      ((σ.state_updated = true → σ.state_update_cycle = c) →
        (σ'.state_updated = true → σ'.state_update_cycle = c)) := by
  induction q generalizing allow rs bus regs k0 k1 k2 σ with
  | nil =>
    exact ⟨σ, hget, rfl, rfl, rfl, rfl, rfl, rfl, rfl, rfl, fun h => h⟩
  | cons idx qrest ih =>
    rw [P1.broadcast_go]
    by_cases hallow : allow = 0
    · simp only [if_pos hallow]
      exact ⟨σ, hget, rfl, rfl, rfl, rfl, rfl, rfl, rfl, rfl, fun h => h⟩
    · simp only [if_neg hallow]
      rcases hidx : rs.get? idx with _ | τ
      · simp only [hidx]
        exact ih _ _ _ _ _ _ _ _ hget
      · simp only [hidx]
        by_cases hii : idx = i
        · subst hii
          rw [hget] at hidx
          injection hidx with hidx
          subst hidx
          have hlt : idx < rs.length := get_some_lt hget
          have hget2 := List.get?_set_eq_of_lt
            ({ σ with state_updated := true, state_update_cycle := c } :
              P1.Slot) hlt
          obtain ⟨σ', h1, h2, h3, h4, h5, h6, h7, h8, h9, h10⟩ :=
            ih _ _ _ _ _ _ _ _ hget2
          exact ⟨σ', h1, h2, h3, h4, h5, h6, h7, h8, h9,
            fun _ => h10 (fun _ => rfl)⟩
        · have hget2 : (rs.set idx { τ with state_updated := true, state_update_cycle := c }).get? i = some σ := by
            rw [List.get?_set_ne _ _ hii]; exact hget
          exact ih _ _ _ _ _ _ _ _ hget2

/-- Per-slot tracking through `execute_stage_first_half` of part_001: the
execute phase can complete a slot and put it on the bus (marking it
state-updated with the current cycle), but never changes its validity,
fired flag, instruction, readiness flags or parent tags. -/
theorem p1_ex1_track (cfg : Cfg) (s : P1.State) (i : Nat) (σ : P1.Slot)
    (hget : s.reservation_station.get? i = some σ) :
    ∃ σ', (P1.execute_stage_first_half cfg s).reservation_station.get? i =
        some σ' ∧
      σ'.valid = σ.valid ∧ σ'.fired = σ.fired ∧
      σ'.instruction = σ.instruction ∧
      σ'.src1_ready = σ.src1_ready ∧ σ'.src2_ready = σ.src2_ready ∧
      σ'.src1_parent = σ.src1_parent ∧ σ'.src2_parent = σ.src2_parent ∧
      ((σ.state_updated = true → σ.state_update_cycle = s.current_cycle) →
        (σ'.state_updated = true →
          σ'.state_update_cycle = s.current_cycle)) := by
  by_cases hc : σ.valid = true ∧ σ.fired = true ∧ σ.completed = false
  · have hmap : (P1.complete_go s.current_cycle s.reservation_station 0
        s.instruction_cycles s.completed_instructions).1.get? i =
        some { σ with completed := true, completed_cycle := s.current_cycle } := by
      rw [p1_complete_go_fst, List.get?_map, hget, Option.map_some']
      rw [if_pos hc]
    obtain ⟨σ', h1, h2, h3, h4, h5, h6, h7, h8, _, h10⟩ :=
      p1_broadcast_go_track s.current_cycle _ cfg.RESULT_BUSES _ []
        s.register_status s.k0_fu_available s.k1_fu_available
        s.k2_fu_available i _ hmap
    exact ⟨σ', h1, h2, h3, h4, h5, h6, h7, h8,
      fun hin => h10 (fun h => hin h)⟩
  · have hmap : (P1.complete_go s.current_cycle s.reservation_station 0
        s.instruction_cycles s.completed_instructions).1.get? i =
        some σ := by
      rw [p1_complete_go_fst, List.get?_map, hget, Option.map_some']
      rw [if_neg hc]
    obtain ⟨σ', h1, h2, h3, h4, h5, h6, h7, h8, _, h10⟩ :=
      p1_broadcast_go_track s.current_cycle _ cfg.RESULT_BUSES _ []
        s.register_status s.k0_fu_available s.k1_fu_available
        s.k2_fu_available i _ hmap
    exact ⟨σ', h1, h2, h3, h4, h5, h6, h7, h8,
      fun hin => h10 (fun h => hin h)⟩

end Procsim

namespace Procsim

/-- The fire loop of part_001 leaves any slot whose fire condition does
not hold exactly as it was. -/
theorem p1_fire_go_untouched (c : Nat) (rs : List P1.Slot)
    (k0 k1 k2 : Nat) (st : Nat → Stamps) (i : Nat) (σ : P1.Slot)
    (hget : rs.get? i = some σ)
    (hcond : ¬(σ.valid = true ∧ σ.fired = false ∧ σ.src1_ready = true ∧
      σ.src2_ready = true)) :
    (P1.fire_go c rs k0 k1 k2 st).1.get? i = some σ := by
  induction rs generalizing k0 k1 k2 st i with
  | nil => simpa using hget
  | cons head rest ih =>
    rw [P1.fire_go]
    cases i with
    | zero =>
      injection hget with hget
      subst hget
      rw [if_neg hcond]
      rfl
    | succ n =>
      have hget2 : rest.get? n = some σ := hget
      by_cases hc : head.valid = true ∧ head.fired = false ∧
          head.src1_ready = true ∧ head.src2_ready = true
      · rw [if_pos hc]
        by_cases hacq : (if Procsim.fu_type head.instruction.op_code = 0 ∧
              0 < k0 then (true, k0 - 1, k1, k2)
            else if Procsim.fu_type head.instruction.op_code = 1 ∧ 0 < k1 then
              (true, k0, k1 - 1, k2)
            else if Procsim.fu_type head.instruction.op_code = 2 ∧ 0 < k2 then
              (true, k0, k1, k2 - 1)
            else ((false, k0, k1, k2) : Bool × Nat × Nat × Nat)).1 = true
        · rw [if_pos hacq]
          exact ih _ _ _ _ _ hget2
        · rw [if_neg hacq]
          exact ih _ _ _ _ _ hget2
      · rw [if_neg hc]
        exact ih _ _ _ _ _ hget2

/-- The dispatch-commit loop of part_001 never touches a valid slot. -/
theorem p1_dis2_untouched (c : Nat) (slots : List P1.Slot) (r : Nat)
    (q : List ProcInst) (regs : Int → P1.RegStatus) (st : Nat → Stamps)
    (i : Nat) (σ : P1.Slot)
    (hget : slots.get? i = some σ) (hv : σ.valid = true) :
    (P1.dispatch_second_go c slots r q regs st).1.get? i = some σ := by
  induction slots generalizing r q regs st i with
  | nil => simpa using hget
  | cons head rest ih =>
    rw [P1.dispatch_second_go.eq_def]
    cases q with
    | nil => exact hget
    | cons inst qtail =>
      dsimp only
      by_cases hr : r = 0
      · rw [if_pos hr]
        exact hget
      · rw [if_neg hr]
        by_cases hvh : head.valid = true
        · simp only [if_pos hvh]
          cases i with
          | zero =>
            injection hget with hget
            subst hget
            rfl
          | succ n => exact ih _ _ _ _ _ hget
        · simp only [if_neg hvh]
          cases i with
          | zero =>
            injection hget with hget
            subst hget
            exact absurd hv hvh
          | succ n => exact ih _ _ _ _ _ hget

/-- The fetch loop of part_001 never touches the reservation station. -/
theorem p1_fetch_go_rs (c : Nat) (n : Nat) (s : P1.State) :
    (P1.fetch_go c n s).reservation_station = s.reservation_station := by
  induction n generalizing s with
  | zero => rfl
  | succ k ih =>
    rw [P1.fetch_go]
    cases s.source with
    | nil => rfl
    | cons inst rest => exact ih _

end Procsim

namespace Procsim

/-- The reserve phase of part_001 dispatch does not touch the slots. -/
theorem p1_dis1_rs (s : P1.State) :
    (P1.dispatch_stage_first_half s).reservation_station =
      s.reservation_station := rfl

/-- The fire phase of part_001 computes its slots with `fire_go`. -/
theorem p1_sch1_rs (s : P1.State) :
    (P1.schedule_stage_first_half s).reservation_station =
      (P1.fire_go s.current_cycle s.reservation_station s.k0_fu_available
        s.k1_fu_available s.k2_fu_available s.instruction_cycles).1 := rfl

/-- The retire phase of part_001 maps the retirement filter over the
slots. -/
theorem p1_su2_rs (s : P1.State) :
    (P1.state_update_stage_second_half s).reservation_station =
      s.reservation_station.map (fun slot =>
        if P1.retires s.current_cycle slot then
          { slot with valid := false, state_updated := false }
        else slot) := rfl

/-- The wakeup phase of part_001 maps `wake_slot` over the slots. -/
theorem p1_sch2_rs (s : P1.State) :
    (P1.schedule_stage_second_half s).reservation_station =
      s.reservation_station.map (P1.wake_slot s.result_bus_tags) := rfl

/-- The dispatch-commit phase of part_001 computes its slots with
`dispatch_second_go`. -/
theorem p1_dis2_rs (s : P1.State) :
    (P1.dispatch_stage_second_half s).reservation_station =
      (P1.dispatch_second_go s.current_cycle s.reservation_station
        s.reserved_slots s.dispatch_queue s.register_status
        s.instruction_cycles).1 := rfl

/-- The fetch stage of part_001 does not touch the slots. -/
theorem p1_fetch_stage_rs (cfg : Cfg) (s : P1.State) :
    (P1.fetch_stage cfg s).reservation_station = s.reservation_station :=
  p1_fetch_go_rs _ _ _

/-- C6: in part_001 the retire phase frees exactly those occupied slots
whose broadcast (state update) occurred strictly before the current cycle
and counts each as retired; a slot whose broadcast happened this very
cycle is never freed this cycle; and the execute phase — the only place a
broadcast is recorded — always records the current cycle as the
state-update cycle of a newly broadcast slot, so a slot is freed exactly
one cycle after its broadcast. -/
theorem c6_retire_frees_prior_broadcasts :
    (∀ (s : P1.State) (i : Nat) (σ : P1.Slot),
      s.reservation_station.get? i = some σ →
      ∃ σ', (P1.state_update_stage_second_half s).reservation_station.get? i
          = some σ' ∧
        (σ'.valid = false ↔ (σ.valid = false ∨ (σ.state_updated = true ∧
          σ.state_update_cycle < s.current_cycle))) ∧
        (σ.valid = true → σ.state_update_cycle = s.current_cycle →
          σ'.valid = true)) ∧
    (∀ s : P1.State,
      (P1.state_update_stage_second_half s).instructions_retired =
        s.instructions_retired +
          s.reservation_station.countP (P1.retires s.current_cycle)) ∧
    (∀ (cfg : Cfg) (s : P1.State) (i : Nat) (σ σ' : P1.Slot),
      s.reservation_station.get? i = some σ → σ.state_updated = false →
      (P1.execute_stage_first_half cfg s).reservation_station.get? i =
        some σ' →
      (σ'.state_updated = true →
        σ'.state_update_cycle = s.current_cycle)) := by
  refine ⟨?_, fun s => rfl, ?_⟩
  · intro s i σ hget
    have hmap : (P1.state_update_stage_second_half s).reservation_station.get?
        i = some (if P1.retires s.current_cycle σ then
          { σ with valid := false, state_updated := false } else σ) := by
      rw [p1_su2_rs, List.get?_map, hget, Option.map_some']
    refine ⟨_, hmap, ?_, ?_⟩
    · by_cases hret : P1.retires s.current_cycle σ = true
      · have hands := hret
        simp only [P1.retires, Bool.and_eq_true, decide_eq_true_eq] at hands
        simp only [hret, if_true]
        constructor
        · intro _
          exact Or.inr ⟨hands.1.2, hands.2⟩
        · intro _
          trivial
      · have hretf : P1.retires s.current_cycle σ = false :=
          Bool.eq_false_iff.mpr hret
        simp only [hretf, Bool.false_eq_true, if_false]
        constructor
        · intro h
          exact Or.inl h
        · rintro (h | ⟨h1, h2⟩)
          · exact h
          · by_contra hvt
            have hvt2 : σ.valid = true := Bool.eq_true_of_ne_false
              (fun hff => hvt hff)
            apply hret
            simp only [P1.retires, Bool.and_eq_true, decide_eq_true_eq]
            exact ⟨⟨hvt2, h1⟩, h2⟩
    · intro hvt hcyc
      have hretf : P1.retires s.current_cycle σ = false := by
        simp only [P1.retires, hcyc]
        simp [Nat.lt_irrefl]
      simp only [hretf, Bool.false_eq_true, if_false]
      exact hvt
  · intro cfg s i σ σ' hget hsu hget2
    obtain ⟨σ'', h1, _, _, _, _, _, _, _, hinv⟩ := p1_ex1_track cfg s i σ hget
    rw [h1] at hget2
    injection hget2 with hget2
    subst hget2
    exact hinv (fun h => absurd h (by simp [hsu]))

end Procsim

namespace Procsim

/-- Witness for C6: in the read-after-write run, at the start of cycle 5
slot 0 holds tag 1, broadcast in cycle 4 (state-update cycle 4 < 5), and
the retire phase of cycle 5 frees it. -/
theorem c6_retire_frees_prior_broadcasts_witness :
    ∃ σ', (P1.state_update_stage_second_half
        (P1.tick (Scen.c9s1 4))).reservation_station.get? 0 = some σ' ∧
      (σ'.valid = false ↔
        ((true : Bool) = false ∨ ((true : Bool) = true ∧
          4 < (P1.tick (Scen.c9s1 4)).current_cycle))) ∧
      ((true : Bool) = true → 4 = (P1.tick (Scen.c9s1 4)).current_cycle →
        σ'.valid = true) :=
  c6_retire_frees_prior_broadcasts.1 (P1.tick (Scen.c9s1 4)) 0
    { valid := true, instruction := ⟨0, -1, -1, 1, 1⟩, src1_ready := true,
      src2_ready := true, src1_parent := 0, src2_parent := 0, fired := true,
      completed := true, state_updated := true, execute_cycles_left := 0,
      completed_cycle := 4, tag_dispatched := false, fetch_cycle := 1,
      dispatch_cycle := 2, state_update_cycle := 4 }
    (by decide)

end Procsim

namespace Procsim

/-- C1: strict one-cycle wakeup latency in part_001.  Take any state at
the start of a cycle with a valid, unfired, not-state-updated slot whose
first source operand is not ready and whose recorded producer is `t`.  If
`t` broadcasts during this cycle (it is on the result bus after the
execute phase of this cycle), then after the full cycle the slot is still
valid and still unfired — the broadcast is not visible to this cycles
fire decisions — but its source is now marked ready, so it becomes
eligible starting with the next cycle. -/
theorem c1_one_cycle_wakeup_latency (cfg : Cfg) (s : P1.State) (i : Nat)
    (σ : P1.Slot) (t : Nat)
    (hget : s.reservation_station.get? i = some σ)
    (hv : σ.valid = true) (hf : σ.fired = false)
    (hsu : σ.state_updated = false)
    (hr : σ.src1_ready = false) (hp : σ.src1_parent = t)
    (hb : t ∈ (P1.execute_stage_first_half cfg
      (P1.state_update_stage_first_half (P1.tick s))).result_bus_tags) :
    ∃ σ', (P1.cycleStep cfg s).reservation_station.get? i = some σ' ∧
      σ'.valid = true ∧ σ'.fired = false ∧ σ'.src1_ready = true := by
  obtain ⟨σ1, hA, hval1, hfire1, _, hsr1, _, hpar1, _, hinv1⟩ :=
    p1_ex1_track cfg (P1.tick s) i σ hget
  have hval1t : σ1.valid = true := by rw [hval1, hv]
  have hfire1f : σ1.fired = false := by rw [hfire1, hf]
  have hsr1f : σ1.src1_ready = false := by rw [hsr1, hr]
  have hpar1t : σ1.src1_parent = t := by rw [hpar1, hp]
  have hinv1c : σ1.state_updated = true →
      σ1.state_update_cycle = (P1.tick s).current_cycle :=
    hinv1 (fun h => absurd h (by simp [hsu]))
  have hB : (P1.schedule_stage_first_half (P1.execute_stage_first_half cfg
      (P1.tick s))).reservation_station.get? i = some σ1 := by
    rw [p1_sch1_rs]
    refine p1_fire_go_untouched _ _ _ _ _ _ _ _ hA ?_
    intro hcontra
    exact absurd hcontra.2.2.1 (by rw [hsr1f]; exact Bool.false_ne_true)
  have hC : (P1.dispatch_stage_first_half (P1.schedule_stage_first_half
      (P1.execute_stage_first_half cfg
        (P1.tick s)))).reservation_station.get? i = some σ1 := by
    rw [p1_dis1_rs]
    exact hB
  have hret : P1.retires (s.current_cycle + 1) σ1 = false := by
    cases hsu1 : σ1.state_updated with
    | false => simp [P1.retires, hsu1]
    | true =>
      have hcyc : σ1.state_update_cycle = s.current_cycle + 1 := hinv1c hsu1
      simp [P1.retires, hsu1, hcyc]
  have hD : (P1.state_update_stage_second_half (P1.dispatch_stage_first_half
      (P1.schedule_stage_first_half (P1.execute_stage_first_half cfg
        (P1.tick s))))).reservation_station.get? i = some σ1 := by
    rw [p1_su2_rs, List.get?_map, hC, Option.map_some']
    have : (P1.dispatch_stage_first_half (P1.schedule_stage_first_half
        (P1.execute_stage_first_half cfg
          (P1.tick s)))).current_cycle = s.current_cycle + 1 := rfl
    rw [this, hret]
    simp
  have hwv : ∀ bus : List Nat, (P1.wake_slot bus σ1).valid = true := by
    intro bus
    unfold P1.wake_slot
    rw [if_pos ⟨hval1t, hfire1f⟩]
    exact hval1t
  have hwf : ∀ bus : List Nat, (P1.wake_slot bus σ1).fired = false := by
    intro bus
    unfold P1.wake_slot
    rw [if_pos ⟨hval1t, hfire1f⟩]
    exact hfire1f
  have hwr : (P1.wake_slot ((P1.execute_stage_first_half cfg
      (P1.tick s)).result_bus_tags) σ1).src1_ready = true := by
    unfold P1.wake_slot
    rw [if_pos ⟨hval1t, hfire1f⟩]
    show (σ1.src1_ready ||
      ((P1.execute_stage_first_half cfg
        (P1.tick s)).result_bus_tags).contains σ1.src1_parent) = true
    rw [hsr1f, hpar1t, Bool.false_or]
    exact List.elem_eq_true_of_mem hb
  have hE : (P1.schedule_stage_second_half (P1.state_update_stage_second_half
      (P1.dispatch_stage_first_half (P1.schedule_stage_first_half
        (P1.execute_stage_first_half cfg
          (P1.tick s)))))).reservation_station.get? i =
      some (P1.wake_slot ((P1.execute_stage_first_half cfg
        (P1.tick s)).result_bus_tags) σ1) := by
    rw [p1_sch2_rs, List.get?_map, hD, Option.map_some']
    rfl
  have hF : (P1.dispatch_stage_second_half (P1.schedule_stage_second_half
      (P1.state_update_stage_second_half (P1.dispatch_stage_first_half
        (P1.schedule_stage_first_half (P1.execute_stage_first_half cfg
          (P1.tick s))))))).reservation_station.get? i =
      some (P1.wake_slot ((P1.execute_stage_first_half cfg
        (P1.tick s)).result_bus_tags) σ1) := by
    rw [p1_dis2_rs]
    exact p1_dis2_untouched _ _ _ _ _ _ _ _ hE (hwv _)
  refine ⟨P1.wake_slot ((P1.execute_stage_first_half cfg
    (P1.tick s)).result_bus_tags) σ1, ?_, hwv _, hwf _, hwr⟩
  show (P1.fetch_stage cfg (P1.dispatch_stage_second_half
    (P1.schedule_stage_second_half (P1.execute_stage_second_half
      (P1.state_update_stage_second_half (P1.dispatch_stage_first_half
        (P1.schedule_stage_first_half (P1.execute_stage_first_half cfg
          (P1.state_update_stage_first_half
            (P1.tick s)))))))))).reservation_station.get? i = _
  rw [p1_fetch_stage_rs]
  exact hF

end Procsim

namespace Procsim

/-- Witness for C1: in the read-after-write run, at the start of cycle 4
slot 1 holds the reader tag 2, waiting on producer tag 1; tag 1 broadcasts
during cycle 4, and after cycle 4 the reader is still unfired but awake. -/
theorem c1_one_cycle_wakeup_latency_witness :
    ∃ σ', (P1.cycleStep Scen.c9cfg (Scen.c9s1 3)).reservation_station.get? 1
        = some σ' ∧
      σ'.valid = true ∧ σ'.fired = false ∧ σ'.src1_ready = true :=
  c1_one_cycle_wakeup_latency Scen.c9cfg (Scen.c9s1 3) 1
    { valid := true, instruction := ⟨0, 1, -1, -1, 2⟩, src1_ready := false,
      src2_ready := true, src1_parent := 1, src2_parent := 0, fired := false,
      completed := false, state_updated := false, execute_cycles_left := 0,
      completed_cycle := 0, tag_dispatched := false, fetch_cycle := 1,
      dispatch_cycle := 2, state_update_cycle := 0 }
    1 (by decide) (by decide) (by decide) (by decide) (by decide) (by decide)
    (by decide)

end Procsim

namespace Procsim

/-- Membership in the broadcast-candidate collection of procsim.cpp:
exactly the valid, completed, not-yet-state-updated slots, with their
completion cycle, tag and slot index. -/
theorem pc_collect_completed_mem (rs : List PC.Slot) (n cc t j : Nat) :
    (cc, t, j) ∈ PC.collect_completed n rs ↔
      ∃ k slot, j = n + k ∧ rs.get? k = some slot ∧ slot.valid = true ∧
        slot.completed = true ∧ slot.state_updated = false ∧
        slot.completed_cycle = cc ∧ slot.instruction.tag = t := by
  induction rs generalizing n with
  | nil => simp [PC.collect_completed]
  | cons head rest ih =>
    rw [PC.collect_completed]
    by_cases hc : head.valid = true ∧ head.completed = true ∧
        head.state_updated = false
    · rw [if_pos hc]
      constructor
      · intro hmem
        rcases List.mem_cons.mp hmem with heq | hmem2
        · injection heq with h1 h23
          injection h23 with h2 h3
          refine ⟨0, head, by omega, rfl, hc.1, hc.2.1, hc.2.2, h1.symm,
            h2.symm⟩
        · obtain ⟨k, slot, hk, hget, hp⟩ := (ih (n + 1)).mp hmem2
          exact ⟨k + 1, slot, by omega, hget, hp⟩
      · rintro ⟨k, slot, hk, hget, hp1, hp2, hp3, hp4, hp5⟩
        cases k with
        | zero =>
          injection hget with hget
          subst hget
          exact List.mem_cons.mpr (Or.inl (by rw [hp4, hp5, hk]; rfl))
        | succ k2 =>
          refine List.mem_cons_of_mem _ ((ih (n + 1)).mpr
            ⟨k2, slot, by omega, hget, hp1, hp2, hp3, hp4, hp5⟩)
    · rw [if_neg hc]
      constructor
      · intro hmem
        obtain ⟨k, slot, hk, hget, hp⟩ := (ih (n + 1)).mp hmem
        exact ⟨k + 1, slot, by omega, hget, hp⟩
      · rintro ⟨k, slot, hk, hget, hp1, hp2, hp3, hp4, hp5⟩
        cases k with
        | zero =>
          injection hget with hget
          subst hget
          exact absurd ⟨hp1, hp2, hp3⟩ hc
        | succ k2 =>
          exact (ih (n + 1)).mpr ⟨k2, slot, by omega, hget, hp1, hp2, hp3,
            hp4, hp5⟩

/-- The bus-filling loop of procsim.cpp takes exactly the first
`R − used` candidate tags, in order. -/
theorem pc_bus_push_go_spec (R : Nat) (cands : List (Nat × Nat × Nat))
    (rs : List PC.Slot) (used : Nat) (bus : List Nat) (k0 k1 k2 : Nat)
    (hco : ∀ p ∈ cands, ∃ slot, rs.get? p.2.2 = some slot ∧
      slot.instruction.tag = p.2.1) :
    (PC.bus_push_go R cands rs used bus k0 k1 k2).1 =
      bus ++ (cands.take (R - used)).map (fun p => p.2.1) := by
  induction cands generalizing used bus k0 k1 k2 with
  | nil => simp [PC.bus_push_go]
  | cons p rest ih =>
    obtain ⟨cc, t, i⟩ := p
    rw [PC.bus_push_go]
    by_cases hu : used < R
    · rw [if_pos hu]
      obtain ⟨slot, hget, htag⟩ := hco (cc, t, i) (List.mem_cons_self _ _)
      rw [hget]
      have hco2 : ∀ q ∈ rest, ∃ slot, rs.get? q.2.2 = some slot ∧
          slot.instruction.tag = q.2.1 :=
        fun q hq => hco q (List.mem_cons_of_mem _ hq)
      rw [ih (used + 1) (bus ++ [slot.instruction.tag]) _ _ _ hco2]
      have harith : R - used = (R - (used + 1)) + 1 := by omega
      rw [harith, List.take_succ_cons, List.map_cons]
      simp [htag]
    · rw [if_neg hu]
      have h0 : R - used = 0 := by omega
      rw [h0]
      simp

/-- C4: broadcast selection of procsim.cpp.  Whenever the execute phase
runs with a clear result bus (the state-update phase that precedes it
every cycle always clears the bus), the broadcast set is exactly the
first R completed-but-not-yet-broadcast instructions ranked by completion
cycle, ties broken by tag: the bus holds the tags of the first R entries
of the `bcastLe`-sorted candidate ranking, so at most R instructions
broadcast, exactly min(R, #candidates) do, and the candidates are
precisely the valid, completed, not-state-updated slots. -/
theorem c4_broadcast_bound_and_selection (cfg : Cfg) (s : PC.State)
    (hbus : s.result_bus_tags = []) :
    ((PC.execute_stage_first_half cfg s).result_bus_tags =
      ((PC.rankedCandidates s.current_cycle s.reservation_station).take
        cfg.RESULT_BUSES).map (fun p => p.2.1)) ∧
    (PC.execute_stage_first_half cfg s).result_bus_tags.length ≤
      cfg.RESULT_BUSES ∧
    (PC.execute_stage_first_half cfg s).result_bus_tags.length =
      min cfg.RESULT_BUSES (PC.collect_completed 0
        (s.reservation_station.map (PC.exec_tick s.current_cycle))).length ∧
    List.Sorted Procsim.bcastLe
      (PC.rankedCandidates s.current_cycle s.reservation_station) ∧
    (PC.rankedCandidates s.current_cycle s.reservation_station).Perm
      (PC.collect_completed 0
        (s.reservation_station.map (PC.exec_tick s.current_cycle))) ∧
    (∀ cc t j, (cc, t, j) ∈ PC.collect_completed 0
        (s.reservation_station.map (PC.exec_tick s.current_cycle)) ↔
      ∃ slot, (s.reservation_station.map
          (PC.exec_tick s.current_cycle)).get? j = some slot ∧
        slot.valid = true ∧ slot.completed = true ∧
        slot.state_updated = false ∧ slot.completed_cycle = cc ∧
        slot.instruction.tag = t) := by
  have hperm : (PC.rankedCandidates s.current_cycle
      s.reservation_station).Perm (PC.collect_completed 0
        (s.reservation_station.map (PC.exec_tick s.current_cycle))) :=
    List.perm_insertionSort _ _
  have hmem0 : ∀ cc t j, (cc, t, j) ∈ PC.collect_completed 0
      (s.reservation_station.map (PC.exec_tick s.current_cycle)) ↔
      ∃ slot, (s.reservation_station.map
          (PC.exec_tick s.current_cycle)).get? j = some slot ∧
        slot.valid = true ∧ slot.completed = true ∧
        slot.state_updated = false ∧ slot.completed_cycle = cc ∧
        slot.instruction.tag = t := by
    intro cc t j
    rw [pc_collect_completed_mem]
    constructor
    · rintro ⟨k, slot, hk, hget, hp⟩
      exact ⟨slot, by rw [hk]; simpa using hget, hp⟩
    · rintro ⟨slot, hget, hp⟩
      exact ⟨j, slot, by omega, hget, hp⟩
  have hco : ∀ p ∈ PC.rankedCandidates s.current_cycle s.reservation_station,
      ∃ slot, (s.reservation_station.map
        (PC.exec_tick s.current_cycle)).get? p.2.2 = some slot ∧
        slot.instruction.tag = p.2.1 := by
    intro p hp
    obtain ⟨cc, t, j⟩ := p
    obtain ⟨slot, hget, _, _, _, _, htag⟩ :=
      (hmem0 cc t j).mp (hperm.subset hp)
    exact ⟨slot, hget, htag⟩
  have hmain : (PC.execute_stage_first_half cfg s).result_bus_tags =
      ((PC.rankedCandidates s.current_cycle s.reservation_station).take
        cfg.RESULT_BUSES).map (fun p => p.2.1) := by
    show (PC.bus_push_go cfg.RESULT_BUSES
      (PC.rankedCandidates s.current_cycle s.reservation_station)
      (s.reservation_station.map (PC.exec_tick s.current_cycle)) 0
      s.result_bus_tags s.k0_fu_available s.k1_fu_available
      s.k2_fu_available).1 = _
    rw [pc_bus_push_go_spec _ _ _ _ _ _ _ _ hco, hbus, List.nil_append,
      Nat.sub_zero]
  refine ⟨hmain, ?_, ?_, List.sorted_insertionSort _ _, hperm, hmem0⟩
  · rw [hmain, List.length_map, List.length_take]
    exact Nat.min_le_left _ _
  · rw [hmain, List.length_map, List.length_take, hperm.length_eq]

/-- Witness for C4: in cycle 4 of scenario 1 (bus clear after the
state-update phase), the single completed instruction is ranked first and
is the only broadcast. -/
theorem c4_broadcast_bound_and_selection_witness :
    (PC.execute_stage_first_half Scen.c7cfg
        (PC.tick (Scen.c7s 3))).result_bus_tags =
      ((PC.rankedCandidates (PC.tick (Scen.c7s 3)).current_cycle
        (PC.tick (Scen.c7s 3)).reservation_station).take
          Scen.c7cfg.RESULT_BUSES).map (fun p => p.2.1) :=
  (c4_broadcast_bound_and_selection Scen.c7cfg (PC.tick (Scen.c7s 3))
    (by decide)).1

end Procsim

namespace Procsim

/-- C10: register-index bounds safety of procsim.cpp.  With every
register-table access routed through a bounds-checked read, an access
succeeds exactly when the C10 precondition holds for its index (−1, which
is never dereferenced, or an index in [0, 128)): the readiness
computation of the fire phase, the in-flight-writer insertion of
dispatch, and the register-ready read of the wakeup phase all avoid the
error branch if and only if the index satisfies the precondition, and
under the precondition they compute exactly what the unchecked code
computes. -/
theorem c10_register_index_bounds :
    (∀ (srcReg : Int) (myTag : Nat) (lsu : Int → Nat)
        (infl : Int → List Nat),
      (PC.src_ready_checked srcReg myTag lsu infl ≠ none ↔
        PC.regIdxOk srcReg) ∧
      (PC.regIdxOk srcReg → PC.src_ready_checked srcReg myTag lsu infl =
        some (PC.src_ready srcReg myTag lsu infl))) ∧
    (∀ (destReg : Int) (t : Nat) (infl : Int → List Nat),
      (PC.dispatch_inflight_checked destReg t infl ≠ none ↔
        PC.regIdxOk destReg) ∧
      (PC.regIdxOk destReg → PC.dispatch_inflight_checked destReg t infl =
        some (if destReg ≠ -1 then
          Procsim.updFun infl destReg (PC.setInsert t (infl destReg))
        else infl))) ∧
    (∀ (srcReg : Int) (regs : Int → Bool),
      (PC.reg_ready_checked srcReg regs ≠ none ↔ PC.regIdxOk srcReg) ∧
      (PC.regIdxOk srcReg → PC.reg_ready_checked srcReg regs =
        some (if srcReg = -1 then true else regs srcReg))) := by
  refine ⟨?_, ?_, ?_⟩
  · intro srcReg myTag lsu infl
    by_cases hneg : srcReg = -1
    · constructor
      · simp [PC.src_ready_checked, hneg, PC.regIdxOk]
      · intro _
        simp [PC.src_ready_checked, PC.src_ready, hneg]
    · by_cases hrange : 0 ≤ srcReg ∧ srcReg < 128
      · constructor
        · simp [PC.src_ready_checked, PC.readReg, hneg, hrange, PC.regIdxOk]
        · intro _
          simp [PC.src_ready_checked, PC.src_ready, PC.readReg, hneg, hrange]
      · constructor
        · simp [PC.src_ready_checked, PC.readReg, hneg, hrange, PC.regIdxOk]
        · intro hok
          exact absurd hok (by simp [PC.regIdxOk, hneg, hrange])
  · intro destReg t infl
    by_cases hneg : destReg = -1
    · constructor
      · simp [PC.dispatch_inflight_checked, hneg, PC.regIdxOk]
      · intro _
        simp [PC.dispatch_inflight_checked, hneg]
    · by_cases hrange : 0 ≤ destReg ∧ destReg < 128
      · constructor
        · simp [PC.dispatch_inflight_checked, PC.readReg, hneg, hrange,
            PC.regIdxOk]
        · intro _
          simp [PC.dispatch_inflight_checked, PC.readReg, hneg, hrange]
      · constructor
        · simp [PC.dispatch_inflight_checked, PC.readReg, hneg, hrange,
            PC.regIdxOk]
        · intro hok
          exact absurd hok (by simp [PC.regIdxOk, hneg, hrange])
  · intro srcReg regs
    by_cases hneg : srcReg = -1
    · constructor
      · simp [PC.reg_ready_checked, hneg, PC.regIdxOk]
      · intro _
        simp [PC.reg_ready_checked, hneg]
    · by_cases hrange : 0 ≤ srcReg ∧ srcReg < 128
      · constructor
        · simp [PC.reg_ready_checked, PC.readReg, hneg, hrange, PC.regIdxOk]
        · intro _
          simp [PC.reg_ready_checked, PC.readReg, hneg, hrange]
      · constructor
        · simp [PC.reg_ready_checked, PC.readReg, hneg, hrange, PC.regIdxOk]
        · intro hok
          exact absurd hok (by simp [PC.regIdxOk, hneg, hrange])

/-- Witness for C10: at the concrete in-range index 1 the checked
readiness computation agrees with the unchecked one, and at the concrete
out-of-range index 128 the checked in-flight insertion hits the error
branch. -/
theorem c10_register_index_bounds_witness :
    PC.src_ready_checked 1 2 (fun _ => 0) (fun _ => []) =
      some (PC.src_ready 1 2 (fun _ => 0) (fun _ => [])) ∧
    ¬(PC.dispatch_inflight_checked 128 5 (fun _ => []) ≠ none) :=
  ⟨(c10_register_index_bounds.1 1 2 (fun _ => 0) (fun _ => [])).2
      (Or.inr (by norm_num)),
   fun h => by
    have := (c10_register_index_bounds.2.1 128 5 (fun _ => [])).1.mp h
    simp [PC.regIdxOk] at this⟩

end Procsim

namespace Procsim.PC

/-- Setting one list entry to something of smaller or equal weight cannot
increase the weighted sum. -/
theorem pc5_sum_map_set_le {α : Type} (f : α → Nat) :
    ∀ (l : List α) (i : Nat) (a : α),
      (∀ b, l.get? i = some b → f a ≤ f b) →
      ((l.set i a).map f).sum ≤ (l.map f).sum := by
  intro l
  induction l with
  | nil => intro i a _; simp
  | cons x xs ih =>
    intro i a h
    cases i with
    | zero =>
      simp only [List.set, List.map_cons, List.sum_cons]
      exact Nat.add_le_add_right (h x rfl) _
    | succ n =>
      simp only [List.set, List.map_cons, List.sum_cons]
      exact Nat.add_le_add_left (ih n a (fun b hb => h b hb)) _

/-- Setting one list entry to something of strictly smaller weight
strictly decreases the weighted sum. -/
theorem pc5_sum_map_set_lt {α : Type} (f : α → Nat) :
    ∀ (l : List α) (i : Nat) (a b : α), l.get? i = some b → f a < f b →
      ((l.set i a).map f).sum < (l.map f).sum := by
  intro l
  induction l with
  | nil => intro i a b hb _; simp at hb
  | cons x xs ih =>
    intro i a b hb hlt
    cases i with
    | zero =>
      injection hb with hb
      subst hb
      simp only [List.set, List.map_cons, List.sum_cons]
      exact Nat.add_lt_add_right hlt _
    | succ n =>
      simp only [List.set, List.map_cons, List.sum_cons]
      exact Nat.add_lt_add_left (ih n a b hb hlt) _

/-- Pointwise-dominated weights give a dominated weighted sum. -/
theorem pc5_sum_map_le {α : Type} (f g : α → Nat) :
    ∀ (l : List α), (∀ x ∈ l, f x ≤ g x) →
      (l.map f).sum ≤ (l.map g).sum := by
  intro l
  induction l with
  | nil => intro _; simp
  | cons x xs ih =>
    intro h
    simp only [List.map_cons, List.sum_cons]
    exact Nat.add_le_add (h x (List.mem_cons_self x xs))
      (ih (fun y hy => h y (List.mem_cons_of_mem x hy)))

/-- Pointwise domination with one strict member gives a strictly smaller
weighted sum. -/
theorem pc5_sum_map_lt {α : Type} (f g : α → Nat) :
    ∀ (l : List α), (∀ x ∈ l, f x ≤ g x) → (∃ x ∈ l, f x < g x) →
      (l.map f).sum < (l.map g).sum := by
  intro l
  induction l with
  | nil => intro _ hex; simp at hex
  | cons x xs ih =>
    intro h hex
    simp only [List.map_cons, List.sum_cons]
    obtain ⟨y, hy, hylt⟩ := hex
    rcases List.mem_cons.mp hy with heq | hmem
    · have hx : f x < g x := heq ▸ hylt
      exact Nat.add_lt_add_of_lt_of_le hx
        (pc5_sum_map_le f g xs (fun z hz => h z (List.mem_cons_of_mem x hz)))
    · exact Nat.add_lt_add_of_le_of_lt (h x (List.mem_cons_self x xs))
        (ih (fun z hz => h z (List.mem_cons_of_mem x hz)) ⟨y, hmem, hylt⟩)

/-- Replacing a list entry by one with the same predicate value keeps the
predicate count. -/
theorem pc5_countP_set_eq {α : Type} (p : α → Bool) :
    ∀ (l : List α) (i : Nat) (a b : α), l.get? i = some b → p a = p b →
      (l.set i a).countP p = l.countP p := by
  intro l
  induction l with
  | nil => intro i a b hb _; simp at hb
  | cons x xs ih =>
    intro i a b hb hp
    cases i with
    | zero =>
      injection hb with hb
      subst hb
      simp only [List.set, List.countP_cons, hp]
    | succ n =>
      simp only [List.set, List.countP_cons]
      rw [ih n a b hb hp]

/-- Replacing a non-satisfying list entry by a satisfying one raises the
predicate count by one. -/
theorem pc5_countP_set_succ {α : Type} (p : α → Bool) :
    ∀ (l : List α) (i : Nat) (a b : α), l.get? i = some b →
      p b = false → p a = true →
      (l.set i a).countP p = l.countP p + 1 := by
  intro l
  induction l with
  | nil => intro i a b hb _ _; simp at hb
  | cons x xs ih =>
    intro i a b hb hpb hpa
    cases i with
    | zero =>
      injection hb with hb
      subst hb
      show (a :: xs).countP p = (x :: xs).countP p + 1
      rw [List.countP_cons_of_pos p xs hpa,
        List.countP_cons_of_neg p xs (by simp [hpb])]
    | succ n =>
      simp only [List.set, List.countP_cons]
      rw [ih n a b hb hpb hpa]
      omega

/-- A predicate count splits along a second predicate. -/
theorem pc5_countP_and_split {α : Type} (p q : α → Bool) :
    ∀ (l : List α),
      l.countP p = l.countP (fun x => p x && q x) +
        l.countP (fun x => p x && !q x) := by
  intro l
  induction l with
  | nil => simp
  | cons x xs ih =>
    cases hp : p x <;> cases hq : q x
    · rw [List.countP_cons_of_neg p xs (by simp [hp]),
        List.countP_cons_of_neg _ xs (by simp [hp]),
        List.countP_cons_of_neg _ xs (by simp [hp]), ih]
    · rw [List.countP_cons_of_neg p xs (by simp [hp]),
        List.countP_cons_of_neg _ xs (by simp [hp]),
        List.countP_cons_of_neg _ xs (by simp [hp]), ih]
    · rw [List.countP_cons_of_pos p xs (by simp [hp]),
        List.countP_cons_of_neg _ xs (by simp [hp, hq]),
        List.countP_cons_of_pos _ xs (by simp [hp, hq]), ih]
      omega
    · rw [List.countP_cons_of_pos p xs (by simp [hp]),
        List.countP_cons_of_pos _ xs (by simp [hp, hq]),
        List.countP_cons_of_neg _ xs (by simp [hp, hq]), ih]
      omega

/-- A predicate satisfied at exactly one position counts exactly one. -/
theorem pc5_countP_eq_one_of_unique {α : Type} (p : α → Bool) :
    ∀ (l : List α) (i : Nat) (a : α), l.get? i = some a → p a = true →
      (∀ j b, l.get? j = some b → p b = true → j = i) →
      l.countP p = 1 := by
  intro l
  induction l with
  | nil => intro i a ha _ _; simp at ha
  | cons x xs ih =>
    intro i a ha hpa huniq
    cases i with
    | zero =>
      injection ha with ha
      subst ha
      have hrest : xs.countP p = 0 := by
        rw [List.countP_eq_zero]
        intro b hb hpb
        obtain ⟨j, hj⟩ := List.get_of_mem hb
        have : j.1 + 1 = 0 := huniq (j.1 + 1) b (by
          simp only [List.get?_cons_succ]
          rw [List.get?_eq_get j.2]
          exact congrArg some hj) hpb
        omega
      rw [List.countP_cons_of_pos p xs hpa, hrest]
    | succ n =>
      have hpx : ¬ p x = true := by
        intro hcon
        have : (0 : Nat) = n + 1 := huniq 0 x rfl hcon
        omega
      rw [List.countP_cons_of_neg p xs hpx]
      exact ih n a ha hpa (fun j b hj hpb => by
        have : j + 1 = n + 1 := huniq (j + 1) b (by
          simpa using hj) hpb
        omega)

end Procsim.PC

namespace Procsim.PC

/-- Occupied-slot tags: cons step for an occupied head. -/
theorem pc5_validTags_cons_valid (σ : Slot) (rs : List Slot)
    (h : σ.valid = true) :
    validTags (σ :: rs) = σ.instruction.tag :: validTags rs := by
  simp [validTags, h]

/-- Occupied-slot tags: cons step for a free head. -/
theorem pc5_validTags_cons_invalid (σ : Slot) (rs : List Slot)
    (h : σ.valid = false) :
    validTags (σ :: rs) = validTags rs := by
  simp [validTags, h]

/-- An occupied slot contributes its tag to the occupied-tag list. -/
theorem pc5_mem_validTags (rs : List Slot) (σ : Slot) (h : σ ∈ rs)
    (hv : σ.valid = true) : σ.instruction.tag ∈ validTags rs := by
  refine List.mem_filterMap.mpr ⟨σ, h, ?_⟩
  simp [hv]

/-- The number of occupied-slot tags is the number of occupied slots. -/
theorem pc5_validTags_length :
    ∀ rs : List Slot, (validTags rs).length =
      rs.countP (fun σ => σ.valid) := by
  intro rs
  induction rs with
  | nil => simp [validTags]
  | cons σ rest ih =>
    cases hv : σ.valid
    · rw [pc5_validTags_cons_invalid σ rest hv,
        List.countP_cons_of_neg _ rest (by simp [hv]), ih]
    · rw [pc5_validTags_cons_valid σ rest hv, List.length_cons,
        List.countP_cons_of_pos _ rest (by simp [hv]), ih]

/-- With duplicate-free occupied tags, two occupied positions carrying
the same tag coincide. -/
theorem pc5_validTags_get_unique :
    ∀ (rs : List Slot), (validTags rs).Nodup →
      ∀ i j σi σj, rs.get? i = some σi → rs.get? j = some σj →
        σi.valid = true → σj.valid = true →
        σi.instruction.tag = σj.instruction.tag → i = j := by
  intro rs
  induction rs with
  | nil => intro _ i j σi σj hi; simp at hi
  | cons σ rest ih =>
    intro hnd i j σi σj hi hj hvi hvj htag
    cases i with
    | zero =>
      cases j with
      | zero => rfl
      | succ n =>
        injection hi with hi
        subst hi
        rw [pc5_validTags_cons_valid σ rest hvi] at hnd
        have hmem : σj ∈ rest := List.get?_mem hj
        have : σj.instruction.tag ∈ validTags rest :=
          pc5_mem_validTags rest σj hmem hvj
        rw [← htag] at this
        exact absurd this (List.nodup_cons.mp hnd).1
    | succ m =>
      cases j with
      | zero =>
        injection hj with hj
        subst hj
        rw [pc5_validTags_cons_valid σ rest hvj] at hnd
        have hmem : σi ∈ rest := List.get?_mem hi
        have : σi.instruction.tag ∈ validTags rest :=
          pc5_mem_validTags rest σi hmem hvi
        rw [htag] at this
        exact absurd this (List.nodup_cons.mp hnd).1
      | succ n =>
        have hnd2 : (validTags rest).Nodup := by
          cases hv : σ.valid
          · rw [pc5_validTags_cons_invalid σ rest hv] at hnd
            exact hnd
          · rw [pc5_validTags_cons_valid σ rest hv] at hnd
            exact (List.nodup_cons.mp hnd).2
        have := ih hnd2 m n σi σj (by simpa using hi) (by simpa using hj)
          hvi hvj htag
        omega

/-- Replacing a slot by one with the same occupancy and tag keeps the
occupied-tag list. -/
theorem pc5_validTags_set_eq :
    ∀ (rs : List Slot) (i : Nat) (a σ : Slot), rs.get? i = some σ →
      a.valid = σ.valid → a.instruction.tag = σ.instruction.tag →
      validTags (rs.set i a) = validTags rs := by
  intro rs
  induction rs with
  | nil => intro i a σ hget; simp at hget
  | cons x xs ih =>
    intro i a σ hget hv ht
    cases i with
    | zero =>
      injection hget with hget
      subst hget
      show validTags (a :: xs) = validTags (x :: xs)
      cases hvx : x.valid
      · rw [pc5_validTags_cons_invalid x xs hvx,
          pc5_validTags_cons_invalid a xs (hv.trans hvx)]
      · rw [pc5_validTags_cons_valid x xs hvx,
          pc5_validTags_cons_valid a xs (hv.trans hvx), ht]
    | succ n =>
      show validTags (x :: xs.set n a) = validTags (x :: xs)
      cases hvx : x.valid
      · rw [pc5_validTags_cons_invalid x _ hvx,
          pc5_validTags_cons_invalid x xs hvx]
        exact ih n a σ (by simpa using hget) hv ht
      · rw [pc5_validTags_cons_valid x _ hvx,
          pc5_validTags_cons_valid x xs hvx]
        rw [ih n a σ (by simpa using hget) hv ht]

/-- A pointwise slot transformation that keeps occupancy and tags keeps
the occupied-tag list. -/
theorem pc5_validTags_map_eq (g : Slot → Slot)
    (h : ∀ σ, (g σ).valid = σ.valid ∧
      (g σ).instruction.tag = σ.instruction.tag) :
    ∀ rs : List Slot, validTags (rs.map g) = validTags rs := by
  intro rs
  induction rs with
  | nil => rfl
  | cons σ rest ih =>
    rw [List.map_cons]
    cases hv : σ.valid
    · rw [pc5_validTags_cons_invalid σ rest hv,
        pc5_validTags_cons_invalid (g σ) _ ((h σ).1.trans hv), ih]
    · rw [pc5_validTags_cons_valid σ rest hv,
        pc5_validTags_cons_valid (g σ) _ ((h σ).1.trans hv), (h σ).2, ih]

/-- A pointwise slot transformation that either keeps occupancy and tag
or frees the slot shrinks the occupied-tag list to a sublist. -/
theorem pc5_validTags_map_sublist (g : Slot → Slot)
    (h : ∀ σ, ((g σ).valid = σ.valid ∧
      (g σ).instruction.tag = σ.instruction.tag) ∨ (g σ).valid = false) :
    ∀ rs : List Slot, List.Sublist (validTags (rs.map g)) (validTags rs) := by
  intro rs
  induction rs with
  | nil => exact List.Sublist.refl _
  | cons σ rest ih =>
    rw [List.map_cons]
    rcases h σ with ⟨hv, ht⟩ | hfree
    · cases hvx : σ.valid
      · rw [pc5_validTags_cons_invalid σ rest hvx,
          pc5_validTags_cons_invalid (g σ) _ (hv.trans hvx)]
        exact ih
      · rw [pc5_validTags_cons_valid σ rest hvx,
          pc5_validTags_cons_valid (g σ) _ (hv.trans hvx), ht]
        exact List.Sublist.cons₂ _ ih
    · rw [pc5_validTags_cons_invalid (g σ) _ hfree]
      cases hvx : σ.valid
      · rw [pc5_validTags_cons_invalid σ rest hvx]
        exact ih
      · rw [pc5_validTags_cons_valid σ rest hvx]
        exact List.Sublist.cons _ ih

/-- Every nonempty list of naturals has a least element. -/
theorem pc5_exists_min :
    ∀ l : List Nat, l ≠ [] → ∃ t ∈ l, ∀ u ∈ l, t ≤ u := by
  intro l
  induction l with
  | nil => intro h; exact absurd rfl h
  | cons x xs ih =>
    intro _
    cases hxs : xs with
    | nil =>
      refine ⟨x, List.mem_cons_self x [], ?_⟩
      intro u hu
      rcases List.mem_cons.mp hu with heq | hmem
      · omega
      · simp at hmem
    | cons y ys =>
      obtain ⟨t, ht, hmin⟩ := ih (by simp [hxs])
      rw [hxs] at ht hmin
      by_cases hle : t ≤ x
      · refine ⟨t, List.mem_cons_of_mem x ht, ?_⟩
        intro u hu
        rcases List.mem_cons.mp hu with heq | hmem
        · omega
        · exact hmin u hmem
      · refine ⟨x, List.mem_cons_self x (y :: ys), ?_⟩
        intro u hu
        rcases List.mem_cons.mp hu with heq | hmem
        · omega
        · have := hmin u hmem
          omega

end Procsim.PC

namespace Procsim.PC

/-- Marking a slot state-updated never raises its potential. -/
theorem pc5_slotPot_mark (σ : Slot) :
    slotPot { σ with state_updated := true } ≤ slotPot σ := by
  cases hv : σ.valid <;> cases hf : σ.fired <;> cases hc : σ.completed <;>
    cases hs : σ.state_updated <;> simp [slotPot, hv, hf, hc, hs]

/-- Marking a completed, not-yet-updated occupied slot state-updated
strictly lowers its potential. -/
theorem pc5_slotPot_mark_lt (σ : Slot) (hv : σ.valid = true)
    (hf : σ.fired = true) (hc : σ.completed = true)
    (hs : σ.state_updated = false) :
    slotPot { σ with state_updated := true } < slotPot σ := by
  simp [slotPot, hv, hf, hc, hs]

/-- Firing a slot never raises its potential. -/
theorem pc5_slotPot_fire (σ : Slot) (c : Nat) :
    slotPot { σ with fired := true, fired_cycle := c, execute_cycles_left := 1 } ≤ slotPot σ := by
  cases hv : σ.valid <;> cases hf : σ.fired <;> cases hc : σ.completed <;>
    cases hs : σ.state_updated <;> simp [slotPot, hv, hf, hc, hs]

/-- Firing a waiting occupied slot strictly lowers its potential. -/
theorem pc5_slotPot_fire_lt (σ : Slot) (c : Nat) (hv : σ.valid = true)
    (hf : σ.fired = false) (hc : σ.completed = false) :
    slotPot { σ with fired := true, fired_cycle := c, execute_cycles_left := 1 } < slotPot σ := by
  simp [slotPot, hv, hf, hc]

/-- The execution tick never raises a slot potential. -/
theorem pc5_slotPot_exec_tick (c : Nat) (σ : Slot) :
    slotPot (exec_tick c σ) ≤ slotPot σ := by
  unfold exec_tick
  by_cases h : σ.valid = true ∧ σ.fired = true ∧ σ.completed = false ∧
      0 < σ.execute_cycles_left
  · rw [if_pos h]
    by_cases h2 : σ.execute_cycles_left - 1 = 0
    · rw [if_pos h2]
      cases hs : σ.state_updated <;>
        simp [slotPot, h.1, h.2.1, h.2.2.1, hs]
    · rw [if_neg h2]
      simp [slotPot]
  · rw [if_neg h]

/-- The execution tick strictly lowers the potential of an executing slot
in its last latency cycle. -/
theorem pc5_slotPot_exec_tick_lt (c : Nat) (σ : Slot)
    (hv : σ.valid = true) (hf : σ.fired = true) (hc : σ.completed = false)
    (hl : σ.execute_cycles_left = 1) :
    slotPot (exec_tick c σ) < slotPot σ := by
  unfold exec_tick
  rw [if_pos ⟨hv, hf, hc, by omega⟩, if_pos (by omega)]
  cases hs : σ.state_updated <;> simp [slotPot, hv, hf, hc, hs]

/-- The retirement sweep never raises a slot potential. -/
theorem pc5_slotPot_su2 (σ : Slot) :
    slotPot (if σ.valid = true ∧ σ.state_updated = true then
      { σ with valid := false, state_updated := false } else σ) ≤
      slotPot σ := by
  by_cases h : σ.valid = true ∧ σ.state_updated = true
  · rw [if_pos h]
    simp [slotPot]
  · rw [if_neg h]

/-- The wakeup-flag refresh keeps every slot potential. -/
theorem pc5_slotPot_sch2 (σ : Slot) (a b : Bool) :
    slotPot { σ with src1_ready := a, src2_ready := b } = slotPot σ := by
  cases hv : σ.valid <;> cases hf : σ.fired <;> cases hc : σ.completed <;>
    cases hs : σ.state_updated <;> simp [slotPot, hv, hf, hc, hs]

/-- A pointwise transformation dominated in potential dominates the
station potential. -/
theorem pc5_rsPot_map_le (g : Slot → Slot) (rs : List Slot)
    (h : ∀ σ ∈ rs, slotPot (g σ) ≤ slotPot σ) :
    rsPot (rs.map g) ≤ rsPot rs := by
  unfold rsPot
  rw [List.map_map]
  exact pc5_sum_map_le _ _ rs h

/-- A pointwise potential-preserving transformation keeps the station
potential. -/
theorem pc5_rsPot_map_eq (g : Slot → Slot) (rs : List Slot)
    (h : ∀ σ ∈ rs, slotPot (g σ) = slotPot σ) :
    rsPot (rs.map g) = rsPot rs := by
  unfold rsPot
  rw [List.map_map]
  exact congrArg List.sum (List.map_congr_left (fun σ hσ => h σ hσ))

/-- Strict version of the pointwise station-potential comparison. -/
theorem pc5_rsPot_map_lt (g : Slot → Slot) (rs : List Slot)
    (h : ∀ σ ∈ rs, slotPot (g σ) ≤ slotPot σ)
    (hex : ∃ σ ∈ rs, slotPot (g σ) < slotPot σ) :
    rsPot (rs.map g) < rsPot rs := by
  unfold rsPot
  rw [List.map_map]
  exact pc5_sum_map_lt _ _ rs h hex

/-- Station potential of a single-entry replacement. -/
theorem pc5_rsPot_set_le (rs : List Slot) (i : Nat) (a : Slot)
    (h : ∀ b, rs.get? i = some b → slotPot a ≤ slotPot b) :
    rsPot (rs.set i a) ≤ rsPot rs :=
  pc5_sum_map_set_le slotPot rs i a h

/-- Strict station potential of a single-entry replacement. -/
theorem pc5_rsPot_set_lt (rs : List Slot) (i : Nat) (a b : Slot)
    (hget : rs.get? i = some b) (h : slotPot a < slotPot b) :
    rsPot (rs.set i a) < rsPot rs :=
  pc5_sum_map_set_lt slotPot rs i a b hget h

/-- The find-and-mark loops of the procsim.cpp state-update phase either
find the first occupied slot with the sought tag (and then the marking is
a single-slot replacement at its position) or both fail. -/
theorem pc5_mark_spec (t : Nat) :
    ∀ rs : List Slot,
      (∃ i σ, rs.get? i = some σ ∧ σ.valid = true ∧
        σ.instruction.tag = t ∧ findByTag t rs = some σ ∧
        mark_state_updated t rs =
          rs.set i { σ with state_updated := true }) ∨
      (findByTag t rs = none ∧ mark_state_updated t rs = rs) := by
  intro rs
  induction rs with
  | nil => exact Or.inr ⟨rfl, rfl⟩
  | cons x xs ih =>
    by_cases hx : x.valid = true ∧ x.instruction.tag = t
    · refine Or.inl ⟨0, x, rfl, hx.1, hx.2, ?_, ?_⟩
      · rw [findByTag, if_pos hx]
      · rw [mark_state_updated, if_pos hx]
        rfl
    · rcases ih with ⟨i, σ, hget, hv, htag, hfind, hmark⟩ | ⟨hfind, hmark⟩
      · refine Or.inl ⟨i + 1, σ, by simpa using hget, hv, htag, ?_, ?_⟩
        · rw [findByTag, if_neg hx]
          exact hfind
        · rw [mark_state_updated, if_neg hx, hmark]
          rfl
      · refine Or.inr ⟨?_, ?_⟩
        · rw [findByTag, if_neg hx]
          exact hfind
        · rw [mark_state_updated, if_neg hx, hmark]

end Procsim.PC

namespace Procsim.PC

/-- Mapping a function that fixes every member is the identity. -/
theorem pc5_map_id_of {α : Type} (f : α → α) :
    ∀ l : List α, (∀ a ∈ l, f a = a) → l.map f = l := by
  intro l
  induction l with
  | nil => intro _; rfl
  | cons x xs ih =>
    intro h
    rw [List.map_cons, h x (List.mem_cons_self x xs),
      ih (fun a ha => h a (List.mem_cons_of_mem x ha))]

/-- Duplicate-freeness of the occupied tags passes to the tail. -/
theorem pc5_validTags_nodup_tail (x : Slot) (xs : List Slot)
    (h : (validTags (x :: xs)).Nodup) : (validTags xs).Nodup := by
  cases hv : x.valid
  · rw [pc5_validTags_cons_invalid x xs hv] at h
    exact h
  · rw [pc5_validTags_cons_valid x xs hv] at h
    exact (List.nodup_cons.mp h).2

/-- A failed tag lookup means no occupied slot carries the tag. -/
theorem pc5_findByTag_none (t : Nat) :
    ∀ rs : List Slot, findByTag t rs = none →
      ∀ σ ∈ rs, ¬(σ.valid = true ∧ σ.instruction.tag = t) := by
  intro rs
  induction rs with
  | nil => intro _ σ hσ; simp at hσ
  | cons x xs ih =>
    intro hnone σ hσ
    by_cases hx : x.valid = true ∧ x.instruction.tag = t
    · rw [findByTag, if_pos hx] at hnone
      exact absurd hnone (by simp)
    · rw [findByTag, if_neg hx] at hnone
      rcases List.mem_cons.mp hσ with heq | hmem
      · rw [heq]
        exact hx
      · exact ih hnone σ hmem

/-- An occupied slot with the sought tag makes the lookup succeed. -/
theorem pc5_findByTag_isSome (t : Nat) :
    ∀ rs : List Slot, (∃ σ ∈ rs, σ.valid = true ∧
      σ.instruction.tag = t) → (findByTag t rs).isSome = true := by
  intro rs h
  rcases hfind : findByTag t rs with _ | σ
  · obtain ⟨σ, hmem, hv, htag⟩ := h
    exact absurd ⟨hv, htag⟩ (pc5_findByTag_none t rs hfind σ hmem)
  · rfl

/-- Under duplicate-free occupied tags, the first-match marking equals
marking every occupied slot carrying the tag. -/
theorem pc5_mark_map (t : Nat) :
    ∀ rs : List Slot, (validTags rs).Nodup →
      mark_state_updated t rs = rs.map (fun σ =>
        if σ.valid = true ∧ σ.instruction.tag = t then
          { σ with state_updated := true } else σ) := by
  intro rs
  induction rs with
  | nil => intro _; rfl
  | cons x xs ih =>
    intro hnd
    by_cases hx : x.valid = true ∧ x.instruction.tag = t
    · rw [mark_state_updated, if_pos hx, List.map_cons, if_pos hx]
      have htail : xs.map (fun σ =>
          if σ.valid = true ∧ σ.instruction.tag = t then
            { σ with state_updated := true } else σ) = xs := by
        refine pc5_map_id_of _ xs (fun σ hσ => ?_)
        by_cases hc : σ.valid = true ∧ σ.instruction.tag = t
        · exfalso
          rw [pc5_validTags_cons_valid x xs hx.1] at hnd
          have : σ.instruction.tag ∈ validTags xs :=
            pc5_mem_validTags xs σ hσ hc.1
          rw [hc.2, ← hx.2] at this
          exact absurd this (List.nodup_cons.mp hnd).1
        · rw [if_neg hc]
      rw [htail]
    · rw [mark_state_updated, if_neg hx, List.map_cons, if_neg hx,
        ih (pc5_validTags_nodup_tail x xs hnd)]

end Procsim.PC

namespace Procsim.PC

/-- The per-broadcast state update leaves the queue, the source, the bus,
the unit counters, the tag counter, the cycle counter and the retired
count unchanged. -/
theorem pc5_su_one_comps (c : Nat) (s : State) (t : Nat) :
    (su_process_one c s t).dispatch_queue = s.dispatch_queue ∧
    (su_process_one c s t).source = s.source ∧
    (su_process_one c s t).result_bus_tags = s.result_bus_tags ∧
    (su_process_one c s t).k0_fu_available = s.k0_fu_available ∧
    (su_process_one c s t).k1_fu_available = s.k1_fu_available ∧
    (su_process_one c s t).k2_fu_available = s.k2_fu_available ∧
    (su_process_one c s t).global_tag_counter = s.global_tag_counter ∧
    (su_process_one c s t).current_cycle = s.current_cycle ∧
    (su_process_one c s t).instructions_retired = s.instructions_retired := by
  unfold su_process_one
  rcases hfind : findByTag t s.reservation_station with _ | σt
  · simp [hfind]
  · simp only [hfind]
    by_cases hd : σt.instruction.dest_reg ≠ -1
    · rw [if_pos hd]
      simp
    · rw [if_neg hd]
      simp

/-- Reservation-station effect of the per-broadcast state update: mark
every occupied slot carrying the processed tag (under duplicate-free
occupied tags). -/
theorem pc5_su_one_rs (c : Nat) (s : State) (t : Nat)
    (hnd : (validTags s.reservation_station).Nodup) :
    (su_process_one c s t).reservation_station =
      s.reservation_station.map (fun σ =>
        if σ.valid = true ∧ σ.instruction.tag = t then
          { σ with state_updated := true } else σ) := by
  unfold su_process_one
  rcases hfind : findByTag t s.reservation_station with _ | σt
  · simp only [hfind]
    refine (pc5_map_id_of _ _ (fun σ hσ => ?_)).symm
    rw [if_neg (pc5_findByTag_none t s.reservation_station hfind σ hσ)]
  · simp only [hfind]
    by_cases hd : σt.instruction.dest_reg ≠ -1
    · rw [if_pos hd]
      exact pc5_mark_map t s.reservation_station hnd
    · rw [if_neg hd]
      exact pc5_mark_map t s.reservation_station hnd

/-- In-flight-writer sets only shrink across the per-broadcast state
update. -/
theorem pc5_su_one_infl_sub (c : Nat) (s : State) (t : Nat) (r : Int)
    (w : Nat)
    (hw : w ∈ (su_process_one c s t).register_in_flight_writers r) :
    w ∈ s.register_in_flight_writers r := by
  unfold su_process_one at hw
  rcases hfind : findByTag t s.reservation_station with _ | σt <;>
    simp only [hfind] at hw
  · exact hw
  · by_cases hd : σt.instruction.dest_reg ≠ -1
    · rw [if_pos hd] at hw
      simp only [Procsim.updFun] at hw
      by_cases hr : r = σt.instruction.dest_reg
      · rw [if_pos hr] at hw
        rw [hr]
        exact List.mem_of_mem_erase hw
      · rw [if_neg hr] at hw
        exact hw
    · rw [if_neg hd] at hw
      exact hw

/-- Duplicate-freeness of the in-flight-writer sets is preserved by the
per-broadcast state update. -/
theorem pc5_su_one_inflNodup (c : Nat) (s : State) (t : Nat)
    (h : ∀ r : Int, (s.register_in_flight_writers r).Nodup) :
    ∀ r : Int, ((su_process_one c s t).register_in_flight_writers r).Nodup := by
  intro r
  unfold su_process_one
  rcases hfind : findByTag t s.reservation_station with _ | σt <;>
    simp only [hfind]
  · exact h r
  · by_cases hd : σt.instruction.dest_reg ≠ -1
    · rw [if_pos hd]
      simp only [Procsim.updFun]
      by_cases hr : r = σt.instruction.dest_reg
      · rw [if_pos hr]
        exact (h _).erase t
      · rw [if_neg hr]
        exact h r
    · rw [if_neg hd]
      exact h r

end Procsim.PC

namespace Procsim.PC

/-- The state-update fold leaves the queue, source, bus, unit counters,
tag counter, cycle counter and retired count unchanged. -/
theorem pc5_su_fold_comps :
    ∀ (ps : List (Nat × Nat × Nat)) (s : State),
      ((ps.foldl (fun s p => su_process_one s.current_cycle s p.2.1)
          s).dispatch_queue = s.dispatch_queue ∧
        (ps.foldl (fun s p => su_process_one s.current_cycle s p.2.1)
          s).source = s.source ∧
        (ps.foldl (fun s p => su_process_one s.current_cycle s p.2.1)
          s).result_bus_tags = s.result_bus_tags ∧
        (ps.foldl (fun s p => su_process_one s.current_cycle s p.2.1)
          s).k0_fu_available = s.k0_fu_available ∧
        (ps.foldl (fun s p => su_process_one s.current_cycle s p.2.1)
          s).k1_fu_available = s.k1_fu_available ∧
        (ps.foldl (fun s p => su_process_one s.current_cycle s p.2.1)
          s).k2_fu_available = s.k2_fu_available ∧
        (ps.foldl (fun s p => su_process_one s.current_cycle s p.2.1)
          s).global_tag_counter = s.global_tag_counter ∧
        (ps.foldl (fun s p => su_process_one s.current_cycle s p.2.1)
          s).current_cycle = s.current_cycle ∧
        (ps.foldl (fun s p => su_process_one s.current_cycle s p.2.1)
          s).instructions_retired = s.instructions_retired) := by
  intro ps
  induction ps with
  | nil =>
    intro s
    exact ⟨rfl, rfl, rfl, rfl, rfl, rfl, rfl, rfl, rfl⟩
  | cons p ps ih =>
    intro s
    rw [List.foldl_cons]
    obtain ⟨g1, g2, g3, g4, g5, g6, g7, g8, g9⟩ :=
      pc5_su_one_comps s.current_cycle s p.2.1
    obtain ⟨h1, h2, h3, h4, h5, h6, h7, h8, h9⟩ :=
      ih (su_process_one s.current_cycle s p.2.1)
    exact ⟨h1.trans g1, h2.trans g2, h3.trans g3, h4.trans g4,
      h5.trans g5, h6.trans g6, h7.trans g7, h8.trans g8, h9.trans g9⟩

/-- Reservation-station effect of the state-update fold: mark every
occupied slot whose tag occurs among the processed tags. -/
theorem pc5_su_fold_rs :
    ∀ (ps : List (Nat × Nat × Nat)) (s : State),
      (validTags s.reservation_station).Nodup →
      (ps.foldl (fun s p => su_process_one s.current_cycle s p.2.1)
          s).reservation_station =
        s.reservation_station.map (fun σ =>
          if σ.valid = true ∧
              σ.instruction.tag ∈ ps.map (fun p => p.2.1) then
            { σ with state_updated := true } else σ) := by
  intro ps
  induction ps with
  | nil =>
    intro s _
    refine (pc5_map_id_of _ _ (fun σ hσ => ?_)).symm
    rw [if_neg (by simp)]
  | cons p ps ih =>
    intro s hnd
    rw [List.foldl_cons]
    have hrs1 : (su_process_one s.current_cycle s p.2.1).reservation_station =
        s.reservation_station.map (fun σ =>
          if σ.valid = true ∧ σ.instruction.tag = p.2.1 then
            { σ with state_updated := true } else σ) :=
      pc5_su_one_rs s.current_cycle s p.2.1 hnd
    have hpres : ∀ σ : Slot,
        ((if σ.valid = true ∧ σ.instruction.tag = p.2.1 then
          { σ with state_updated := true } else σ) : Slot).valid = σ.valid ∧
        ((if σ.valid = true ∧ σ.instruction.tag = p.2.1 then
          { σ with state_updated := true } else σ) : Slot).instruction.tag =
          σ.instruction.tag := by
      intro σ
      by_cases hc : σ.valid = true ∧ σ.instruction.tag = p.2.1
      · rw [if_pos hc]
        exact ⟨rfl, rfl⟩
      · rw [if_neg hc]
        exact ⟨rfl, rfl⟩
    have hnd1 : (validTags (su_process_one s.current_cycle s
        p.2.1).reservation_station).Nodup := by
      rw [hrs1, pc5_validTags_map_eq _ hpres]
      exact hnd
    rw [ih _ hnd1, hrs1, List.map_map]
    refine List.map_congr_left (fun σ hσ => ?_)
    by_cases hv : σ.valid = true
    · by_cases ht : σ.instruction.tag = p.2.1
      · by_cases hmem2 : σ.instruction.tag ∈ ps.map (fun p => p.2.1)
        · simp [Function.comp, hv, ht, hmem2]
        · simp [Function.comp, hv, ht, hmem2]
      · by_cases hmem2 : σ.instruction.tag ∈ ps.map (fun p => p.2.1)
        · simp [Function.comp, hv, ht, hmem2]
        · simp [Function.comp, hv, ht, hmem2]
    · simp [Function.comp, hv]

end Procsim.PC

namespace Procsim.PC

/-- When every bus tag has an occupied slot, the completion-cycle pairing
loses no tags: its tag projection is the bus itself. -/
theorem pc5_pairs_tags (rs : List Slot) :
    ∀ bus : List Nat, (∀ t ∈ bus, (findByTag t rs).isSome = true) →
      (bus.filterMap (fun t => (findByTag t rs).map
        (fun slot => (slot.completed_cycle, t, 0)))).map
          (fun p => p.2.1) = bus := by
  intro bus
  induction bus with
  | nil => intro _; rfl
  | cons t rest ih =>
    intro h
    rcases hfind : findByTag t rs with _ | σ
    · have := h t (List.mem_cons_self t rest)
      rw [hfind] at this
      simp at this
    · rw [List.filterMap_cons, hfind]
      simp only [Option.map_some', List.map_cons]
      rw [ih (fun u hu => h u (List.mem_cons_of_mem t hu))]

/-- The state-update stage leaves the queue, source, unit counters, tag
counter, cycle counter and retired count unchanged and clears the bus. -/
theorem pc5_su1_comps (s : State) :
    (state_update_stage_first_half s).dispatch_queue = s.dispatch_queue ∧
    (state_update_stage_first_half s).source = s.source ∧
    (state_update_stage_first_half s).result_bus_tags = [] ∧
    (state_update_stage_first_half s).k0_fu_available = s.k0_fu_available ∧
    (state_update_stage_first_half s).k1_fu_available = s.k1_fu_available ∧
    (state_update_stage_first_half s).k2_fu_available = s.k2_fu_available ∧
    (state_update_stage_first_half s).global_tag_counter =
      s.global_tag_counter ∧
    (state_update_stage_first_half s).current_cycle = s.current_cycle ∧
    (state_update_stage_first_half s).instructions_retired =
      s.instructions_retired := by
  obtain ⟨h1, h2, h3, h4, h5, h6, h7, h8, h9⟩ :=
    pc5_su_fold_comps ((s.result_bus_tags.filterMap (fun t =>
      (findByTag t s.reservation_station).map
        (fun slot => (slot.completed_cycle, t, 0)))).insertionSort
          Procsim.bcastLe) s
  exact ⟨h1, h2, rfl, h4, h5, h6, h7, h8, h9⟩

/-- Reservation-station effect of the state-update stage: mark exactly
the occupied slots whose tag sits on the result bus (under duplicate-free
occupied tags, when every bus tag is backed by an occupied slot). -/
theorem pc5_su1_rs (s : State)
    (hnd : (validTags s.reservation_station).Nodup)
    (hbus : ∀ t ∈ s.result_bus_tags, ∃ σ ∈ s.reservation_station,
      σ.valid = true ∧ σ.instruction.tag = t) :
    (state_update_stage_first_half s).reservation_station =
      s.reservation_station.map (fun σ =>
        if σ.valid = true ∧ σ.instruction.tag ∈ s.result_bus_tags then
          { σ with state_updated := true } else σ) := by
  show ((((s.result_bus_tags.filterMap (fun t =>
      (findByTag t s.reservation_station).map
        (fun slot => (slot.completed_cycle, t, 0)))).insertionSort
          Procsim.bcastLe).foldl
      (fun s p => su_process_one s.current_cycle s p.2.1)
      s).reservation_station) = _
  rw [pc5_su_fold_rs _ s hnd]
  have htags : ((s.result_bus_tags.filterMap (fun t =>
      (findByTag t s.reservation_station).map
        (fun slot => (slot.completed_cycle, t, 0)))).map
          (fun p => p.2.1)) = s.result_bus_tags :=
    pc5_pairs_tags s.reservation_station s.result_bus_tags
      (fun t ht => by
        obtain ⟨σ, hmem, hv, htag⟩ := hbus t ht
        exact pc5_findByTag_isSome t s.reservation_station
          ⟨σ, hmem, hv, htag⟩)
  have hiff : ∀ a : Nat, (a ∈ (((s.result_bus_tags.filterMap (fun t =>
      (findByTag t s.reservation_station).map
        (fun slot => (slot.completed_cycle, t, 0)))).insertionSort
          Procsim.bcastLe).map (fun p => p.2.1)) ↔
        a ∈ s.result_bus_tags) := by
    intro a
    conv_rhs => rw [← htags]
    exact ((List.perm_insertionSort Procsim.bcastLe _).map
      (fun p => p.2.1)).mem_iff
  refine List.map_congr_left (fun σ hσ => ?_)
  by_cases hv : σ.valid = true
  · by_cases hmem : σ.instruction.tag ∈ s.result_bus_tags
    · rw [if_pos ⟨hv, (hiff σ.instruction.tag).mpr hmem⟩,
        if_pos ⟨hv, hmem⟩]
    · rw [if_neg (fun hcon => hmem ((hiff σ.instruction.tag).mp hcon.2)),
        if_neg (fun hcon => hmem hcon.2)]
  · rw [if_neg (fun hcon => hv hcon.1), if_neg (fun hcon => hv hcon.1)]

end Procsim.PC

namespace Procsim.PC

/-- A successful tag lookup returns an occupied member slot carrying the
tag. -/
theorem pc5_findByTag_some (t : Nat) :
    ∀ (rs : List Slot) (σ : Slot), findByTag t rs = some σ →
      σ ∈ rs ∧ σ.valid = true ∧ σ.instruction.tag = t := by
  intro rs
  induction rs with
  | nil => intro σ h; simp [findByTag] at h
  | cons x xs ih =>
    intro σ h
    by_cases hx : x.valid = true ∧ x.instruction.tag = t
    · rw [findByTag, if_pos hx] at h
      injection h with h
      subst h
      exact ⟨List.mem_cons_self x xs, hx.1, hx.2⟩
    · rw [findByTag, if_neg hx] at h
      obtain ⟨hmem, hv, htag⟩ := ih σ h
      exact ⟨List.mem_cons_of_mem x hmem, hv, htag⟩

/-- The per-broadcast state update preserves the in-flight-writer
invariant: every recorded writer still has an occupied, not-yet-updated
slot with its tag and destination. -/
theorem pc5_su_one_inflOk (c : Nat) (s : State) (t : Nat)
    (hnd : (validTags s.reservation_station).Nodup)
    (hinfnd : ∀ r : Int, (s.register_in_flight_writers r).Nodup)
    (hok : ∀ r : Int, r ≠ -1 → ∀ w ∈ s.register_in_flight_writers r,
      ∃ σ ∈ s.reservation_station, σ.valid = true ∧
        σ.instruction.tag = w ∧ σ.instruction.dest_reg = r ∧
        σ.state_updated = false) :
    ∀ r : Int, r ≠ -1 →
      ∀ w ∈ (su_process_one c s t).register_in_flight_writers r,
        ∃ σ ∈ (su_process_one c s t).reservation_station, σ.valid = true ∧
          σ.instruction.tag = w ∧ σ.instruction.dest_reg = r ∧
          σ.state_updated = false := by
  intro r hr w hw
  have hwsub : w ∈ s.register_in_flight_writers r :=
    pc5_su_one_infl_sub c s t r w hw
  obtain ⟨σw, hmemw, hvw, htagw, hdw, hsuw⟩ := hok r hr w hwsub
  have hwt : w ≠ t := by
    intro heq
    subst heq
    rcases hfind : findByTag w s.reservation_station with _ | σt
    · exact absurd ⟨hvw, htagw⟩
        (pc5_findByTag_none w s.reservation_station hfind σw hmemw)
    · obtain ⟨hmemt, hvt, htagt⟩ :=
        pc5_findByTag_some w s.reservation_station σt hfind
      obtain ⟨i, hi⟩ := List.get_of_mem hmemw
      obtain ⟨j, hj⟩ := List.get_of_mem hmemt
      have hgi : s.reservation_station.get? i.1 = some σw := by
        rw [List.get?_eq_get i.2]
        exact congrArg some hi
      have hgj : s.reservation_station.get? j.1 = some σt := by
        rw [List.get?_eq_get j.2]
        exact congrArg some hj
      have hij : i.1 = j.1 :=
        pc5_validTags_get_unique s.reservation_station hnd i.1 j.1 σw σt
          hgi hgj hvw hvt (htagw.trans htagt.symm)
      have hσeq : σw = σt := by
        rw [hij] at hgi
        rw [hgi] at hgj
        injection hgj
      unfold su_process_one at hw
      simp only [hfind] at hw
      have hd2 : σt.instruction.dest_reg ≠ -1 := by
        rw [← hσeq, hdw]
        exact hr
      rw [if_pos hd2] at hw
      simp only [Procsim.updFun] at hw
      have hreq : r = σt.instruction.dest_reg := by
        rw [← hσeq, hdw]
      rw [if_pos hreq] at hw
      exact absurd hw ((hinfnd _).not_mem_erase)
  have hrs : (su_process_one c s t).reservation_station =
      s.reservation_station.map (fun σ =>
        if σ.valid = true ∧ σ.instruction.tag = t then
          { σ with state_updated := true } else σ) :=
    pc5_su_one_rs c s t hnd
  refine ⟨σw, ?_, hvw, htagw, hdw, hsuw⟩
  rw [hrs]
  refine List.mem_map.mpr ⟨σw, hmemw, ?_⟩
  rw [if_neg (fun hcon => hwt (htagw.symm.trans hcon.2))]

/-- The state-update fold preserves duplicate-free occupied tags, the
duplicate-free in-flight sets, and the in-flight-writer invariant. -/
theorem pc5_su_fold_inflOk :
    ∀ (ps : List (Nat × Nat × Nat)) (s : State),
      (validTags s.reservation_station).Nodup →
      (∀ r : Int, (s.register_in_flight_writers r).Nodup) →
      (∀ r : Int, r ≠ -1 → ∀ w ∈ s.register_in_flight_writers r,
        ∃ σ ∈ s.reservation_station, σ.valid = true ∧
          σ.instruction.tag = w ∧ σ.instruction.dest_reg = r ∧
          σ.state_updated = false) →
      ((∀ r : Int, ((ps.foldl (fun s p => su_process_one s.current_cycle
          s p.2.1) s).register_in_flight_writers r).Nodup) ∧
        (∀ r : Int, r ≠ -1 →
          ∀ w ∈ (ps.foldl (fun s p => su_process_one s.current_cycle s
            p.2.1) s).register_in_flight_writers r,
            ∃ σ ∈ (ps.foldl (fun s p => su_process_one s.current_cycle s
              p.2.1) s).reservation_station, σ.valid = true ∧
              σ.instruction.tag = w ∧ σ.instruction.dest_reg = r ∧
              σ.state_updated = false)) := by
  intro ps
  induction ps with
  | nil =>
    intro s _ hinfnd hok
    exact ⟨hinfnd, hok⟩
  | cons p ps ih =>
    intro s hnd hinfnd hok
    rw [List.foldl_cons]
    have hpres : ∀ σ : Slot,
        ((if σ.valid = true ∧ σ.instruction.tag = p.2.1 then
          { σ with state_updated := true } else σ) : Slot).valid = σ.valid ∧
        ((if σ.valid = true ∧ σ.instruction.tag = p.2.1 then
          { σ with state_updated := true } else σ) : Slot).instruction.tag =
          σ.instruction.tag := by
      intro σ
      by_cases hc : σ.valid = true ∧ σ.instruction.tag = p.2.1
      · rw [if_pos hc]
        exact ⟨rfl, rfl⟩
      · rw [if_neg hc]
        exact ⟨rfl, rfl⟩
    have hnd1 : (validTags (su_process_one s.current_cycle s
        p.2.1).reservation_station).Nodup := by
      rw [pc5_su_one_rs _ s _ hnd, pc5_validTags_map_eq _ hpres]
      exact hnd
    exact ih (su_process_one s.current_cycle s p.2.1) hnd1
      (pc5_su_one_inflNodup _ s _ hinfnd)
      (pc5_su_one_inflOk _ s _ hnd hinfnd hok)

end Procsim.PC

namespace Procsim.PC

/-- The execution tick never changes occupancy, the held instruction, the
fired flag or the state-updated flag of a slot. -/
theorem pc5_exec_tick_fields (c : Nat) (σ : Slot) :
    (exec_tick c σ).valid = σ.valid ∧
    (exec_tick c σ).instruction = σ.instruction ∧
    (exec_tick c σ).fired = σ.fired ∧
    (exec_tick c σ).state_updated = σ.state_updated := by
  unfold exec_tick
  by_cases h : σ.valid = true ∧ σ.fired = true ∧ σ.completed = false ∧
      0 < σ.execute_cycles_left
  · rw [if_pos h]
    by_cases h2 : σ.execute_cycles_left - 1 = 0
    · rw [if_pos h2]
      exact ⟨rfl, rfl, rfl, rfl⟩
    · rw [if_neg h2]
      exact ⟨rfl, rfl, rfl, rfl⟩
  · rw [if_neg h]
    exact ⟨rfl, rfl, rfl, rfl⟩

/-- Under the one-cycle-latency invariant, the execution tick completes
exactly the occupied fired uncompleted slots. -/
theorem pc5_exec_tick_of_inv (c : Nat) (σ : Slot)
    (hcl : σ.valid = true → σ.fired = true → σ.completed = false →
      σ.execute_cycles_left = 1) :
    exec_tick c σ =
      if σ.valid = true ∧ σ.fired = true ∧ σ.completed = false then
        { σ with execute_cycles_left := 0, completed := true,
                 completed_cycle := c }
      else σ := by
  unfold exec_tick
  by_cases h : σ.valid = true ∧ σ.fired = true ∧ σ.completed = false
  · have hl : σ.execute_cycles_left = 1 := hcl h.1 h.2.1 h.2.2
    rw [if_pos ⟨h.1, h.2.1, h.2.2, by omega⟩, if_pos (by omega),
      if_pos h]
  · rw [if_neg (fun hcon => h ⟨hcon.1, hcon.2.1, hcon.2.2.1⟩), if_neg h]

/-- The execution tick does not change the in-flight count of any class. -/
theorem pc5_pending_exec_tick (c : Int) (bus : List Nat) (cyc : Nat)
    (rs : List Slot) :
    pendingCnt c bus (rs.map (exec_tick cyc)) = pendingCnt c bus rs := by
  unfold pendingCnt
  rw [List.countP_map]
  refine List.countP_congr (fun σ hσ => ?_)
  obtain ⟨h1, h2, h3, h4⟩ := pc5_exec_tick_fields cyc σ
  show ((exec_tick cyc σ).valid && (exec_tick cyc σ).fired &&
    !(exec_tick cyc σ).state_updated &&
    !(bus.contains (exec_tick cyc σ).instruction.tag) &&
    decide (Procsim.fu_type (exec_tick cyc σ).instruction.op_code = c)) =
      true ↔ _
  rw [h1, h2, h3, h4]

/-- Appending one broadcast tag to the bus removes exactly its slot from
the in-flight count of its class and nothing from the other classes. -/
theorem pc5_pending_snoc (c : Int) (bus : List Nat) (rs : List Slot)
    (t : Nat) (i : Nat) (σ : Slot)
    (hnd : (validTags rs).Nodup) (hget : rs.get? i = some σ)
    (hv : σ.valid = true) (hf : σ.fired = true)
    (hs : σ.state_updated = false) (htag : σ.instruction.tag = t)
    (hnb : bus.contains t = false) :
    pendingCnt c (bus ++ [t]) rs +
      (if Procsim.fu_type σ.instruction.op_code = c then 1 else 0) =
      pendingCnt c bus rs := by
  unfold pendingCnt
  have hnb2 : t ∉ bus := by simpa using hnb
  have hsplit := pc5_countP_and_split
    (fun x : Slot => x.valid && x.fired && !x.state_updated &&
      !(bus.contains x.instruction.tag) &&
      decide (Procsim.fu_type x.instruction.op_code = c))
    (fun x : Slot => decide (x.instruction.tag = t)) rs
  have hB : rs.countP (fun x => (x.valid && x.fired && !x.state_updated &&
      !(bus.contains x.instruction.tag) &&
      decide (Procsim.fu_type x.instruction.op_code = c)) &&
      !(decide (x.instruction.tag = t))) =
      rs.countP (fun σ => σ.valid && σ.fired && !σ.state_updated &&
        !((bus ++ [t]).contains σ.instruction.tag) &&
        decide (Procsim.fu_type σ.instruction.op_code = c)) := by
    refine List.countP_congr (fun x hx => ?_)
    have hcapp : ((bus ++ [t]).contains x.instruction.tag) =
        (bus.contains x.instruction.tag ||
          decide (x.instruction.tag = t)) := by
      simp [List.elem_eq_mem, List.mem_append]
    rw [hcapp]
    cases hxv : x.valid <;> cases hxf : x.fired <;>
      cases hxs : x.state_updated <;>
      cases hxb : bus.contains x.instruction.tag <;>
      cases hxt : decide (x.instruction.tag = t) <;>
      cases hxc : decide (Procsim.fu_type x.instruction.op_code = c) <;>
      simp [hxv, hxf, hxs, hxb, hxt, hxc]
  have hA : rs.countP (fun x => (x.valid && x.fired && !x.state_updated &&
      !(bus.contains x.instruction.tag) &&
      decide (Procsim.fu_type x.instruction.op_code = c)) &&
      (decide (x.instruction.tag = t))) =
      (if Procsim.fu_type σ.instruction.op_code = c then 1 else 0) := by
    by_cases hc : Procsim.fu_type σ.instruction.op_code = c
    · rw [if_pos hc]
      refine pc5_countP_eq_one_of_unique _ rs i σ hget ?_ ?_
      · simp [hv, hf, hs, htag, hc, hnb2]
      · intro j b hj hb
        simp only [Bool.and_eq_true, decide_eq_true_eq] at hb
        exact pc5_validTags_get_unique rs hnd j i b σ hj hget
          hb.1.1.1.1.1 hv (by rw [hb.2, htag])
    · rw [if_neg hc]
      rw [List.countP_eq_zero]
      intro b hb hpb
      simp only [Bool.and_eq_true, decide_eq_true_eq] at hpb
      obtain ⟨jj, hjj⟩ := List.get_of_mem hb
      have hgj : rs.get? jj.1 = some b := by
        rw [List.get?_eq_get jj.2]
        exact congrArg some hjj
      have hji : jj.1 = i := pc5_validTags_get_unique rs hnd jj.1 i b σ hgj
        hget hpb.1.1.1.1.1 hv (by rw [hpb.2, htag])
      have hbσ : b = σ := by
        rw [hji] at hgj
        rw [hget] at hgj
        injection hgj with h
        exact h.symm
      rw [hbσ] at hpb
      exact hc hpb.1.2
  rw [hsplit, hA, hB]
  omega

end Procsim.PC

namespace Procsim.PC

/-- The broadcast loop only appends to the bus. -/
theorem pc5_bus_push_prefix (R : Nat) :
    ∀ (cands : List (Nat × Nat × Nat)) (rs : List Slot) (used : Nat)
      (bus : List Nat) (k0 k1 k2 : Nat),
      ∃ l, (bus_push_go R cands rs used bus k0 k1 k2).1 = bus ++ l := by
  intro cands
  induction cands with
  | nil =>
    intro rs used bus k0 k1 k2
    exact ⟨[], by simp [bus_push_go]⟩
  | cons p rest ih =>
    intro rs used bus k0 k1 k2
    obtain ⟨cc, t, i⟩ := p
    rw [bus_push_go]
    by_cases hu : used < R
    · rw [if_pos hu]
      rcases hget : rs.get? i with _ | σ
      · exact ih rs used bus k0 k1 k2
      · obtain ⟨l, hl⟩ := ih rs (used + 1) (bus ++ [σ.instruction.tag]) _ _ _
        exact ⟨[σ.instruction.tag] ++ l, by rw [hl, List.append_assoc]⟩
    · rw [if_neg hu]
      exact ⟨[], by simp⟩

/-- Any tag the broadcast loop adds to the bus belongs to a slot drawn
from the candidate list. -/
theorem pc5_bus_push_mem (R : Nat) (Q : Slot → Prop) :
    ∀ (cands : List (Nat × Nat × Nat)) (rs : List Slot) (used : Nat)
      (bus : List Nat) (k0 k1 k2 : Nat),
      (∀ p ∈ cands, ∃ σ, rs.get? p.2.2 = some σ ∧
        σ.instruction.tag = p.2.1 ∧ Q σ) →
      ∀ t ∈ (bus_push_go R cands rs used bus k0 k1 k2).1,
        t ∈ bus ∨ ∃ σ ∈ rs, σ.instruction.tag = t ∧ Q σ := by
  intro cands
  induction cands with
  | nil =>
    intro rs used bus k0 k1 k2 _ t ht
    exact Or.inl ht
  | cons p rest ih =>
    intro rs used bus k0 k1 k2 hco t ht
    obtain ⟨cc, tt, i⟩ := p
    rw [bus_push_go] at ht
    by_cases hu : used < R
    · rw [if_pos hu] at ht
      obtain ⟨σ, hget, htag, hQ⟩ := hco (cc, tt, i)
        (List.mem_cons_self _ _)
      rw [hget] at ht
      have hrest : ∀ q ∈ rest, ∃ σ, rs.get? q.2.2 = some σ ∧
          σ.instruction.tag = q.2.1 ∧ Q σ :=
        fun q hq => hco q (List.mem_cons_of_mem _ hq)
      rcases ih rs (used + 1) (bus ++ [σ.instruction.tag]) _ _ _ hrest
        t ht with hl | hr
      · rcases List.mem_append.mp hl with h1 | h2
        · exact Or.inl h1
        · have : t = σ.instruction.tag := by
            rcases List.mem_cons.mp h2 with h3 | h4
            · exact h3
            · simp at h4
          exact Or.inr ⟨σ, List.get?_mem hget, this.symm ▸ rfl, hQ⟩
      · exact Or.inr hr
    · rw [if_neg hu] at ht
      exact Or.inl ht

end Procsim.PC

namespace Procsim.PC

/-- The broadcast loop keeps the per-class books balanced: each pushed
tag releases exactly the unit of its own class, matching the slot leaving
the in-flight count of that class. -/
theorem pc5_bus_push_fuAcct (R : Nat) :
    ∀ (cands : List (Nat × Nat × Nat)) (rs : List Slot) (used : Nat)
      (bus : List Nat) (k0 k1 k2 : Nat),
      (validTags rs).Nodup →
      (∀ p ∈ cands, ∃ σ, rs.get? p.2.2 = some σ ∧ σ.valid = true ∧
        σ.fired = true ∧ σ.state_updated = false ∧
        σ.instruction.tag = p.2.1 ∧ bus.contains p.2.1 = false) →
      ((cands.map (fun p => p.2.1)).Nodup) →
      ((bus_push_go R cands rs used bus k0 k1 k2).2.1 +
          pendingCnt 0 (bus_push_go R cands rs used bus k0 k1 k2).1 rs =
        k0 + pendingCnt 0 bus rs) ∧
      ((bus_push_go R cands rs used bus k0 k1 k2).2.2.1 +
          pendingCnt 1 (bus_push_go R cands rs used bus k0 k1 k2).1 rs =
        k1 + pendingCnt 1 bus rs) ∧
      ((bus_push_go R cands rs used bus k0 k1 k2).2.2.2 +
          pendingCnt 2 (bus_push_go R cands rs used bus k0 k1 k2).1 rs =
        k2 + pendingCnt 2 bus rs) := by
  intro cands
  induction cands with
  | nil =>
    intro rs used bus k0 k1 k2 _ _ _
    exact ⟨rfl, rfl, rfl⟩
  | cons p rest ih =>
    intro rs used bus k0 k1 k2 hnd hco htnd
    obtain ⟨cc, t, i⟩ := p
    rw [bus_push_go]
    by_cases hu : used < R
    · rw [if_pos hu]
      obtain ⟨σ, hget, hv, hf, hsu, htag, hnb⟩ := hco (cc, t, i)
        (List.mem_cons_self _ _)
      rw [hget]
      have hnbσ : bus.contains σ.instruction.tag = false := by
        rw [htag]
        exact hnb
      have hs0 := pc5_pending_snoc 0 bus rs σ.instruction.tag i σ hnd hget
        hv hf hsu rfl hnbσ
      have hs1 := pc5_pending_snoc 1 bus rs σ.instruction.tag i σ hnd hget
        hv hf hsu rfl hnbσ
      have hs2 := pc5_pending_snoc 2 bus rs σ.instruction.tag i σ hnd hget
        hv hf hsu rfl hnbσ
      have hrest : ∀ q ∈ rest, ∃ σ2, rs.get? q.2.2 = some σ2 ∧
          σ2.valid = true ∧ σ2.fired = true ∧ σ2.state_updated = false ∧
          σ2.instruction.tag = q.2.1 ∧
          (bus ++ [σ.instruction.tag]).contains q.2.1 = false := by
        intro q hq
        obtain ⟨σ2, hg2, hv2, hf2, hs2b, ht2, hnb2⟩ :=
          hco q (List.mem_cons_of_mem _ hq)
        refine ⟨σ2, hg2, hv2, hf2, hs2b, ht2, ?_⟩
        have hne : q.2.1 ≠ σ.instruction.tag := by
          rw [htag]
          rw [List.map_cons] at htnd
          intro heq
          have : q.2.1 ∈ rest.map (fun p => p.2.1) :=
            List.mem_map.mpr ⟨q, hq, rfl⟩
          rw [heq] at this
          exact absurd this (List.nodup_cons.mp htnd).1
        have hnmem : q.2.1 ∉ bus := by simpa using hnb2
        simp [List.elem_eq_mem, List.mem_append, hnmem, hne]
      have htnd2 : (rest.map (fun p => p.2.1)).Nodup := by
        rw [List.map_cons] at htnd
        exact (List.nodup_cons.mp htnd).2
      dsimp only
      obtain ⟨ih0, ih1, ih2⟩ := ih rs (used + 1)
        (bus ++ [σ.instruction.tag])
        (if Procsim.fu_type σ.instruction.op_code = 0 then k0 + 1 else k0)
        (if Procsim.fu_type σ.instruction.op_code = 1 then k1 + 1 else k1)
        (if Procsim.fu_type σ.instruction.op_code = 2 then k2 + 1 else k2)
        hnd hrest htnd2
      refine ⟨?_, ?_, ?_⟩
      · by_cases hf0 : Procsim.fu_type σ.instruction.op_code = 0
        · rw [if_pos hf0] at ih0 hs0 ⊢
          omega
        · rw [if_neg hf0] at ih0 hs0 ⊢
          omega
      · by_cases hf1 : Procsim.fu_type σ.instruction.op_code = 1
        · rw [if_pos hf1] at ih1 hs1 ⊢
          omega
        · rw [if_neg hf1] at ih1 hs1 ⊢
          omega
      · by_cases hf2 : Procsim.fu_type σ.instruction.op_code = 2
        · rw [if_pos hf2] at ih2 hs2 ⊢
          omega
        · rw [if_neg hf2] at ih2 hs2 ⊢
          omega
    · rw [if_neg hu]
      exact ⟨rfl, rfl, rfl⟩

end Procsim.PC

namespace Procsim.PC

/-- The execution tick preserves the completed-implies-fired direction. -/
theorem pc5_exec_tick_completed_fired (c : Nat) (σ : Slot)
    (h : σ.completed = true → σ.fired = true) :
    (exec_tick c σ).completed = true → (exec_tick c σ).fired = true := by
  unfold exec_tick
  by_cases hcond : σ.valid = true ∧ σ.fired = true ∧ σ.completed = false ∧
      0 < σ.execute_cycles_left
  · rw [if_pos hcond]
    by_cases h2 : σ.execute_cycles_left - 1 = 0
    · rw [if_pos h2]
      intro _
      exact hcond.2.1
    · rw [if_neg h2]
      exact h
  · rw [if_neg hcond]
    exact h

/-- The tags of the broadcast candidates form a sublist of the occupied
tags. -/
theorem pc5_collect_completed_tags_sublist :
    ∀ (rs : List Slot) (n : Nat),
      List.Sublist ((collect_completed n rs).map (fun p => p.2.1))
        (validTags rs) := by
  intro rs
  induction rs with
  | nil => intro n; exact List.Sublist.refl _
  | cons σ rest ih =>
    intro n
    rw [collect_completed]
    by_cases hc : σ.valid = true ∧ σ.completed = true ∧
        σ.state_updated = false
    · rw [if_pos hc, List.map_cons,
        pc5_validTags_cons_valid σ rest hc.1]
      exact List.Sublist.cons₂ _ (ih (n + 1))
    · rw [if_neg hc]
      cases hv : σ.valid
      · rw [pc5_validTags_cons_invalid σ rest hv]
        exact ih (n + 1)
      · rw [pc5_validTags_cons_valid σ rest hv]
        exact List.Sublist.trans (ih (n + 1))
          (List.sublist_cons_self _ _)

/-- Unit accounting through the execute stage: starting from a clear bus,
the released units exactly match the instructions leaving the in-flight
counts via the new bus. -/
theorem pc5_ex1_fuAcct (cfg : Cfg) (s : State)
    (hbus : s.result_bus_tags = [])
    (hnd : (validTags s.reservation_station).Nodup)
    (hcf : ∀ σ ∈ s.reservation_station, σ.valid = true →
      σ.completed = true → σ.fired = true) :
    ((execute_stage_first_half cfg s).k0_fu_available +
      pendingCnt 0 (execute_stage_first_half cfg s).result_bus_tags
        (execute_stage_first_half cfg s).reservation_station =
      s.k0_fu_available + pendingCnt 0 [] s.reservation_station) ∧
    ((execute_stage_first_half cfg s).k1_fu_available +
      pendingCnt 1 (execute_stage_first_half cfg s).result_bus_tags
        (execute_stage_first_half cfg s).reservation_station =
      s.k1_fu_available + pendingCnt 1 [] s.reservation_station) ∧
    ((execute_stage_first_half cfg s).k2_fu_available +
      pendingCnt 2 (execute_stage_first_half cfg s).result_bus_tags
        (execute_stage_first_half cfg s).reservation_station =
      s.k2_fu_available + pendingCnt 2 [] s.reservation_station) := by
  have hfields : ∀ σ : Slot,
      (exec_tick s.current_cycle σ).valid = σ.valid ∧
      (exec_tick s.current_cycle σ).instruction.tag =
        σ.instruction.tag := by
    intro σ
    obtain ⟨h1, h2, _, _⟩ := pc5_exec_tick_fields s.current_cycle σ
    exact ⟨h1, by rw [h2]⟩
  have hnd2 : (validTags (s.reservation_station.map
      (exec_tick s.current_cycle))).Nodup := by
    rw [pc5_validTags_map_eq _ hfields]
    exact hnd
  have hco : ∀ p ∈ (collect_completed 0 (s.reservation_station.map
      (exec_tick s.current_cycle))).insertionSort Procsim.bcastLe,
      ∃ σ, (s.reservation_station.map
        (exec_tick s.current_cycle)).get? p.2.2 = some σ ∧
        σ.valid = true ∧ σ.fired = true ∧ σ.state_updated = false ∧
        σ.instruction.tag = p.2.1 ∧
        (s.result_bus_tags.contains p.2.1) = false := by
    intro p hp
    have hp2 : p ∈ collect_completed 0 (s.reservation_station.map
        (exec_tick s.current_cycle)) :=
      (List.perm_insertionSort Procsim.bcastLe _).mem_iff.mp hp
    obtain ⟨k, slot, hk, hget, hvv, hcc, hss, hccyc, htag⟩ :=
      (Procsim.pc_collect_completed_mem _ 0 p.1 p.2.1 p.2.2).mp (by
        obtain ⟨p1, p2, p3⟩ := p
        exact hp2)
    have hmem : slot ∈ s.reservation_station.map
        (exec_tick s.current_cycle) := List.get?_mem hget
    obtain ⟨σ0, hσ0, hσeq⟩ := List.mem_map.mp hmem
    have hv0 : σ0.valid = true := by
      have := (pc5_exec_tick_fields s.current_cycle σ0).1
      rw [hσeq] at this
      rw [← this]
      exact hvv
    have hfired : slot.fired = true := by
      rw [← hσeq] at hcc ⊢
      exact pc5_exec_tick_completed_fired s.current_cycle σ0
        (hcf σ0 hσ0 hv0) hcc
    refine ⟨slot, by rw [hk]; simpa using hget, hvv, hfired,
      hss, htag, ?_⟩
    rw [hbus]
    rfl
  have htnd : (((collect_completed 0 (s.reservation_station.map
      (exec_tick s.current_cycle))).insertionSort
        Procsim.bcastLe).map (fun p => p.2.1)).Nodup := by
    have hperm := (List.perm_insertionSort Procsim.bcastLe
      (collect_completed 0 (s.reservation_station.map
        (exec_tick s.current_cycle)))).map (fun p => p.2.1)
    refine hperm.nodup_iff.mpr ?_
    exact (hnd2.sublist (pc5_collect_completed_tags_sublist _ 0))
  obtain ⟨h0, h1, h2⟩ := pc5_bus_push_fuAcct cfg.RESULT_BUSES
    ((collect_completed 0 (s.reservation_station.map
      (exec_tick s.current_cycle))).insertionSort Procsim.bcastLe)
    (s.reservation_station.map (exec_tick s.current_cycle)) 0
    s.result_bus_tags s.k0_fu_available s.k1_fu_available
    s.k2_fu_available hnd2 hco htnd
  refine ⟨?_, ?_, ?_⟩
  · exact h0.trans (by
      rw [hbus, pc5_pending_exec_tick 0 [] s.current_cycle
        s.reservation_station])
  · exact h1.trans (by
      rw [hbus, pc5_pending_exec_tick 1 [] s.current_cycle
        s.reservation_station])
  · exact h2.trans (by
      rw [hbus, pc5_pending_exec_tick 2 [] s.current_cycle
        s.reservation_station])

end Procsim.PC

namespace Procsim.PC

/-- Every tag the execute stage broadcasts is backed by an occupied,
fired, completed, not-yet-updated slot (when the bus starts clear). -/
theorem pc5_ex1_busOk (cfg : Cfg) (s : State)
    (hbus : s.result_bus_tags = [])
    (hcf : ∀ σ ∈ s.reservation_station, σ.valid = true →
      σ.completed = true → σ.fired = true) :
    ∀ t ∈ (execute_stage_first_half cfg s).result_bus_tags,
      ∃ σ ∈ (execute_stage_first_half cfg s).reservation_station,
        σ.valid = true ∧ σ.instruction.tag = t ∧ σ.fired = true ∧
        σ.completed = true ∧ σ.state_updated = false := by
  intro t ht
  have ht2 : t ∈ (bus_push_go cfg.RESULT_BUSES ((collect_completed 0
      (s.reservation_station.map (exec_tick s.current_cycle))).insertionSort
        Procsim.bcastLe) (s.reservation_station.map
          (exec_tick s.current_cycle)) 0 s.result_bus_tags
      s.k0_fu_available s.k1_fu_available s.k2_fu_available).1 := ht
  have hco : ∀ p ∈ (collect_completed 0 (s.reservation_station.map
      (exec_tick s.current_cycle))).insertionSort Procsim.bcastLe,
      ∃ σ, (s.reservation_station.map
        (exec_tick s.current_cycle)).get? p.2.2 = some σ ∧
        σ.instruction.tag = p.2.1 ∧ (σ.valid = true ∧ σ.fired = true ∧
          σ.completed = true ∧ σ.state_updated = false) := by
    intro p hp
    have hp2 : p ∈ collect_completed 0 (s.reservation_station.map
        (exec_tick s.current_cycle)) :=
      (List.perm_insertionSort Procsim.bcastLe _).mem_iff.mp hp
    obtain ⟨k, slot, hk, hget, hvv, hcc, hss, hccyc, htag⟩ :=
      (Procsim.pc_collect_completed_mem _ 0 p.1 p.2.1 p.2.2).mp (by
        obtain ⟨p1, p2, p3⟩ := p
        exact hp2)
    obtain ⟨σ0, hσ0, hσeq⟩ := List.mem_map.mp (List.get?_mem hget)
    have hv0 : σ0.valid = true := by
      have := (pc5_exec_tick_fields s.current_cycle σ0).1
      rw [hσeq] at this
      rw [← this]
      exact hvv
    have hfired : slot.fired = true := by
      rw [← hσeq] at hcc ⊢
      exact pc5_exec_tick_completed_fired s.current_cycle σ0
        (hcf σ0 hσ0 hv0) hcc
    exact ⟨slot, by rw [hk]; simpa using hget, htag, hvv, hfired, hcc,
      hss⟩
  rcases pc5_bus_push_mem cfg.RESULT_BUSES (fun σ => σ.valid = true ∧
      σ.fired = true ∧ σ.completed = true ∧ σ.state_updated = false)
    _ _ 0 s.result_bus_tags s.k0_fu_available s.k1_fu_available
    s.k2_fu_available hco t ht2 with hl | ⟨σ, hmem, htag, hQ⟩
  · rw [hbus] at hl
    simp at hl
  · exact ⟨σ, hmem, hQ.1, htag, hQ.2.1, hQ.2.2.1, hQ.2.2.2⟩

/-- If the execute stage broadcasts nothing although at least one bus is
configured, no occupied completed slot is awaiting its state update
afterwards. -/
theorem pc5_ex1_busEmpty (cfg : Cfg) (s : State)
    (hR : 1 ≤ cfg.RESULT_BUSES) :
    (execute_stage_first_half cfg s).result_bus_tags = [] →
      ∀ σ ∈ (execute_stage_first_half cfg s).reservation_station,
        σ.valid = true → σ.completed = true → σ.state_updated = true := by
  intro hb2 σ2 hmem hv hc
  by_contra hcon
  have hsu : σ2.state_updated = false := by
    cases hval : σ2.state_updated
    · rfl
    · exact absurd hval hcon
  have hmem2 : σ2 ∈ s.reservation_station.map
      (exec_tick s.current_cycle) := hmem
  obtain ⟨jj, hjj⟩ := List.get_of_mem hmem2
  have hget : (s.reservation_station.map
      (exec_tick s.current_cycle)).get? jj.1 = some σ2 := by
    rw [List.get?_eq_get jj.2]
    exact congrArg some hjj
  have hcoll : (σ2.completed_cycle, σ2.instruction.tag, jj.1) ∈
      collect_completed 0 (s.reservation_station.map
        (exec_tick s.current_cycle)) :=
    (Procsim.pc_collect_completed_mem _ 0 σ2.completed_cycle
      σ2.instruction.tag jj.1).mpr
      ⟨jj.1, σ2, by omega, hget, hv, hc, hsu, rfl, rfl⟩
  have hco : ∀ p ∈ (collect_completed 0 (s.reservation_station.map
      (exec_tick s.current_cycle))).insertionSort Procsim.bcastLe,
      ∃ slot, (s.reservation_station.map
        (exec_tick s.current_cycle)).get? p.2.2 = some slot ∧
        slot.instruction.tag = p.2.1 := by
    intro p hp
    have hp2 : p ∈ collect_completed 0 (s.reservation_station.map
        (exec_tick s.current_cycle)) :=
      (List.perm_insertionSort Procsim.bcastLe _).mem_iff.mp hp
    obtain ⟨k, slot, hk, hget2, hvv, hcc, hss, hccyc, htag⟩ :=
      (Procsim.pc_collect_completed_mem _ 0 p.1 p.2.1 p.2.2).mp (by
        obtain ⟨p1, p2, p3⟩ := p
        exact hp2)
    exact ⟨slot, by rw [hk]; simpa using hget2, htag⟩
  have hspec := Procsim.pc_bus_push_go_spec cfg.RESULT_BUSES
    ((collect_completed 0 (s.reservation_station.map
      (exec_tick s.current_cycle))).insertionSort Procsim.bcastLe)
    (s.reservation_station.map (exec_tick s.current_cycle)) 0
    s.result_bus_tags s.k0_fu_available s.k1_fu_available
    s.k2_fu_available hco
  have hb3 : (bus_push_go cfg.RESULT_BUSES ((collect_completed 0
      (s.reservation_station.map (exec_tick s.current_cycle))).insertionSort
        Procsim.bcastLe) (s.reservation_station.map
          (exec_tick s.current_cycle)) 0 s.result_bus_tags
      s.k0_fu_available s.k1_fu_available s.k2_fu_available).1 = [] := hb2
  rw [hspec] at hb3
  have hsorted_ne : (collect_completed 0 (s.reservation_station.map
      (exec_tick s.current_cycle))).insertionSort Procsim.bcastLe ≠ [] := by
    intro hnil
    have : collect_completed 0 (s.reservation_station.map
        (exec_tick s.current_cycle)) = [] := by
      have hperm := List.perm_insertionSort Procsim.bcastLe
        (collect_completed 0 (s.reservation_station.map
          (exec_tick s.current_cycle)))
      rw [hnil] at hperm
      exact (List.Perm.nil_eq hperm).symm
    rw [this] at hcoll
    simp at hcoll
  rcases hsrt : (collect_completed 0 (s.reservation_station.map
      (exec_tick s.current_cycle))).insertionSort Procsim.bcastLe with
    _ | ⟨c0, crest⟩
  · exact hsorted_ne hsrt
  · rw [hsrt] at hb3
    rcases hRv : cfg.RESULT_BUSES with _ | m
    · omega
    · rw [hRv] at hb3
      have : cfg.RESULT_BUSES - 0 = cfg.RESULT_BUSES := by omega
      rw [List.append_eq_nil] at hb3
      have hb4 := hb3.2
      rw [Nat.sub_zero, List.take_succ_cons, List.map_cons] at hb4
      exact absurd hb4 (by simp)

end Procsim.PC

namespace Procsim.PC

/-- Membership in the fire-candidate collection of procsim.cpp: exactly
the occupied, unfired, uncompleted slots whose sources are ready. -/
theorem pc5_collect_ready_mem (lsu : Int → Nat) (infl : Int → List Nat)
    (rs : List Slot) (n t j : Nat) :
    ((t, j) ∈ collect_ready lsu infl n rs) ↔
      ∃ k σ, j = n + k ∧ rs.get? k = some σ ∧ σ.valid = true ∧
        σ.fired = false ∧ σ.completed = false ∧
        src_ready σ.instruction.src_reg1 σ.instruction.tag lsu infl =
          true ∧
        src_ready σ.instruction.src_reg2 σ.instruction.tag lsu infl =
          true ∧ σ.instruction.tag = t := by
  induction rs generalizing n with
  | nil => simp [collect_ready]
  | cons head rest ih =>
    rw [collect_ready]
    by_cases hc : head.valid = true ∧ head.fired = false ∧
        head.completed = false ∧
        src_ready head.instruction.src_reg1 head.instruction.tag lsu
          infl = true ∧
        src_ready head.instruction.src_reg2 head.instruction.tag lsu
          infl = true
    · rw [if_pos hc]
      constructor
      · intro hmem
        rcases List.mem_cons.mp hmem with heq | hmem2
        · injection heq with h1 h2
          exact ⟨0, head, by omega, rfl, hc.1, hc.2.1, hc.2.2.1,
            hc.2.2.2.1, hc.2.2.2.2, h1.symm⟩
        · obtain ⟨k, σ, hk, hget, hp⟩ := (ih (n + 1)).mp hmem2
          exact ⟨k + 1, σ, by omega, hget, hp⟩
      · rintro ⟨k, σ, hk, hget, hp1, hp2, hp3, hp4, hp5, hp6⟩
        cases k with
        | zero =>
          injection hget with hget
          subst hget
          exact List.mem_cons.mpr (Or.inl (by rw [hp6, hk]; rfl))
        | succ k2 =>
          refine List.mem_cons_of_mem _ ((ih (n + 1)).mpr
            ⟨k2, σ, by omega, hget, hp1, hp2, hp3, hp4, hp5, hp6⟩)
    · rw [if_neg hc]
      constructor
      · intro hmem
        obtain ⟨k, σ, hk, hget, hp⟩ := (ih (n + 1)).mp hmem
        exact ⟨k + 1, σ, by omega, hget, hp⟩
      · rintro ⟨k, σ, hk, hget, hp1, hp2, hp3, hp4, hp5, hp6⟩
        cases k with
        | zero =>
          injection hget with hget
          subst hget
          exact absurd ⟨hp1, hp2, hp3, hp4, hp5⟩ hc
        | succ k2 =>
          exact (ih (n + 1)).mpr ⟨k2, σ, by omega, hget, hp1, hp2, hp3,
            hp4, hp5, hp6⟩

/-- All collected fire candidates carry indices at or above the running
counter. -/
theorem pc5_collect_ready_idx_ge (lsu : Int → Nat)
    (infl : Int → List Nat) :
    ∀ (rs : List Slot) (n : Nat) (p : Nat × Nat),
      p ∈ collect_ready lsu infl n rs → n ≤ p.2 := by
  intro rs
  induction rs with
  | nil => intro n p hp; simp [collect_ready] at hp
  | cons head rest ih =>
    intro n p hp
    rw [collect_ready] at hp
    by_cases hc : head.valid = true ∧ head.fired = false ∧
        head.completed = false ∧
        src_ready head.instruction.src_reg1 head.instruction.tag lsu
          infl = true ∧
        src_ready head.instruction.src_reg2 head.instruction.tag lsu
          infl = true
    · rw [if_pos hc] at hp
      rcases List.mem_cons.mp hp with heq | hmem
      · rw [heq]
      · have := ih (n + 1) p hmem
        omega
    · rw [if_neg hc] at hp
      have := ih (n + 1) p hp
      omega

/-- The collected fire candidates carry strictly increasing slot
indices. -/
theorem pc5_collect_ready_pairwise (lsu : Int → Nat)
    (infl : Int → List Nat) :
    ∀ (rs : List Slot) (n : Nat),
      List.Pairwise (fun a b : Nat × Nat => a.2 ≠ b.2)
        (collect_ready lsu infl n rs) := by
  intro rs
  induction rs with
  | nil => intro n; simp [collect_ready]
  | cons head rest ih =>
    intro n
    rw [collect_ready]
    by_cases hc : head.valid = true ∧ head.fired = false ∧
        head.completed = false ∧
        src_ready head.instruction.src_reg1 head.instruction.tag lsu
          infl = true ∧
        src_ready head.instruction.src_reg2 head.instruction.tag lsu
          infl = true
    · rw [if_pos hc]
      refine List.Pairwise.cons ?_ (ih (n + 1))
      intro p hp
      have := pc5_collect_ready_idx_ge lsu infl rest (n + 1) p hp
      intro heq
      rw [← heq] at this
      omega
    · rw [if_neg hc]
      exact ih (n + 1)

/-- The tags of the fire candidates form a sublist of the occupied
tags. -/
theorem pc5_collect_ready_tags_sublist (lsu : Int → Nat)
    (infl : Int → List Nat) :
    ∀ (rs : List Slot) (n : Nat),
      List.Sublist ((collect_ready lsu infl n rs).map (fun p => p.1))
        (validTags rs) := by
  intro rs
  induction rs with
  | nil => intro n; exact List.Sublist.refl _
  | cons head rest ih =>
    intro n
    rw [collect_ready]
    by_cases hc : head.valid = true ∧ head.fired = false ∧
        head.completed = false ∧
        src_ready head.instruction.src_reg1 head.instruction.tag lsu
          infl = true ∧
        src_ready head.instruction.src_reg2 head.instruction.tag lsu
          infl = true
    · rw [if_pos hc, List.map_cons,
        pc5_validTags_cons_valid head rest hc.1]
      exact List.Sublist.cons₂ _ (ih (n + 1))
    · rw [if_neg hc]
      cases hv : head.valid
      · rw [pc5_validTags_cons_invalid head rest hv]
        exact ih (n + 1)
      · rw [pc5_validTags_cons_valid head rest hv]
        exact List.Sublist.trans (ih (n + 1))
          (List.sublist_cons_self _ _)

end Procsim.PC

namespace Procsim.PC

/-- The fire loop preserves the reservation-station length. -/
theorem pc5_fire_fold_len (c : Nat) :
    ∀ (cands : List (Nat × Nat)) (rs : List Slot) (regs : Int → Bool)
      (lsw : Int → Nat) (k0 k1 k2 : Nat),
      (fire_pairs_go c cands rs regs lsw k0 k1 k2).1.length =
        rs.length := by
  intro cands
  induction cands with
  | nil => intro rs regs lsw k0 k1 k2; rfl
  | cons p rest ih =>
    intro rs regs lsw k0 k1 k2
    obtain ⟨t, j⟩ := p
    rw [fire_pairs_go]
    rcases hj : rs.get? j with _ | σj
    · exact ih rs regs lsw k0 k1 k2
    · simp only []
      by_cases hfire : (if Procsim.fu_type σj.instruction.op_code = 0 ∧
          0 < k0 then (true, k0 - 1, k1, k2)
        else if Procsim.fu_type σj.instruction.op_code = 1 ∧ 0 < k1 then
          (true, k0, k1 - 1, k2)
        else if Procsim.fu_type σj.instruction.op_code = 2 ∧ 0 < k2 then
          (true, k0, k1, k2 - 1)
        else ((false, k0, k1, k2) : Bool × Nat × Nat × Nat)).1 = true
      · rw [if_pos hfire]
        exact (ih _ _ _ _ _ _).trans (by rw [List.length_set])
      · rw [if_neg hfire]
        exact ih rs regs lsw k0 k1 k2

/-- The fire loop preserves the occupied tags. -/
theorem pc5_fire_fold_validTags (c : Nat) :
    ∀ (cands : List (Nat × Nat)) (rs : List Slot) (regs : Int → Bool)
      (lsw : Int → Nat) (k0 k1 k2 : Nat),
      validTags (fire_pairs_go c cands rs regs lsw k0 k1 k2).1 =
        validTags rs := by
  intro cands
  induction cands with
  | nil => intro rs regs lsw k0 k1 k2; rfl
  | cons p rest ih =>
    intro rs regs lsw k0 k1 k2
    obtain ⟨t, j⟩ := p
    rw [fire_pairs_go]
    rcases hj : rs.get? j with _ | σj
    · exact ih rs regs lsw k0 k1 k2
    · simp only []
      by_cases hfire : (if Procsim.fu_type σj.instruction.op_code = 0 ∧
          0 < k0 then (true, k0 - 1, k1, k2)
        else if Procsim.fu_type σj.instruction.op_code = 1 ∧ 0 < k1 then
          (true, k0, k1 - 1, k2)
        else if Procsim.fu_type σj.instruction.op_code = 2 ∧ 0 < k2 then
          (true, k0, k1, k2 - 1)
        else ((false, k0, k1, k2) : Bool × Nat × Nat × Nat)).1 = true
      · rw [if_pos hfire]
        exact (ih _ _ _ _ _ _).trans
          (pc5_validTags_set_eq rs j _ σj hj rfl rfl)
      · rw [if_neg hfire]
        exact ih rs regs lsw k0 k1 k2

/-- The fire loop never raises the station potential. -/
theorem pc5_fire_fold_rsPot (c : Nat) :
    ∀ (cands : List (Nat × Nat)) (rs : List Slot) (regs : Int → Bool)
      (lsw : Int → Nat) (k0 k1 k2 : Nat),
      rsPot (fire_pairs_go c cands rs regs lsw k0 k1 k2).1 ≤
        rsPot rs := by
  intro cands
  induction cands with
  | nil => intro rs regs lsw k0 k1 k2; exact Nat.le_refl _
  | cons p rest ih =>
    intro rs regs lsw k0 k1 k2
    obtain ⟨t, j⟩ := p
    rw [fire_pairs_go]
    rcases hj : rs.get? j with _ | σj
    · exact ih rs regs lsw k0 k1 k2
    · simp only []
      by_cases hfire : (if Procsim.fu_type σj.instruction.op_code = 0 ∧
          0 < k0 then (true, k0 - 1, k1, k2)
        else if Procsim.fu_type σj.instruction.op_code = 1 ∧ 0 < k1 then
          (true, k0, k1 - 1, k2)
        else if Procsim.fu_type σj.instruction.op_code = 2 ∧ 0 < k2 then
          (true, k0, k1, k2 - 1)
        else ((false, k0, k1, k2) : Bool × Nat × Nat × Nat)).1 = true
      · rw [if_pos hfire]
        refine Nat.le_trans (ih _ _ _ _ _ _) ?_
        refine pc5_rsPot_set_le rs j _ (fun b hb => ?_)
        rw [hj] at hb
        injection hb with hb
        rw [← hb]
        exact pc5_slotPot_fire σj c
      · rw [if_neg hfire]
        exact ih rs regs lsw k0 k1 k2

/-- Pointwise effect of the fire loop: each slot is either untouched or
fire-updated in place. -/
theorem pc5_fire_fold_get (c : Nat) :
    ∀ (cands : List (Nat × Nat)) (rs : List Slot) (regs : Int → Bool)
      (lsw : Int → Nat) (k0 k1 k2 : Nat) (i : Nat),
      ((fire_pairs_go c cands rs regs lsw k0 k1 k2).1.get? i =
        rs.get? i) ∨
      (∃ σ, rs.get? i = some σ ∧
        (fire_pairs_go c cands rs regs lsw k0 k1 k2).1.get? i =
          some { σ with fired := true, fired_cycle := c, execute_cycles_left := 1 }) := by
  intro cands
  induction cands with
  | nil => intro rs regs lsw k0 k1 k2 i; exact Or.inl rfl
  | cons p rest ih =>
    intro rs regs lsw k0 k1 k2 i
    obtain ⟨t, j⟩ := p
    rw [fire_pairs_go]
    rcases hj : rs.get? j with _ | σj
    · exact ih rs regs lsw k0 k1 k2 i
    · simp only []
      by_cases hfire : (if Procsim.fu_type σj.instruction.op_code = 0 ∧
          0 < k0 then (true, k0 - 1, k1, k2)
        else if Procsim.fu_type σj.instruction.op_code = 1 ∧ 0 < k1 then
          (true, k0, k1 - 1, k2)
        else if Procsim.fu_type σj.instruction.op_code = 2 ∧ 0 < k2 then
          (true, k0, k1, k2 - 1)
        else ((false, k0, k1, k2) : Bool × Nat × Nat × Nat)).1 = true
      · rw [if_pos hfire]
        have hji : j < rs.length := by
          rcases List.get?_eq_some.mp hj with ⟨hlt, _⟩
          exact hlt
        rcases ih (rs.set j { σj with fired := true, fired_cycle := c, execute_cycles_left := 1 })
          (if σj.instruction.dest_reg ≠ -1 then
            Procsim.updFun regs σj.instruction.dest_reg false else regs)
          (if σj.instruction.dest_reg ≠ -1 then
            Procsim.updFun lsw σj.instruction.dest_reg
              σj.instruction.tag else lsw)
          (if Procsim.fu_type σj.instruction.op_code = 0 ∧ 0 < k0 then
            (true, k0 - 1, k1, k2)
          else if Procsim.fu_type σj.instruction.op_code = 1 ∧ 0 < k1 then
            (true, k0, k1 - 1, k2)
          else if Procsim.fu_type σj.instruction.op_code = 2 ∧ 0 < k2 then
            (true, k0, k1, k2 - 1)
          else ((false, k0, k1, k2) : Bool × Nat × Nat × Nat)).2.1
          (if Procsim.fu_type σj.instruction.op_code = 0 ∧ 0 < k0 then
            (true, k0 - 1, k1, k2)
          else if Procsim.fu_type σj.instruction.op_code = 1 ∧ 0 < k1 then
            (true, k0, k1 - 1, k2)
          else if Procsim.fu_type σj.instruction.op_code = 2 ∧ 0 < k2 then
            (true, k0, k1, k2 - 1)
          else ((false, k0, k1, k2) : Bool × Nat × Nat × Nat)).2.2.1
          (if Procsim.fu_type σj.instruction.op_code = 0 ∧ 0 < k0 then
            (true, k0 - 1, k1, k2)
          else if Procsim.fu_type σj.instruction.op_code = 1 ∧ 0 < k1 then
            (true, k0, k1 - 1, k2)
          else if Procsim.fu_type σj.instruction.op_code = 2 ∧ 0 < k2 then
            (true, k0, k1, k2 - 1)
          else ((false, k0, k1, k2) : Bool × Nat × Nat × Nat)).2.2.2
          i with hsame | ⟨σ, hσget, hσout⟩
        · by_cases hij : j = i
          · subst hij
            rw [List.get?_set_eq_of_lt _ hji] at hsame
            exact Or.inr ⟨σj, hj, hsame⟩
          · rw [List.get?_set_ne _ _ hij] at hsame
            exact Or.inl hsame
        · by_cases hij : j = i
          · subst hij
            rw [List.get?_set_eq_of_lt _ hji] at hσget
            injection hσget with hσget
            refine Or.inr ⟨σj, hj, ?_⟩
            rw [hσout, ← hσget]
          · rw [List.get?_set_ne _ _ hij] at hσget
            exact Or.inr ⟨σ, hσget, hσout⟩
      · rw [if_neg hfire]
        exact ih rs regs lsw k0 k1 k2 i

end Procsim.PC

namespace Procsim.PC

/-- The fire loop keeps the per-class books balanced: each successful
acquisition moves one unit from the free count into the in-flight count
of the acquiring class. -/
theorem pc5_fire_fold_fuAcct (c : Nat) (bus : List Nat) :
    ∀ (cands : List (Nat × Nat)) (rs : List Slot) (regs : Int → Bool)
      (lsw : Int → Nat) (k0 k1 k2 : Nat),
      (∀ p ∈ cands, ∃ σ, rs.get? p.2 = some σ ∧ σ.valid = true ∧
        σ.fired = false ∧ σ.state_updated = false ∧
        bus.contains σ.instruction.tag = false) →
      List.Pairwise (fun a b : Nat × Nat => a.2 ≠ b.2) cands →
      ((fire_pairs_go c cands rs regs lsw k0 k1 k2).2.2.2.1 +
          pendingCnt 0 bus
            (fire_pairs_go c cands rs regs lsw k0 k1 k2).1 =
        k0 + pendingCnt 0 bus rs) ∧
      ((fire_pairs_go c cands rs regs lsw k0 k1 k2).2.2.2.2.1 +
          pendingCnt 1 bus
            (fire_pairs_go c cands rs regs lsw k0 k1 k2).1 =
        k1 + pendingCnt 1 bus rs) ∧
      ((fire_pairs_go c cands rs regs lsw k0 k1 k2).2.2.2.2.2 +
          pendingCnt 2 bus
            (fire_pairs_go c cands rs regs lsw k0 k1 k2).1 =
        k2 + pendingCnt 2 bus rs) := by
  intro cands
  induction cands with
  | nil =>
    intro rs regs lsw k0 k1 k2 _ _
    exact ⟨rfl, rfl, rfl⟩
  | cons p rest ih =>
    intro rs regs lsw k0 k1 k2 hco hpw
    obtain ⟨t, j⟩ := p
    obtain ⟨σj, hgetj, hv, hnf, hns, hnb⟩ := hco (t, j)
      (List.mem_cons_self _ _)
    have hnb2 : σj.instruction.tag ∉ bus := by simpa using hnb
    rw [fire_pairs_go, hgetj]
    simp only []
    have hcorest : ∀ q ∈ rest, ∃ σ, rs.get? q.2 = some σ ∧
        σ.valid = true ∧ σ.fired = false ∧ σ.state_updated = false ∧
        bus.contains σ.instruction.tag = false :=
      fun q hq => hco q (List.mem_cons_of_mem _ hq)
    have hpwrest : List.Pairwise (fun a b : Nat × Nat => a.2 ≠ b.2)
        rest := (List.pairwise_cons.mp hpw).2
    have hjne : ∀ q ∈ rest, q.2 ≠ j :=
      fun q hq => fun heq =>
        ((List.pairwise_cons.mp hpw).1 q hq) heq.symm
    have hcoset : ∀ (a : Slot), (∀ q ∈ rest, ∃ σ,
        (rs.set j a).get? q.2 = some σ ∧ σ.valid = true ∧
        σ.fired = false ∧ σ.state_updated = false ∧
        bus.contains σ.instruction.tag = false) := by
      intro a q hq
      obtain ⟨σ, hg, hp⟩ := hcorest q hq
      refine ⟨σ, ?_, hp⟩
      rw [List.get?_set_ne _ _ (fun heq => hjne q hq heq.symm)]
      exact hg
    have hpσ0 : (fun σ : Slot => σ.valid && σ.fired &&
        !σ.state_updated && !(bus.contains σ.instruction.tag) &&
        decide (Procsim.fu_type σ.instruction.op_code = 0)) σj =
        false := by simp [hnf]
    have hpσ1 : (fun σ : Slot => σ.valid && σ.fired &&
        !σ.state_updated && !(bus.contains σ.instruction.tag) &&
        decide (Procsim.fu_type σ.instruction.op_code = 1)) σj =
        false := by simp [hnf]
    have hpσ2 : (fun σ : Slot => σ.valid && σ.fired &&
        !σ.state_updated && !(bus.contains σ.instruction.tag) &&
        decide (Procsim.fu_type σ.instruction.op_code = 2)) σj =
        false := by simp [hnf]
    by_cases hC0 : Procsim.fu_type σj.instruction.op_code = 0 ∧ 0 < k0
    · rw [if_pos hC0]
      rw [if_pos (show ((true, k0 - 1, k1, k2) :
        Bool × Nat × Nat × Nat).1 = true from rfl)]
      obtain ⟨ih0, ih1, ih2⟩ := ih (rs.set j { σj with fired := true, fired_cycle := c, execute_cycles_left := 1 })
        (if σj.instruction.dest_reg ≠ -1 then
          Procsim.updFun regs σj.instruction.dest_reg false else regs)
        (if σj.instruction.dest_reg ≠ -1 then
          Procsim.updFun lsw σj.instruction.dest_reg σj.instruction.tag
        else lsw) (k0 - 1) k1 k2 (hcoset _) hpwrest
      have hp0 : pendingCnt 0 bus (rs.set j { σj with fired := true, fired_cycle := c, execute_cycles_left := 1 }) =
          pendingCnt 0 bus rs + 1 := by
        unfold pendingCnt
        exact pc5_countP_set_succ _ rs j _ σj hgetj hpσ0
          (by simp [hv, hns, hnb2, hC0.1])
      have hp1 : pendingCnt 1 bus (rs.set j { σj with fired := true, fired_cycle := c, execute_cycles_left := 1 }) =
          pendingCnt 1 bus rs := by
        unfold pendingCnt
        exact pc5_countP_set_eq _ rs j _ σj hgetj
          (by simp [hnf, hC0.1])
      have hp2 : pendingCnt 2 bus (rs.set j { σj with fired := true, fired_cycle := c, execute_cycles_left := 1 }) =
          pendingCnt 2 bus rs := by
        unfold pendingCnt
        exact pc5_countP_set_eq _ rs j _ σj hgetj
          (by simp [hnf, hC0.1])
      rw [hp0] at ih0
      rw [hp1] at ih1
      rw [hp2] at ih2
      have hk0 : 0 < k0 := hC0.2
      refine ⟨by rw [ih0]; omega, by rw [ih1], by rw [ih2]⟩
    · rw [if_neg hC0]
      by_cases hC1 : Procsim.fu_type σj.instruction.op_code = 1 ∧ 0 < k1
      · rw [if_pos hC1]
        rw [if_pos (show ((true, k0, k1 - 1, k2) :
          Bool × Nat × Nat × Nat).1 = true from rfl)]
        obtain ⟨ih0, ih1, ih2⟩ := ih (rs.set j { σj with fired := true, fired_cycle := c, execute_cycles_left := 1 })
          (if σj.instruction.dest_reg ≠ -1 then
            Procsim.updFun regs σj.instruction.dest_reg false else regs)
          (if σj.instruction.dest_reg ≠ -1 then
            Procsim.updFun lsw σj.instruction.dest_reg σj.instruction.tag
          else lsw) k0 (k1 - 1) k2 (hcoset _) hpwrest
        have hp0 : pendingCnt 0 bus (rs.set j { σj with fired := true, fired_cycle := c, execute_cycles_left := 1 }) =
            pendingCnt 0 bus rs := by
          unfold pendingCnt
          exact pc5_countP_set_eq _ rs j _ σj hgetj
            (by simp [hnf, hC1.1])
        have hp1 : pendingCnt 1 bus (rs.set j { σj with fired := true, fired_cycle := c, execute_cycles_left := 1 }) =
            pendingCnt 1 bus rs + 1 := by
          unfold pendingCnt
          exact pc5_countP_set_succ _ rs j _ σj hgetj hpσ1
            (by simp [hv, hns, hnb2, hC1.1])
        have hp2 : pendingCnt 2 bus (rs.set j { σj with fired := true, fired_cycle := c, execute_cycles_left := 1 }) =
            pendingCnt 2 bus rs := by
          unfold pendingCnt
          exact pc5_countP_set_eq _ rs j _ σj hgetj
            (by simp [hnf, hC1.1])
        rw [hp0] at ih0
        rw [hp1] at ih1
        rw [hp2] at ih2
        have hk1 : 0 < k1 := hC1.2
        refine ⟨by rw [ih0], by rw [ih1]; omega, by rw [ih2]⟩
      · rw [if_neg hC1]
        by_cases hC2 : Procsim.fu_type σj.instruction.op_code = 2 ∧
            0 < k2
        · rw [if_pos hC2]
          rw [if_pos (show ((true, k0, k1, k2 - 1) :
            Bool × Nat × Nat × Nat).1 = true from rfl)]
          obtain ⟨ih0, ih1, ih2⟩ := ih (rs.set j { σj with fired := true, fired_cycle := c, execute_cycles_left := 1 })
            (if σj.instruction.dest_reg ≠ -1 then
              Procsim.updFun regs σj.instruction.dest_reg false else regs)
            (if σj.instruction.dest_reg ≠ -1 then
              Procsim.updFun lsw σj.instruction.dest_reg
                σj.instruction.tag else lsw) k0 k1 (k2 - 1)
            (hcoset _) hpwrest
          have hp0 : pendingCnt 0 bus (rs.set j { σj with fired := true, fired_cycle := c, execute_cycles_left := 1 }) =
              pendingCnt 0 bus rs := by
            unfold pendingCnt
            exact pc5_countP_set_eq _ rs j _ σj hgetj
              (by simp [hnf, hC2.1])
          have hp1 : pendingCnt 1 bus (rs.set j { σj with fired := true, fired_cycle := c, execute_cycles_left := 1 }) =
              pendingCnt 1 bus rs := by
            unfold pendingCnt
            exact pc5_countP_set_eq _ rs j _ σj hgetj
              (by simp [hnf, hC2.1])
          have hp2 : pendingCnt 2 bus (rs.set j { σj with fired := true, fired_cycle := c, execute_cycles_left := 1 }) =
              pendingCnt 2 bus rs + 1 := by
            unfold pendingCnt
            exact pc5_countP_set_succ _ rs j _ σj hgetj hpσ2
              (by simp [hv, hns, hnb2, hC2.1])
          rw [hp0] at ih0
          rw [hp1] at ih1
          rw [hp2] at ih2
          have hk2 : 0 < k2 := hC2.2
          refine ⟨by rw [ih0], by rw [ih1], by rw [ih2]; omega⟩
        · rw [if_neg hC2]
          rw [if_neg (show ¬((false, k0, k1, k2) :
            Bool × Nat × Nat × Nat).1 = true by simp)]
          exact ih rs regs lsw k0 k1 k2 hcorest hpwrest

/-- Firing the head candidate strictly lowers the station potential. -/
theorem pc5_fire_fold_head_lt (c : Nat) (t j : Nat)
    (rest : List (Nat × Nat)) (rs : List Slot) (regs : Int → Bool)
    (lsw : Int → Nat) (k0 k1 k2 : Nat) (σ : Slot)
    (hget : rs.get? j = some σ) (hv : σ.valid = true)
    (hnf : σ.fired = false) (hnc : σ.completed = false)
    (hacq : (Procsim.fu_type σ.instruction.op_code = 0 ∧ 0 < k0) ∨
      (Procsim.fu_type σ.instruction.op_code = 1 ∧ 0 < k1) ∨
      (Procsim.fu_type σ.instruction.op_code = 2 ∧ 0 < k2)) :
    rsPot (fire_pairs_go c ((t, j) :: rest) rs regs lsw k0 k1 k2).1 <
      rsPot rs := by
  rw [fire_pairs_go, hget]
  simp only []
  have hstep : ∀ (regs2 : Int → Bool) (lsw2 : Int → Nat)
      (a b d : Nat),
      rsPot (fire_pairs_go c rest (rs.set j { σ with fired := true, fired_cycle := c, execute_cycles_left := 1 })
        regs2 lsw2 a b d).1 < rsPot rs := by
    intro regs2 lsw2 a b d
    refine Nat.lt_of_le_of_lt (pc5_fire_fold_rsPot c rest _ _ _ _ _ _) ?_
    exact pc5_rsPot_set_lt rs j _ σ hget (pc5_slotPot_fire_lt σ c hv hnf hnc)
  rcases hacq with ⟨hft, hk⟩ | ⟨hft, hk⟩ | ⟨hft, hk⟩
  · have hcond : Procsim.fu_type σ.instruction.op_code = 0 ∧ 0 < k0 :=
      ⟨hft, hk⟩
    rw [if_pos hcond]
    rw [if_pos (show ((true, k0 - 1, k1, k2) :
      Bool × Nat × Nat × Nat).1 = true from rfl)]
    exact hstep _ _ _ _ _
  · have hn0 : ¬(Procsim.fu_type σ.instruction.op_code = 0 ∧ 0 < k0) := by
      intro hcon
      rw [hft] at hcon
      exact absurd hcon.1 (by decide)
    have hcond : Procsim.fu_type σ.instruction.op_code = 1 ∧ 0 < k1 :=
      ⟨hft, hk⟩
    rw [if_neg hn0, if_pos hcond]
    rw [if_pos (show ((true, k0, k1 - 1, k2) :
      Bool × Nat × Nat × Nat).1 = true from rfl)]
    exact hstep _ _ _ _ _
  · have hn0 : ¬(Procsim.fu_type σ.instruction.op_code = 0 ∧ 0 < k0) := by
      intro hcon
      rw [hft] at hcon
      exact absurd hcon.1 (by decide)
    have hn1 : ¬(Procsim.fu_type σ.instruction.op_code = 1 ∧ 0 < k1) := by
      intro hcon
      rw [hft] at hcon
      exact absurd hcon.1 (by decide)
    have hcond : Procsim.fu_type σ.instruction.op_code = 2 ∧ 0 < k2 :=
      ⟨hft, hk⟩
    rw [if_neg hn0, if_neg hn1, if_pos hcond]
    rw [if_pos (show ((true, k0, k1, k2 - 1) :
      Bool × Nat × Nat × Nat).1 = true from rfl)]
    exact hstep _ _ _ _ _

end Procsim.PC

namespace Procsim.PC

/-- The dispatch loop permutes tags between the queue and the occupied
slots: nothing is created or lost. -/
theorem pc5_dis1_perm (c : Nat) :
    ∀ (rs : List Slot) (q : List ProcInst) (infl : Int → List Nat)
      (st : Nat → Stamps),
      List.Perm
        (validTags (dispatch_first_go c rs q infl st).1 ++
          queueTags (dispatch_first_go c rs q infl st).2.1)
        (validTags rs ++ queueTags q) := by
  intro rs
  induction rs with
  | nil =>
    intro q infl st
    exact List.Perm.refl _
  | cons slot rest ih =>
    intro q infl st
    cases q with
    | nil =>
      rw [dispatch_first_go]
    | cons inst qtail =>
      rw [dispatch_first_go]
      by_cases hvalid : slot.valid
      · rw [if_pos hvalid]
        simp only []
        have hvtrue : slot.valid = true := hvalid
        rw [pc5_validTags_cons_valid slot _ hvtrue,
          pc5_validTags_cons_valid slot rest hvtrue]
        exact List.Perm.cons _ (ih (inst :: qtail) infl st)
      · rw [if_neg hvalid]
        simp only []
        have hvfalse : slot.valid = false := by
          cases hs : slot.valid
          · rfl
          · exact absurd hs hvalid
        rw [pc5_validTags_cons_invalid slot rest hvfalse]
        have hv2 : ({ slot with
            instruction := inst
            valid := true
            src1_ready := false
            src2_ready := false
            fired := false
            completed := false
            execute_cycles_left := 0
            tag_dispatched := true
            state_updated := false
            fired_cycle := 0 } : Slot).valid = true := rfl
        rw [pc5_validTags_cons_valid _ _ hv2]
        show List.Perm (inst.tag :: (validTags _ ++ queueTags _))
          (validTags rest ++ (inst.tag :: queueTags qtail))
        refine List.Perm.trans (List.Perm.cons _ ?_) List.perm_middle.symm
        exact ih qtail _ _

/-- The dispatch loop never touches an occupied slot. -/
theorem pc5_dis1_get (c : Nat) :
    ∀ (rs : List Slot) (q : List ProcInst) (infl : Int → List Nat)
      (st : Nat → Stamps) (i : Nat) (σ : Slot),
      rs.get? i = some σ → σ.valid = true →
      (dispatch_first_go c rs q infl st).1.get? i = some σ := by
  intro rs
  induction rs with
  | nil => intro q infl st i σ hget; simp at hget
  | cons slot rest ih =>
    intro q infl st i σ hget hval
    cases q with
    | nil =>
      rw [dispatch_first_go]
      exact hget
    | cons inst qtail =>
      rw [dispatch_first_go]
      by_cases hvalid : slot.valid
      · rw [if_pos hvalid]
        simp only []
        cases i with
        | zero => exact hget
        | succ n =>
          show (dispatch_first_go c rest (inst :: qtail) infl st).1.get?
            n = some σ
          exact ih (inst :: qtail) infl st n σ (by simpa using hget) hval
      · rw [if_neg hvalid]
        simp only []
        cases i with
        | zero =>
          injection hget with hget
          rw [← hget] at hval
          exact absurd hval hvalid
        | succ n =>
          show (dispatch_first_go c rest qtail _ _).1.get? n = some σ
          exact ih qtail _ _ n σ (by simpa using hget) hval

/-- The dispatch loop preserves the reservation-station length. -/
theorem pc5_dis1_len (c : Nat) :
    ∀ (rs : List Slot) (q : List ProcInst) (infl : Int → List Nat)
      (st : Nat → Stamps),
      (dispatch_first_go c rs q infl st).1.length = rs.length := by
  intro rs
  induction rs with
  | nil => intro q infl st; rfl
  | cons slot rest ih =>
    intro q infl st
    cases q with
    | nil => rw [dispatch_first_go]
    | cons inst qtail =>
      rw [dispatch_first_go]
      by_cases hvalid : slot.valid
      · rw [if_pos hvalid]
        simp only [List.length_cons]
        rw [ih (inst :: qtail) infl st]
      · rw [if_neg hvalid]
        simp only [List.length_cons]
        rw [ih qtail _ _]

/-- The dispatch loop lowers the combined queue-and-station measure: each
admitted instruction trades five queue points for a potential of four. -/
theorem pc5_dis1_measure (c : Nat) :
    ∀ (rs : List Slot) (q : List ProcInst) (infl : Int → List Nat)
      (st : Nat → Stamps),
      5 * (dispatch_first_go c rs q infl st).2.1.length +
        rsPot (dispatch_first_go c rs q infl st).1 ≤
      5 * q.length + rsPot rs := by
  intro rs
  induction rs with
  | nil => intro q infl st; exact Nat.le_refl _
  | cons slot rest ih =>
    intro q infl st
    cases q with
    | nil =>
      rw [dispatch_first_go]
    | cons inst qtail =>
      rw [dispatch_first_go]
      by_cases hvalid : slot.valid
      · rw [if_pos hvalid]
        dsimp only
        unfold rsPot
        rw [List.map_cons, List.sum_cons, List.map_cons, List.sum_cons]
        have := ih (inst :: qtail) infl st
        unfold rsPot at this
        omega
      · rw [if_neg hvalid]
        dsimp only
        unfold rsPot
        rw [List.map_cons, List.sum_cons, List.map_cons, List.sum_cons]
        have := ih qtail (if inst.dest_reg ≠ -1 then
          Procsim.updFun infl inst.dest_reg
            (setInsert inst.tag (infl inst.dest_reg))
          else infl) (Procsim.updFun st inst.tag
            { st inst.tag with schedule := c + 1 })
        unfold rsPot at this
        dsimp only at this ⊢
        have hpotnew : slotPot { slot with
            instruction := inst
            valid := true
            src1_ready := false
            src2_ready := false
            fired := false
            completed := false
            execute_cycles_left := 0
            tag_dispatched := true
            state_updated := false
            fired_cycle := 0 } = 4 := by
          simp [slotPot]
        have hpotold : slotPot slot = 0 := by
          have hvfalse : slot.valid = false := by
            cases hs : slot.valid
            · rfl
            · exact absurd hs hvalid
          simp [slotPot, hvfalse]
        rw [hpotnew, hpotold]
        simp only [List.length_cons]
        omega

end Procsim.PC

namespace Procsim.PC

/-- Every slot after the dispatch loop is either an original slot or a
freshly admitted queue instruction in its dispatch-time state. -/
theorem pc5_dis1_slots (c : Nat) :
    ∀ (rs : List Slot) (q : List ProcInst) (infl : Int → List Nat)
      (st : Nat → Stamps),
      ∀ σ ∈ (dispatch_first_go c rs q infl st).1, σ ∈ rs ∨
        (∃ inst ∈ q, σ.valid = true ∧ σ.instruction = inst ∧
          σ.fired = false ∧ σ.completed = false ∧
          σ.state_updated = false) := by
  intro rs
  induction rs with
  | nil => intro q infl st σ hσ; exact Or.inl hσ
  | cons slot rest ih =>
    intro q infl st σ hσ
    cases q with
    | nil =>
      rw [dispatch_first_go] at hσ
      exact Or.inl hσ
    | cons inst qtail =>
      rw [dispatch_first_go] at hσ
      by_cases hvalid : slot.valid
      · rw [if_pos hvalid] at hσ
        simp only [] at hσ
        rcases List.mem_cons.mp hσ with heq | hmem
        · exact Or.inl (heq ▸ List.mem_cons_self slot rest)
        · rcases ih (inst :: qtail) infl st σ hmem with hl | ⟨i2, hi2, hp⟩
          · exact Or.inl (List.mem_cons_of_mem slot hl)
          · exact Or.inr ⟨i2, hi2, hp⟩
      · rw [if_neg hvalid] at hσ
        simp only [] at hσ
        rcases List.mem_cons.mp hσ with heq | hmem
        · refine Or.inr ⟨inst, List.mem_cons_self inst qtail, ?_⟩
          rw [heq]
          exact ⟨rfl, rfl, rfl, rfl, rfl⟩
        · rcases ih qtail _ _ σ hmem with hl | ⟨i2, hi2, hp⟩
          · exact Or.inl (List.mem_cons_of_mem slot hl)
          · exact Or.inr ⟨i2, List.mem_cons_of_mem inst hi2, hp⟩

/-- The dispatch loop only removes instructions from the queue. -/
theorem pc5_dis1_queue_sub (c : Nat) :
    ∀ (rs : List Slot) (q : List ProcInst) (infl : Int → List Nat)
      (st : Nat → Stamps),
      ∀ inst ∈ (dispatch_first_go c rs q infl st).2.1, inst ∈ q := by
  intro rs
  induction rs with
  | nil => intro q infl st inst hmem; exact hmem
  | cons slot rest ih =>
    intro q infl st inst hmem
    cases q with
    | nil =>
      rw [dispatch_first_go] at hmem
      simp at hmem
    | cons i0 qtail =>
      rw [dispatch_first_go] at hmem
      by_cases hvalid : slot.valid
      · rw [if_pos hvalid] at hmem
        simp only [] at hmem
        exact ih (i0 :: qtail) infl st inst hmem
      · rw [if_neg hvalid] at hmem
        simp only [] at hmem
        exact List.mem_cons_of_mem i0 (ih qtail _ _ inst hmem)

/-- Every in-flight writer recorded after the dispatch loop is either an
old entry or a freshly dispatched instruction with an occupied,
not-yet-updated slot for it. -/
theorem pc5_dis1_infl (c : Nat) :
    ∀ (rs : List Slot) (q : List ProcInst) (infl : Int → List Nat)
      (st : Nat → Stamps) (r : Int) (w : Nat),
      w ∈ (dispatch_first_go c rs q infl st).2.2.1 r →
      w ∈ infl r ∨ ∃ σ ∈ (dispatch_first_go c rs q infl st).1,
        σ.valid = true ∧ σ.instruction.tag = w ∧
        σ.instruction.dest_reg = r ∧ σ.state_updated = false := by
  intro rs
  induction rs with
  | nil => intro q infl st r w hmem; exact Or.inl hmem
  | cons slot rest ih =>
    intro q infl st r w hmem
    cases q with
    | nil =>
      rw [dispatch_first_go] at hmem ⊢
      exact Or.inl hmem
    | cons inst qtail =>
      rw [dispatch_first_go] at hmem ⊢
      by_cases hvalid : slot.valid
      · rw [if_pos hvalid] at hmem ⊢
        simp only [] at hmem ⊢
        rcases ih (inst :: qtail) infl st r w hmem with hl | ⟨σ, hσ, hp⟩
        · exact Or.inl hl
        · exact Or.inr ⟨σ, List.mem_cons_of_mem slot hσ, hp⟩
      · rw [if_neg hvalid] at hmem ⊢
        simp only [] at hmem ⊢
        rcases ih qtail _ _ r w hmem with hl | ⟨σ, hσ, hp⟩
        · by_cases hdest : inst.dest_reg ≠ -1
          · rw [if_pos hdest] at hl
            simp only [Procsim.updFun] at hl
            by_cases hr : r = inst.dest_reg
            · rw [if_pos hr] at hl
              unfold setInsert at hl
              by_cases hcont : (infl inst.dest_reg).contains inst.tag
              · rw [if_pos hcont] at hl
                rw [hr]
                exact Or.inl hl
              · rw [if_neg hcont] at hl
                rcases List.mem_cons.mp hl with heq | hmem2
                · refine Or.inr ⟨_, List.mem_cons_self _ _, rfl,
                    heq.symm, hr.symm, rfl⟩
                · rw [hr]
                  exact Or.inl hmem2
            · rw [if_neg hr] at hl
              exact Or.inl hl
          · rw [if_neg hdest] at hl
            exact Or.inl hl
        · exact Or.inr ⟨σ, List.mem_cons_of_mem _ hσ, hp⟩

/-- The dispatch loop keeps the in-flight-writer sets duplicate-free. -/
theorem pc5_dis1_inflNodup (c : Nat) :
    ∀ (rs : List Slot) (q : List ProcInst) (infl : Int → List Nat)
      (st : Nat → Stamps),
      (∀ r : Int, (infl r).Nodup) →
      ∀ r : Int, ((dispatch_first_go c rs q infl st).2.2.1 r).Nodup := by
  intro rs
  induction rs with
  | nil => intro q infl st h r; exact h r
  | cons slot rest ih =>
    intro q infl st h r
    cases q with
    | nil =>
      rw [dispatch_first_go]
      exact h r
    | cons inst qtail =>
      rw [dispatch_first_go]
      by_cases hvalid : slot.valid
      · rw [if_pos hvalid]
        exact ih (inst :: qtail) infl st h r
      · rw [if_neg hvalid]
        refine ih qtail _ _ ?_ r
        intro r2
        by_cases hdest : inst.dest_reg ≠ -1
        · rw [if_pos hdest]
          simp only [Procsim.updFun]
          by_cases hr : r2 = inst.dest_reg
          · rw [if_pos hr]
            unfold setInsert
            by_cases hcont : (infl inst.dest_reg).contains inst.tag
            · rw [if_pos hcont]
              exact h _
            · rw [if_neg hcont]
              refine List.nodup_cons.mpr ⟨?_, h _⟩
              simpa using hcont
          · rw [if_neg hr]
            exact h r2
        · rw [if_neg hdest]
          exact h r2

/-- The dispatch loop changes no in-flight class count: admitted slots
are not yet fired. -/
theorem pc5_dis1_pending (c : Nat) (cl : Int) (bus : List Nat) :
    ∀ (rs : List Slot) (q : List ProcInst) (infl : Int → List Nat)
      (st : Nat → Stamps),
      pendingCnt cl bus (dispatch_first_go c rs q infl st).1 =
        pendingCnt cl bus rs := by
  intro rs
  induction rs with
  | nil => intro q infl st; rfl
  | cons slot rest ih =>
    intro q infl st
    cases q with
    | nil => rw [dispatch_first_go]
    | cons inst qtail =>
      rw [dispatch_first_go]
      by_cases hvalid : slot.valid
      · rw [if_pos hvalid]
        unfold pendingCnt
        dsimp only
        rw [List.countP_cons, List.countP_cons]
        unfold pendingCnt at ih
        rw [ih (inst :: qtail) infl st]
      · rw [if_neg hvalid]
        unfold pendingCnt
        dsimp only
        rw [List.countP_cons, List.countP_cons]
        unfold pendingCnt at ih
        rw [ih qtail _ _]
        have hvfalse : slot.valid = false := by
          cases hs : slot.valid
          · rfl
          · exact absurd hs hvalid
        simp [hvfalse]

end Procsim.PC

namespace Procsim.PC

/-- The fetch loop touches only the source, the queue, the tag counter
and the stamps. -/
theorem pc5_fetch_comps (c : Nat) :
    ∀ (fuel : Nat) (s : State),
      (fetch_go c fuel s).reservation_station = s.reservation_station ∧
      (fetch_go c fuel s).result_bus_tags = s.result_bus_tags ∧
      (fetch_go c fuel s).register_in_flight_writers =
        s.register_in_flight_writers ∧
      (fetch_go c fuel s).register_last_state_updated =
        s.register_last_state_updated ∧
      (fetch_go c fuel s).register_ready = s.register_ready ∧
      (fetch_go c fuel s).register_last_scheduled_writer =
        s.register_last_scheduled_writer ∧
      (fetch_go c fuel s).k0_fu_available = s.k0_fu_available ∧
      (fetch_go c fuel s).k1_fu_available = s.k1_fu_available ∧
      (fetch_go c fuel s).k2_fu_available = s.k2_fu_available ∧
      (fetch_go c fuel s).instructions_retired =
        s.instructions_retired ∧
      (fetch_go c fuel s).current_cycle = s.current_cycle := by
  intro fuel
  induction fuel with
  | zero =>
    intro s
    exact ⟨rfl, rfl, rfl, rfl, rfl, rfl, rfl, rfl, rfl, rfl, rfl⟩
  | succ n ih =>
    intro s
    rcases hsrc : s.source with _ | ⟨inst, rest⟩ <;>
      rw [fetch_go] <;> simp only [hsrc]
    · simp
    · exact ih _

/-- The fetch loop never raises the measure. -/
theorem pc5_fetch_M_le (c : Nat) :
    ∀ (fuel : Nat) (s : State), M (fetch_go c fuel s) ≤ M s := by
  intro fuel
  induction fuel with
  | zero => intro s; exact Nat.le_refl _
  | succ n ih =>
    intro s
    rcases hsrc : s.source with _ | ⟨inst, rest⟩ <;>
      rw [fetch_go] <;> simp only [hsrc]
    · exact Nat.le_refl _
    · refine Nat.le_trans (ih _) ?_
      unfold M
      simp only [hsrc]
      rw [List.length_append]
      simp
      omega

/-- With fetch bandwidth and a pending source, the fetch loop strictly
lowers the measure. -/
theorem pc5_fetch_M_lt (c : Nat) :
    ∀ (fuel : Nat) (s : State), 1 ≤ fuel → s.source ≠ [] →
      M (fetch_go c fuel s) < M s := by
  intro fuel
  cases fuel with
  | zero => intro s h; omega
  | succ n =>
    intro s _ hsrc
    rcases hs : s.source with _ | ⟨inst, rest⟩
    · exact absurd hs hsrc
    · rw [fetch_go]
      simp only [hs]
      refine Nat.lt_of_le_of_lt (pc5_fetch_M_le c n _) ?_
      unfold M
      simp only [hs]
      rw [List.length_append]
      simp
      omega

/-- The fetch loop preserves tag discipline, opcode validity and
conservation. -/
theorem pc5_fetch_inv (cfg : Cfg) (c : Nat) (N : Nat) :
    ∀ (fuel : Nat) (s : State),
      (validTags s.reservation_station ++
        queueTags s.dispatch_queue).Nodup →
      (∀ t ∈ validTags s.reservation_station ++
        queueTags s.dispatch_queue, t < s.global_tag_counter) →
      (∀ inst ∈ s.dispatch_queue, opOk cfg inst) →
      (∀ inst ∈ s.source, opOk cfg inst) →
      (s.instructions_retired + s.dispatch_queue.length +
        s.reservation_station.countP (fun σ => σ.valid) +
        s.source.length = N) →
      ((validTags (fetch_go c fuel s).reservation_station ++
          queueTags (fetch_go c fuel s).dispatch_queue).Nodup ∧
        (∀ t ∈ validTags (fetch_go c fuel s).reservation_station ++
          queueTags (fetch_go c fuel s).dispatch_queue,
          t < (fetch_go c fuel s).global_tag_counter) ∧
        (∀ inst ∈ (fetch_go c fuel s).dispatch_queue, opOk cfg inst) ∧
        (∀ inst ∈ (fetch_go c fuel s).source, opOk cfg inst) ∧
        ((fetch_go c fuel s).instructions_retired +
          (fetch_go c fuel s).dispatch_queue.length +
          (fetch_go c fuel s).reservation_station.countP
            (fun σ => σ.valid) +
          (fetch_go c fuel s).source.length = N)) := by
  intro fuel
  induction fuel with
  | zero =>
    intro s h1 h2 h3 h4 h5
    exact ⟨h1, h2, h3, h4, h5⟩
  | succ n ih =>
    intro s h1 h2 h3 h4 h5
    rcases hsrc : s.source with _ | ⟨inst, rest⟩ <;>
      rw [fetch_go] <;> simp only [hsrc]
    · refine ⟨h1, h2, h3, by simp, ?_⟩
      rw [hsrc] at h5
      simpa using h5
    · refine ih _ ?_ ?_ ?_ ?_ ?_
      · show (validTags s.reservation_station ++
          queueTags (s.dispatch_queue ++
            [{ inst with tag := s.global_tag_counter }])).Nodup
        unfold queueTags
        rw [List.map_append, ← List.append_assoc]
        refine List.Nodup.append ?_ ?_ ?_
        · exact h1
        · simp
        · intro a ha hb
          have hlt := h2 a ha
          simp only [List.map_cons, List.map_nil, List.mem_singleton]
            at hb
          omega
      · intro t ht
        show t < s.global_tag_counter + 1
        revert ht
        show t ∈ validTags s.reservation_station ++
          queueTags (s.dispatch_queue ++
            [{ inst with tag := s.global_tag_counter }]) → _
        unfold queueTags
        rw [List.map_append, ← List.append_assoc]
        intro ht
        rcases List.mem_append.mp ht with hl | hr
        · have := h2 t hl
          omega
        · simp only [List.map_cons, List.map_nil,
            List.mem_singleton] at hr
          omega
      · intro i2 hi2
        show opOk cfg i2
        rcases List.mem_append.mp hi2 with hl | hr
        · exact h3 i2 hl
        · simp only [List.mem_singleton] at hr
          rw [hr]
          have hsrcmem : inst ∈ s.source := by
            rw [hsrc]
            exact List.mem_cons_self inst rest
          exact h4 inst hsrcmem
      · intro i2 hi2
        refine h4 i2 ?_
        rw [hsrc]
        exact List.mem_cons_of_mem inst hi2
      · show s.instructions_retired +
          (s.dispatch_queue ++ [_]).length +
          s.reservation_station.countP (fun σ => σ.valid) +
          rest.length = N
        rw [List.length_append]
        rw [hsrc] at h5
        simp only [List.length_cons] at h5
        simp
        omega

end Procsim.PC

namespace Procsim.PC

/-- With duplicate-free occupied tags, two occupied member slots with the
same tag are the same slot. -/
theorem pc5_mem_valid_unique (rs : List Slot)
    (hnd : (validTags rs).Nodup) (σa σb : Slot) (ha : σa ∈ rs)
    (hb : σb ∈ rs) (hva : σa.valid = true) (hvb : σb.valid = true)
    (ht : σa.instruction.tag = σb.instruction.tag) : σa = σb := by
  obtain ⟨ia, hia⟩ := List.get_of_mem ha
  obtain ⟨ib, hib⟩ := List.get_of_mem hb
  have hga : rs.get? ia.1 = some σa := by
    rw [List.get?_eq_get ia.2]
    exact congrArg some hia
  have hgb : rs.get? ib.1 = some σb := by
    rw [List.get?_eq_get ib.2]
    exact congrArg some hib
  have heq : ia.1 = ib.1 :=
    pc5_validTags_get_unique rs hnd ia.1 ib.1 σa σb hga hgb hva hvb ht
  rw [heq] at hga
  rw [hgb] at hga
  injection hga with h
  exact h.symm

/-- Marking the broadcast slots and clearing the bus keeps every
in-flight class count. -/
theorem pc5_pending_map_mark (c : Int) (bus : List Nat)
    (rs : List Slot) :
    pendingCnt c [] (rs.map (fun σ =>
      if σ.valid = true ∧ σ.instruction.tag ∈ bus then
        { σ with state_updated := true } else σ)) =
      pendingCnt c bus rs := by
  unfold pendingCnt
  rw [List.countP_map]
  refine List.countP_congr (fun σ hσ => ?_)
  by_cases hm : σ.valid = true ∧ σ.instruction.tag ∈ bus
  · have hcont : bus.contains σ.instruction.tag = true := by
      simpa using hm.2
    simp [hm, hcont]
  · by_cases hv : σ.valid = true
    · have hnmem : σ.instruction.tag ∉ bus := fun hcon => hm ⟨hv, hcon⟩
      have hcont : bus.contains σ.instruction.tag = false := by
        simpa using hnmem
      simp [hm, hv, hcont, hnmem]
    · have hvf : σ.valid = false := by
        cases hs : σ.valid
        · rfl
        · exact absurd hs hv
      simp [hm, hvf]

/-- Entering the cycle: the boundary invariant gives the mid-cycle
invariant after the cycle-counter tick. -/
theorem pc5_mid_of_inv (cfg : Cfg) (N : Nat) (s : State)
    (hinv : Inv cfg N s) : MidInv cfg N (tick s) := by
  refine ⟨?_, hinv.nodup, hinv.tagLt, hinv.busOk, hinv.fuAcct0,
    hinv.fuAcct1, hinv.fuAcct2, hinv.inflOk, hinv.inflNodup,
    hinv.queueOk, hinv.srcOk, hinv.cons, hinv.rsLen⟩
  intro σ hσ hv
  obtain ⟨o1, o2, o3, o4⟩ := hinv.slotOk σ hσ hv
  refine ⟨o1, o2, o3, fun hcon => ?_⟩
  rw [o4] at hcon
  exact absurd hcon Bool.false_ne_true

/-- State-update phase: the mid-cycle invariant is preserved and the bus
comes out clear. -/
theorem pc5_mid_su1 (cfg : Cfg) (N : Nat) (s : State)
    (hmid : MidInv cfg N s) :
    MidInv cfg N (state_update_stage_first_half s) ∧
      (state_update_stage_first_half s).result_bus_tags = [] := by
  have hnd : (validTags s.reservation_station).Nodup :=
    hmid.nodup.of_append_left
  have hbusW : ∀ t ∈ s.result_bus_tags, ∃ σ ∈ s.reservation_station,
      σ.valid = true ∧ σ.instruction.tag = t := by
    intro t ht
    obtain ⟨σ, hmem, hv, htag, _, _, _⟩ := hmid.busOk t ht
    exact ⟨σ, hmem, hv, htag⟩
  have hrs := pc5_su1_rs s hnd hbusW
  obtain ⟨hq, hsrc, hbus, hk0, hk1, hk2, hctr, hcyc, hret⟩ :=
    pc5_su1_comps s
  have hpres : ∀ σ : Slot,
      ((if σ.valid = true ∧ σ.instruction.tag ∈ s.result_bus_tags then
        { σ with state_updated := true } else σ) : Slot).valid =
        σ.valid ∧
      ((if σ.valid = true ∧ σ.instruction.tag ∈ s.result_bus_tags then
        { σ with state_updated := true } else σ) : Slot).instruction.tag =
        σ.instruction.tag := by
    intro σ
    by_cases hc : σ.valid = true ∧ σ.instruction.tag ∈ s.result_bus_tags
    · rw [if_pos hc]
      exact ⟨rfl, rfl⟩
    · rw [if_neg hc]
      exact ⟨rfl, rfl⟩
  have hVT : validTags
      (state_update_stage_first_half s).reservation_station =
      validTags s.reservation_station := by
    rw [hrs]
    exact pc5_validTags_map_eq _ hpres s.reservation_station
  obtain ⟨hinflnd, hinflok⟩ := pc5_su_fold_inflOk
    ((s.result_bus_tags.filterMap (fun t =>
      (findByTag t s.reservation_station).map
        (fun slot => (slot.completed_cycle, t, 0)))).insertionSort
          Procsim.bcastLe) s hnd hmid.inflNodup hmid.inflOk
  refine ⟨⟨?_, ?_, ?_, ?_, ?_, ?_, ?_, ?_, ?_, ?_, ?_, ?_, ?_⟩, hbus⟩
  · intro σ1 hσ1 hv1
    rw [hrs] at hσ1
    obtain ⟨σ0, hσ0, hσeq⟩ := List.mem_map.mp hσ1
    by_cases hm : σ0.valid = true ∧
        σ0.instruction.tag ∈ s.result_bus_tags
    · rw [if_pos hm] at hσeq
      obtain ⟨o1, o2, o3, _⟩ := hmid.slotOk σ0 hσ0 hm.1
      obtain ⟨σw, hmemw, hvw, htagw, _, hcw, _⟩ :=
        hmid.busOk σ0.instruction.tag hm.2
      have hσ0w : σ0 = σw :=
        pc5_mem_valid_unique s.reservation_station hnd σ0 σw hσ0 hmemw
          hm.1 hvw htagw.symm
      rw [← hσeq]
      exact ⟨o1, o2, o3, fun _ => by rw [hσ0w]; exact hcw⟩
    · rw [if_neg hm] at hσeq
      rw [← hσeq]
      rw [← hσeq] at hv1
      exact hmid.slotOk σ0 hσ0 hv1
  · rw [hVT, hq]
    exact hmid.nodup
  · rw [hVT, hq, hctr]
    exact hmid.tagLt
  · rw [hbus]
    intro t ht
    simp at ht
  · rw [hk0, hbus, hrs, pc5_pending_map_mark]
    exact hmid.fuAcct0
  · rw [hk1, hbus, hrs, pc5_pending_map_mark]
    exact hmid.fuAcct1
  · rw [hk2, hbus, hrs, pc5_pending_map_mark]
    exact hmid.fuAcct2
  · exact hinflok
  · exact hinflnd
  · rw [hq]
    exact hmid.queueOk
  · rw [hsrc]
    exact hmid.srcOk
  · have hcnt : (state_update_stage_first_half
        s).reservation_station.countP (fun σ => σ.valid) =
        s.reservation_station.countP (fun σ => σ.valid) := by
      rw [← pc5_validTags_length, ← pc5_validTags_length, hVT]
    rw [hret, hq, hcnt, hsrc]
    exact hmid.cons
  · rw [hrs, List.length_map]
    exact hmid.rsLen

end Procsim.PC

namespace Procsim.PC

/-- Execute phase: from a clear bus, the mid-cycle invariant is preserved
and the new bus is exhaustive. -/
theorem pc5_mid_ex1 (cfg : Cfg) (N : Nat) (s : State)
    (hR : 1 ≤ cfg.RESULT_BUSES)
    (hmid : MidInv cfg N s) (hbus : s.result_bus_tags = []) :
    MidInv cfg N (execute_stage_first_half cfg s) ∧
      BE (execute_stage_first_half cfg s) := by
  have hnd : (validTags s.reservation_station).Nodup :=
    hmid.nodup.of_append_left
  have hcf : ∀ σ ∈ s.reservation_station, σ.valid = true →
      σ.completed = true → σ.fired = true :=
    fun σ h hv hc => (hmid.slotOk σ h hv).2.1 hc
  have hfields : ∀ σ : Slot,
      (exec_tick s.current_cycle σ).valid = σ.valid ∧
      (exec_tick s.current_cycle σ).instruction = σ.instruction ∧
      (exec_tick s.current_cycle σ).fired = σ.fired ∧
      (exec_tick s.current_cycle σ).state_updated = σ.state_updated :=
    fun σ => pc5_exec_tick_fields s.current_cycle σ
  have hpres : ∀ σ : Slot,
      (exec_tick s.current_cycle σ).valid = σ.valid ∧
      (exec_tick s.current_cycle σ).instruction.tag =
        σ.instruction.tag := by
    intro σ
    obtain ⟨h1, h2, _, _⟩ := hfields σ
    exact ⟨h1, by rw [h2]⟩
  have hrseq : (execute_stage_first_half cfg s).reservation_station =
      s.reservation_station.map (exec_tick s.current_cycle) := rfl
  have hVT : validTags
      (execute_stage_first_half cfg s).reservation_station =
      validTags s.reservation_station := by
    rw [hrseq]
    exact pc5_validTags_map_eq _ hpres s.reservation_station
  obtain ⟨hfu0, hfu1, hfu2⟩ := pc5_ex1_fuAcct cfg s hbus hnd hcf
  have hmfu0 := hmid.fuAcct0
  have hmfu1 := hmid.fuAcct1
  have hmfu2 := hmid.fuAcct2
  rw [hbus] at hmfu0 hmfu1 hmfu2
  refine ⟨⟨?_, ?_, ?_, pc5_ex1_busOk cfg s hbus hcf, hfu0.trans hmfu0,
    hfu1.trans hmfu1, hfu2.trans hmfu2, ?_, hmid.inflNodup,
    hmid.queueOk, hmid.srcOk, ?_, ?_⟩, pc5_ex1_busEmpty cfg s hR⟩
  · intro σ2 hσ2 hv2
    rw [hrseq] at hσ2
    obtain ⟨σ0, hσ0, hσeq⟩ := List.mem_map.mp hσ2
    have hv0 : σ0.valid = true := by
      rw [← (hfields σ0).1, hσeq]
      exact hv2
    obtain ⟨o1, o2, o3, o4⟩ := hmid.slotOk σ0 hσ0 hv0
    have hchar := pc5_exec_tick_of_inv s.current_cycle σ0
      (fun _ hf hc => o3 hf hc)
    by_cases hcond : σ0.valid = true ∧ σ0.fired = true ∧
        σ0.completed = false
    · rw [if_pos hcond] at hchar
      rw [hchar] at hσeq
      rw [← hσeq]
      refine ⟨o1, fun _ => hcond.2.1, fun _ hc2 => ?_, fun _ => rfl⟩
      exact absurd hc2 (by simp)
    · rw [if_neg hcond] at hchar
      rw [hchar] at hσeq
      rw [← hσeq]
      exact ⟨o1, o2, o3, o4⟩
  · rw [hVT]
    show (validTags s.reservation_station ++
      queueTags s.dispatch_queue).Nodup
    exact hmid.nodup
  · rw [hVT]
    show ∀ t ∈ validTags s.reservation_station ++
      queueTags s.dispatch_queue, t < s.global_tag_counter
    exact hmid.tagLt
  · intro r hr w hw
    obtain ⟨σw, hmemw, hvw, htagw, hdw, hsw⟩ := hmid.inflOk r hr w hw
    refine ⟨exec_tick s.current_cycle σw, ?_, ?_, ?_, ?_, ?_⟩
    · rw [hrseq]
      exact List.mem_map.mpr ⟨σw, hmemw, rfl⟩
    · rw [(hfields σw).1]
      exact hvw
    · rw [(hfields σw).2.1]
      exact htagw
    · rw [(hfields σw).2.1]
      exact hdw
    · rw [(hfields σw).2.2.2]
      exact hsw
  · have hcnt : (execute_stage_first_half
        cfg s).reservation_station.countP (fun σ => σ.valid) =
        s.reservation_station.countP (fun σ => σ.valid) := by
      rw [← pc5_validTags_length, ← pc5_validTags_length, hVT]
    show (execute_stage_first_half cfg s).instructions_retired +
      s.dispatch_queue.length +
      (execute_stage_first_half cfg s).reservation_station.countP
        (fun σ => σ.valid) + s.source.length = N
    rw [hcnt]
    exact hmid.cons
  · rw [hrseq, List.length_map]
    exact hmid.rsLen

end Procsim.PC

namespace Procsim.PC

/-- Schedule (fire) phase: the mid-cycle invariant, bus exhaustiveness
and the bus itself are preserved. -/
theorem pc5_mid_sch1 (cfg : Cfg) (N : Nat) (s : State)
    (hmid : MidInv cfg N s) (hbe : BE s) :
    MidInv cfg N (schedule_stage_first_half s) ∧
      BE (schedule_stage_first_half s) := by
  have hnd : (validTags s.reservation_station).Nodup :=
    hmid.nodup.of_append_left
  have hrseq : (schedule_stage_first_half s).reservation_station =
      (fire_pairs_go s.current_cycle
        ((collect_ready s.register_last_state_updated
          s.register_in_flight_writers 0
          s.reservation_station).insertionSort Procsim.pairLe)
        s.reservation_station s.register_ready
        s.register_last_scheduled_writer s.k0_fu_available
        s.k1_fu_available s.k2_fu_available).1 := rfl
  have hVT : validTags
      (schedule_stage_first_half s).reservation_station =
      validTags s.reservation_station := by
    rw [hrseq]
    exact pc5_fire_fold_validTags _ _ _ _ _ _ _ _
  have hpoint : ∀ σ3 ∈ (schedule_stage_first_half
      s).reservation_station, σ3 ∈ s.reservation_station ∨
      ∃ σ ∈ s.reservation_station, σ3 = { σ with fired := true, fired_cycle := s.current_cycle, execute_cycles_left := 1 } := by
    intro σ3 hσ3
    rw [hrseq] at hσ3
    obtain ⟨j, hj⟩ := List.get_of_mem hσ3
    have hgj : (fire_pairs_go s.current_cycle
        ((collect_ready s.register_last_state_updated
          s.register_in_flight_writers 0
          s.reservation_station).insertionSort Procsim.pairLe)
        s.reservation_station s.register_ready
        s.register_last_scheduled_writer s.k0_fu_available
        s.k1_fu_available s.k2_fu_available).1.get? j.1 = some σ3 := by
      rw [List.get?_eq_get j.2]
      exact congrArg some hj
    rcases pc5_fire_fold_get s.current_cycle _ s.reservation_station
      s.register_ready s.register_last_scheduled_writer
      s.k0_fu_available s.k1_fu_available s.k2_fu_available j.1 with
      hA | ⟨σ, hg, hB⟩
    · rw [hgj] at hA
      exact Or.inl (List.get?_mem hA.symm)
    · rw [hgj] at hB
      injection hB with hB
      exact Or.inr ⟨σ, List.get?_mem hg, hB⟩
  have htrans : ∀ σw ∈ s.reservation_station, ∃ σ3 ∈
      (schedule_stage_first_half s).reservation_station,
      σ3.valid = σw.valid ∧ σ3.instruction = σw.instruction ∧
      σ3.completed = σw.completed ∧
      σ3.state_updated = σw.state_updated ∧
      (σw.fired = true → σ3.fired = true) := by
    intro σw hσw
    obtain ⟨j, hj⟩ := List.get_of_mem hσw
    have hgj : s.reservation_station.get? j.1 = some σw := by
      rw [List.get?_eq_get j.2]
      exact congrArg some hj
    rcases pc5_fire_fold_get s.current_cycle
      ((collect_ready s.register_last_state_updated
        s.register_in_flight_writers 0
        s.reservation_station).insertionSort Procsim.pairLe)
      s.reservation_station s.register_ready
      s.register_last_scheduled_writer s.k0_fu_available
      s.k1_fu_available s.k2_fu_available j.1 with
      hA | ⟨σ, hg, hB⟩
    · rw [hgj] at hA
      refine ⟨σw, ?_, rfl, rfl, rfl, rfl, fun h => h⟩
      rw [hrseq]
      exact List.get?_mem hA
    · rw [hgj] at hg
      injection hg with hg
      subst hg
      refine ⟨{ σw with fired := true, fired_cycle := s.current_cycle, execute_cycles_left := 1 }, ?_, rfl, rfl, rfl, rfl, fun _ => rfl⟩
      rw [hrseq]
      exact List.get?_mem hB
  have hco : ∀ p ∈ (collect_ready s.register_last_state_updated
      s.register_in_flight_writers 0
      s.reservation_station).insertionSort Procsim.pairLe,
      ∃ σ, s.reservation_station.get? p.2 = some σ ∧ σ.valid = true ∧
        σ.fired = false ∧ σ.state_updated = false ∧
        s.result_bus_tags.contains σ.instruction.tag = false := by
    intro p hp
    have hp2 : p ∈ collect_ready s.register_last_state_updated
        s.register_in_flight_writers 0 s.reservation_station :=
      (List.perm_insertionSort Procsim.pairLe _).mem_iff.mp hp
    obtain ⟨k, σ, hk, hget, hv, hnf, hnc, _, _, _⟩ :=
      (pc5_collect_ready_mem _ _ _ 0 p.1 p.2).mp (by
        obtain ⟨p1, p2⟩ := p
        exact hp2)
    have hget2 : s.reservation_station.get? p.2 = some σ := by
      rw [hk]
      simpa using hget
    have hns : σ.state_updated = false := by
      cases hsu : σ.state_updated
      · rfl
      · have := (hmid.slotOk σ (List.get?_mem hget2) hv).2.2.2 hsu
        rw [this] at hnc
        exact absurd hnc (by simp)
    have hnb : s.result_bus_tags.contains σ.instruction.tag = false := by
      cases hcont : s.result_bus_tags.contains σ.instruction.tag
      · rfl
      · exfalso
        have hmem2 : σ.instruction.tag ∈ s.result_bus_tags := by
          simpa using hcont
        obtain ⟨σw, hmemw, hvw, htagw, _, hcw, _⟩ :=
          hmid.busOk σ.instruction.tag hmem2
        have : σ = σw := pc5_mem_valid_unique s.reservation_station hnd
          σ σw (List.get?_mem hget2) hmemw hv hvw htagw.symm
        rw [this] at hnc
        rw [hcw] at hnc
        exact absurd hnc (by simp)
    exact ⟨σ, hget2, hv, hnf, hns, hnb⟩
  have hpw : List.Pairwise (fun a b : Nat × Nat => a.2 ≠ b.2)
      ((collect_ready s.register_last_state_updated
        s.register_in_flight_writers 0
        s.reservation_station).insertionSort Procsim.pairLe) := by
    refine (List.Perm.pairwise_iff (fun hab heq => hab heq.symm)
      (List.perm_insertionSort Procsim.pairLe _)).mpr ?_
    refine List.Pairwise.imp ?_ (pc5_collect_ready_pairwise _ _ _ 0)
    intro a b hlt
    omega
  obtain ⟨hfu0, hfu1, hfu2⟩ := pc5_fire_fold_fuAcct s.current_cycle
    s.result_bus_tags
    ((collect_ready s.register_last_state_updated
      s.register_in_flight_writers 0
      s.reservation_station).insertionSort Procsim.pairLe)
    s.reservation_station s.register_ready
    s.register_last_scheduled_writer s.k0_fu_available
    s.k1_fu_available s.k2_fu_available hco hpw
  refine ⟨⟨?_, ?_, ?_, ?_, hfu0.trans hmid.fuAcct0,
    hfu1.trans hmid.fuAcct1, hfu2.trans hmid.fuAcct2, ?_,
    hmid.inflNodup, hmid.queueOk, hmid.srcOk, ?_, ?_⟩, ?_⟩
  · intro σ3 hσ3 hv3
    rcases hpoint σ3 hσ3 with hold | ⟨σ, hσ, heq⟩
    · exact hmid.slotOk σ3 hold hv3
    · have hv0 : σ.valid = true := by
        rw [heq] at hv3
        exact hv3
      obtain ⟨o1, o2, o3, o4⟩ := hmid.slotOk σ hσ hv0
      rw [heq]
      refine ⟨o1, fun _ => rfl, fun _ _ => rfl, fun hsu => o4 hsu⟩
  · rw [hVT]
    show (validTags s.reservation_station ++
      queueTags s.dispatch_queue).Nodup
    exact hmid.nodup
  · rw [hVT]
    show ∀ t ∈ validTags s.reservation_station ++
      queueTags s.dispatch_queue, t < s.global_tag_counter
    exact hmid.tagLt
  · intro t ht
    obtain ⟨σw, hmemw, hvw, htagw, hfw, hcw, hsw⟩ := hmid.busOk t ht
    obtain ⟨σ3, hσ3, e1, e2, e3, e4, e5⟩ := htrans σw hmemw
    exact ⟨σ3, hσ3, e1.trans hvw, by rw [e2]; exact htagw, e5 hfw,
      e3.trans hcw, e4.trans hsw⟩
  · intro r hr w hw
    obtain ⟨σw, hmemw, hvw, htagw, hdw, hsw⟩ := hmid.inflOk r hr w hw
    obtain ⟨σ3, hσ3, e1, e2, e3, e4, e5⟩ := htrans σw hmemw
    exact ⟨σ3, hσ3, e1.trans hvw, by rw [e2]; exact htagw,
      by rw [e2]; exact hdw, e4.trans hsw⟩
  · have hcnt : (schedule_stage_first_half
        s).reservation_station.countP (fun σ => σ.valid) =
        s.reservation_station.countP (fun σ => σ.valid) := by
      rw [← pc5_validTags_length, ← pc5_validTags_length, hVT]
    show (schedule_stage_first_half s).instructions_retired +
      s.dispatch_queue.length +
      (schedule_stage_first_half s).reservation_station.countP
        (fun σ => σ.valid) + s.source.length = N
    rw [hcnt]
    exact hmid.cons
  · rw [hrseq, pc5_fire_fold_len]
    exact hmid.rsLen
  · intro hb3 σ3 hσ3 hv3 hc3
    rcases hpoint σ3 hσ3 with hold | ⟨σ, hσ, heq⟩
    · exact hbe hb3 σ3 hold hv3 hc3
    · rw [heq]
      show σ.state_updated = true
      refine hbe hb3 σ hσ ?_ ?_
      · rw [heq] at hv3
        exact hv3
      · rw [heq] at hc3
        exact hc3

end Procsim.PC

namespace Procsim.PC

/-- Dispatch phase: the mid-cycle invariant and bus exhaustiveness are
preserved. -/
theorem pc5_mid_dis1 (cfg : Cfg) (N : Nat) (s : State)
    (hmid : MidInv cfg N s) (hbe : BE s) :
    MidInv cfg N (dispatch_stage_first_half s) ∧
      BE (dispatch_stage_first_half s) := by
  have hrseq : (dispatch_stage_first_half s).reservation_station =
      (dispatch_first_go s.current_cycle s.reservation_station
        s.dispatch_queue s.register_in_flight_writers
        s.instruction_cycles).1 := rfl
  have hqeq : (dispatch_stage_first_half s).dispatch_queue =
      (dispatch_first_go s.current_cycle s.reservation_station
        s.dispatch_queue s.register_in_flight_writers
        s.instruction_cycles).2.1 := rfl
  have hperm := pc5_dis1_perm s.current_cycle s.reservation_station
    s.dispatch_queue s.register_in_flight_writers s.instruction_cycles
  have htrans : ∀ σw ∈ s.reservation_station, σw.valid = true →
      σw ∈ (dispatch_stage_first_half s).reservation_station := by
    intro σw hσw hvw
    obtain ⟨j, hj⟩ := List.get_of_mem hσw
    have hgj : s.reservation_station.get? j.1 = some σw := by
      rw [List.get?_eq_get j.2]
      exact congrArg some hj
    rw [hrseq]
    exact List.get?_mem (pc5_dis1_get s.current_cycle
      s.reservation_station s.dispatch_queue
      s.register_in_flight_writers s.instruction_cycles j.1 σw hgj hvw)
  have hslots := pc5_dis1_slots s.current_cycle s.reservation_station
    s.dispatch_queue s.register_in_flight_writers s.instruction_cycles
  refine ⟨⟨?_, ?_, ?_, ?_, ?_, ?_, ?_, ?_, ?_, ?_, ?_, ?_, ?_⟩, ?_⟩
  · intro σ4 hσ4 hv4
    rcases hslots σ4 (by rw [hrseq] at hσ4; exact hσ4) with hold |
      ⟨inst, hinst, _, hins, hf4, hc4, hs4⟩
    · exact hmid.slotOk σ4 hold hv4
    · refine ⟨by rw [hins]; exact hmid.queueOk inst hinst, ?_, ?_, ?_⟩
      · intro hcon
        rw [hc4] at hcon
        exact absurd hcon (by simp)
      · intro hcon
        rw [hf4] at hcon
        exact absurd hcon (by simp)
      · intro hcon
        rw [hs4] at hcon
        exact absurd hcon (by simp)
  · refine (List.Perm.nodup_iff ?_).mpr hmid.nodup
    rw [hrseq, hqeq]
    exact hperm
  · intro t ht
    show t < s.global_tag_counter
    refine hmid.tagLt t ?_
    refine hperm.mem_iff.mp ?_
    rw [hrseq, hqeq] at ht
    exact ht
  · intro t ht
    obtain ⟨σw, hmemw, hvw, htagw, hfw, hcw, hsw⟩ := hmid.busOk t ht
    exact ⟨σw, htrans σw hmemw hvw, hvw, htagw, hfw, hcw, hsw⟩
  · show s.k0_fu_available + pendingCnt 0 s.result_bus_tags
      (dispatch_stage_first_half s).reservation_station =
      cfg.K0_FU_COUNT
    rw [hrseq, pc5_dis1_pending]
    exact hmid.fuAcct0
  · show s.k1_fu_available + pendingCnt 1 s.result_bus_tags
      (dispatch_stage_first_half s).reservation_station =
      cfg.K1_FU_COUNT
    rw [hrseq, pc5_dis1_pending]
    exact hmid.fuAcct1
  · show s.k2_fu_available + pendingCnt 2 s.result_bus_tags
      (dispatch_stage_first_half s).reservation_station =
      cfg.K2_FU_COUNT
    rw [hrseq, pc5_dis1_pending]
    exact hmid.fuAcct2
  · intro r hr w hw
    rcases pc5_dis1_infl s.current_cycle s.reservation_station
      s.dispatch_queue s.register_in_flight_writers
      s.instruction_cycles r w hw with hold | ⟨σ, hσ, hp⟩
    · obtain ⟨σw, hmemw, hvw, htagw, hdw, hsw⟩ :=
        hmid.inflOk r hr w hold
      exact ⟨σw, htrans σw hmemw hvw, hvw, htagw, hdw, hsw⟩
    · exact ⟨σ, by rw [hrseq]; exact hσ, hp⟩
  · exact pc5_dis1_inflNodup s.current_cycle s.reservation_station
      s.dispatch_queue s.register_in_flight_writers
      s.instruction_cycles hmid.inflNodup
  · intro inst hinst
    refine hmid.queueOk inst ?_
    exact pc5_dis1_queue_sub s.current_cycle s.reservation_station
      s.dispatch_queue s.register_in_flight_writers
      s.instruction_cycles inst hinst
  · exact hmid.srcOk
  · have hlen := hperm.length_eq
    rw [List.length_append, List.length_append,
      pc5_validTags_length, pc5_validTags_length] at hlen
    have hql : ∀ q : List ProcInst, (queueTags q).length = q.length :=
      fun q => List.length_map q _
    rw [hql, hql] at hlen
    have hcons := hmid.cons
    show (dispatch_stage_first_half s).instructions_retired +
      (dispatch_stage_first_half s).dispatch_queue.length +
      (dispatch_stage_first_half s).reservation_station.countP
        (fun σ => σ.valid) +
      (dispatch_stage_first_half s).source.length = N
    show s.instructions_retired +
      (dispatch_first_go s.current_cycle s.reservation_station
        s.dispatch_queue s.register_in_flight_writers
        s.instruction_cycles).2.1.length +
      (dispatch_first_go s.current_cycle s.reservation_station
        s.dispatch_queue s.register_in_flight_writers
        s.instruction_cycles).1.countP (fun σ => σ.valid) +
      s.source.length = N
    omega
  · rw [hrseq, pc5_dis1_len]
    exact hmid.rsLen
  · intro hb4 σ4 hσ4 hv4 hc4
    rcases hslots σ4 (by rw [hrseq] at hσ4; exact hσ4) with hold |
      ⟨inst, hinst, _, hins, hf4, hc4f, hs4⟩
    · exact hbe hb4 σ4 hold hv4 hc4
    · rw [hc4f] at hc4
      exact absurd hc4 (by simp)

end Procsim.PC

namespace Procsim.PC

/-- Fetch phase: the mid-cycle invariant and bus exhaustiveness are
preserved. -/
theorem pc5_mid_fetch (cfg : Cfg) (N : Nat) (s : State)
    (hmid : MidInv cfg N s) (hbe : BE s) :
    MidInv cfg N (fetch_stage cfg s) ∧ BE (fetch_stage cfg s) := by
  obtain ⟨hrs, hbus, hinfl, hlsu, hready, hlsw, hk0, hk1, hk2, hret,
    hcyc⟩ := pc5_fetch_comps s.current_cycle cfg.FETCH_RATE s
  obtain ⟨f1, f2, f3, f4, f5⟩ := pc5_fetch_inv cfg s.current_cycle N
    cfg.FETCH_RATE s hmid.nodup hmid.tagLt hmid.queueOk hmid.srcOk
    hmid.cons
  refine ⟨⟨?_, f1, f2, ?_, ?_, ?_, ?_, ?_, ?_, f3, f4, f5, ?_⟩, ?_⟩
  · show ∀ σ ∈ (fetch_stage cfg s).reservation_station, _
    rw [show (fetch_stage cfg s).reservation_station =
      s.reservation_station from hrs]
    exact hmid.slotOk
  · show ∀ t ∈ (fetch_stage cfg s).result_bus_tags, _
    rw [show (fetch_stage cfg s).result_bus_tags =
      s.result_bus_tags from hbus]
    intro t ht
    obtain ⟨σw, hmemw, hp⟩ := hmid.busOk t ht
    refine ⟨σw, ?_, hp⟩
    rw [show (fetch_stage cfg s).reservation_station =
      s.reservation_station from hrs]
    exact hmemw
  · show (fetch_stage cfg s).k0_fu_available + _ = _
    rw [show (fetch_stage cfg s).k0_fu_available =
      s.k0_fu_available from hk0,
      show (fetch_stage cfg s).result_bus_tags =
        s.result_bus_tags from hbus,
      show (fetch_stage cfg s).reservation_station =
        s.reservation_station from hrs]
    exact hmid.fuAcct0
  · rw [show (fetch_stage cfg s).k1_fu_available =
      s.k1_fu_available from hk1,
      show (fetch_stage cfg s).result_bus_tags =
        s.result_bus_tags from hbus,
      show (fetch_stage cfg s).reservation_station =
        s.reservation_station from hrs]
    exact hmid.fuAcct1
  · rw [show (fetch_stage cfg s).k2_fu_available =
      s.k2_fu_available from hk2,
      show (fetch_stage cfg s).result_bus_tags =
        s.result_bus_tags from hbus,
      show (fetch_stage cfg s).reservation_station =
        s.reservation_station from hrs]
    exact hmid.fuAcct2
  · show ∀ r : Int, r ≠ -1 → _
    rw [show (fetch_stage cfg s).register_in_flight_writers =
      s.register_in_flight_writers from hinfl]
    intro r hr w hw
    obtain ⟨σw, hmemw, hp⟩ := hmid.inflOk r hr w hw
    refine ⟨σw, ?_, hp⟩
    rw [show (fetch_stage cfg s).reservation_station =
      s.reservation_station from hrs]
    exact hmemw
  · intro r
    rw [show (fetch_stage cfg s).register_in_flight_writers =
      s.register_in_flight_writers from hinfl]
    exact hmid.inflNodup r
  · rw [show (fetch_stage cfg s).reservation_station =
      s.reservation_station from hrs]
    exact hmid.rsLen
  · intro hb σ hσ
    rw [show (fetch_stage cfg s).result_bus_tags =
      s.result_bus_tags from hbus] at hb
    rw [show (fetch_stage cfg s).reservation_station =
      s.reservation_station from hrs] at hσ
    exact hbe hb σ hσ

/-- Wakeup-flag refresh phase: the mid-cycle invariant and bus
exhaustiveness are preserved. -/
theorem pc5_mid_sch2 (cfg : Cfg) (N : Nat) (s : State)
    (hmid : MidInv cfg N s) (hbe : BE s) :
    MidInv cfg N (schedule_stage_second_half s) ∧
      BE (schedule_stage_second_half s) := by
  have hfieldsG : ∀ σ : Slot,
      ((if σ.valid = true ∧ σ.fired = false ∧ σ.completed = false then
        ({ σ with
            src1_ready :=
              if σ.instruction.src_reg1 = -1 then true
              else s.register_ready σ.instruction.src_reg1
            src2_ready :=
              if σ.instruction.src_reg2 = -1 then true
              else s.register_ready σ.instruction.src_reg2 } : Slot)
        else σ) : Slot).valid = σ.valid ∧
      ((if σ.valid = true ∧ σ.fired = false ∧ σ.completed = false then
        ({ σ with
            src1_ready :=
              if σ.instruction.src_reg1 = -1 then true
              else s.register_ready σ.instruction.src_reg1
            src2_ready :=
              if σ.instruction.src_reg2 = -1 then true
              else s.register_ready σ.instruction.src_reg2 } : Slot)
        else σ) : Slot).instruction = σ.instruction ∧
      ((if σ.valid = true ∧ σ.fired = false ∧ σ.completed = false then
        ({ σ with
            src1_ready :=
              if σ.instruction.src_reg1 = -1 then true
              else s.register_ready σ.instruction.src_reg1
            src2_ready :=
              if σ.instruction.src_reg2 = -1 then true
              else s.register_ready σ.instruction.src_reg2 } : Slot)
        else σ) : Slot).fired = σ.fired ∧
      ((if σ.valid = true ∧ σ.fired = false ∧ σ.completed = false then
        ({ σ with
            src1_ready :=
              if σ.instruction.src_reg1 = -1 then true
              else s.register_ready σ.instruction.src_reg1
            src2_ready :=
              if σ.instruction.src_reg2 = -1 then true
              else s.register_ready σ.instruction.src_reg2 } : Slot)
        else σ) : Slot).completed = σ.completed ∧
      ((if σ.valid = true ∧ σ.fired = false ∧ σ.completed = false then
        ({ σ with
            src1_ready :=
              if σ.instruction.src_reg1 = -1 then true
              else s.register_ready σ.instruction.src_reg1
            src2_ready :=
              if σ.instruction.src_reg2 = -1 then true
              else s.register_ready σ.instruction.src_reg2 } : Slot)
        else σ) : Slot).state_updated = σ.state_updated ∧
      ((if σ.valid = true ∧ σ.fired = false ∧ σ.completed = false then
        ({ σ with
            src1_ready :=
              if σ.instruction.src_reg1 = -1 then true
              else s.register_ready σ.instruction.src_reg1
            src2_ready :=
              if σ.instruction.src_reg2 = -1 then true
              else s.register_ready σ.instruction.src_reg2 } : Slot)
        else σ) : Slot).execute_cycles_left =
        σ.execute_cycles_left := by
    intro σ
    by_cases hc : σ.valid = true ∧ σ.fired = false ∧ σ.completed = false
    · rw [if_pos hc]
      exact ⟨rfl, rfl, rfl, rfl, rfl, rfl⟩
    · rw [if_neg hc]
      exact ⟨rfl, rfl, rfl, rfl, rfl, rfl⟩
  have hpres : ∀ σ : Slot,
      ((if σ.valid = true ∧ σ.fired = false ∧ σ.completed = false then
        ({ σ with
            src1_ready :=
              if σ.instruction.src_reg1 = -1 then true
              else s.register_ready σ.instruction.src_reg1
            src2_ready :=
              if σ.instruction.src_reg2 = -1 then true
              else s.register_ready σ.instruction.src_reg2 } : Slot)
        else σ) : Slot).valid = σ.valid ∧
      ((if σ.valid = true ∧ σ.fired = false ∧ σ.completed = false then
        ({ σ with
            src1_ready :=
              if σ.instruction.src_reg1 = -1 then true
              else s.register_ready σ.instruction.src_reg1
            src2_ready :=
              if σ.instruction.src_reg2 = -1 then true
              else s.register_ready σ.instruction.src_reg2 } : Slot)
        else σ) : Slot).instruction.tag = σ.instruction.tag := by
    intro σ
    obtain ⟨e1, e2, _, _, _, _⟩ := hfieldsG σ
    exact ⟨e1, by rw [e2]⟩
  have hVT : validTags
      (schedule_stage_second_half s).reservation_station =
      validTags s.reservation_station :=
    pc5_validTags_map_eq _ hpres s.reservation_station
  have hpend : ∀ c : Int, pendingCnt c s.result_bus_tags
      (schedule_stage_second_half s).reservation_station =
      pendingCnt c s.result_bus_tags s.reservation_station := by
    intro c
    show pendingCnt c s.result_bus_tags (s.reservation_station.map _) =
      _
    unfold pendingCnt
    rw [List.countP_map]
    refine List.countP_congr (fun σ hσ => ?_)
    obtain ⟨e1, e2, e3, _, e5, _⟩ := hfieldsG σ
    show (_ && _ && _ && _ && _) = true ↔ _
    rw [e1, e2, e3, e5]
  refine ⟨⟨?_, ?_, ?_, ?_, ?_, ?_, ?_, ?_, hmid.inflNodup,
    hmid.queueOk, hmid.srcOk, ?_, ?_⟩, ?_⟩
  · intro σ6 hσ6 hv6
    obtain ⟨σ0, hσ0, hσeq⟩ := List.mem_map.mp hσ6
    obtain ⟨e1, e2, e3, e4, e5, e6⟩ := hfieldsG σ0
    rw [hσeq] at e1 e2 e3 e4 e5 e6
    have hv0 : σ0.valid = true := by rw [← e1]; exact hv6
    obtain ⟨o1, o2, o3, o4⟩ := hmid.slotOk σ0 hσ0 hv0
    refine ⟨by rw [e2]; exact o1, ?_, ?_, ?_⟩
    · intro hc
      rw [e3]
      exact o2 (by rw [← e4]; exact hc)
    · intro hf hc
      rw [e6]
      exact o3 (by rw [← e3]; exact hf) (by rw [← e4]; exact hc)
    · intro hsu
      rw [e4]
      exact o4 (by rw [← e5]; exact hsu)
  · rw [hVT]
    show (validTags s.reservation_station ++
      queueTags s.dispatch_queue).Nodup
    exact hmid.nodup
  · rw [hVT]
    show ∀ t ∈ validTags s.reservation_station ++
      queueTags s.dispatch_queue, t < s.global_tag_counter
    exact hmid.tagLt
  · intro t ht
    obtain ⟨σw, hmemw, hvw, htagw, hfw, hcw, hsw⟩ := hmid.busOk t ht
    obtain ⟨e1, e2, e3, e4, e5, _⟩ := hfieldsG σw
    refine ⟨_, List.mem_map.mpr ⟨σw, hmemw, rfl⟩, e1.trans hvw,
      by rw [e2]; exact htagw, e3.trans hfw, e4.trans hcw,
      e5.trans hsw⟩
  · show s.k0_fu_available + pendingCnt 0 s.result_bus_tags
      (schedule_stage_second_half s).reservation_station =
      cfg.K0_FU_COUNT
    rw [hpend 0]
    exact hmid.fuAcct0
  · show s.k1_fu_available + pendingCnt 1 s.result_bus_tags
      (schedule_stage_second_half s).reservation_station =
      cfg.K1_FU_COUNT
    rw [hpend 1]
    exact hmid.fuAcct1
  · show s.k2_fu_available + pendingCnt 2 s.result_bus_tags
      (schedule_stage_second_half s).reservation_station =
      cfg.K2_FU_COUNT
    rw [hpend 2]
    exact hmid.fuAcct2
  · intro r hr w hw
    obtain ⟨σw, hmemw, hvw, htagw, hdw, hsw⟩ := hmid.inflOk r hr w hw
    obtain ⟨e1, e2, _, _, e5, _⟩ := hfieldsG σw
    refine ⟨_, List.mem_map.mpr ⟨σw, hmemw, rfl⟩, e1.trans hvw,
      by rw [e2]; exact htagw, by rw [e2]; exact hdw, e5.trans hsw⟩
  · have hcnt : (schedule_stage_second_half
        s).reservation_station.countP (fun σ => σ.valid) =
        s.reservation_station.countP (fun σ => σ.valid) := by
      rw [← pc5_validTags_length, ← pc5_validTags_length, hVT]
    show (schedule_stage_second_half s).instructions_retired +
      s.dispatch_queue.length +
      (schedule_stage_second_half s).reservation_station.countP
        (fun σ => σ.valid) + s.source.length = N
    rw [hcnt]
    exact hmid.cons
  · show (s.reservation_station.map _).length = cfg.rs_size
    rw [List.length_map]
    exact hmid.rsLen
  · intro hb σ6 hσ6 hv6 hc6
    obtain ⟨σ0, hσ0, hσeq⟩ := List.mem_map.mp hσ6
    obtain ⟨e1, _, _, e4, e5, _⟩ := hfieldsG σ0
    rw [hσeq] at e1 e4 e5
    rw [e5]
    exact hbe hb σ0 hσ0 (by rw [← e1]; exact hv6)
      (by rw [← e4]; exact hc6)

/-- Freeing the state-updated slots changes no in-flight class count. -/
theorem pc5_pending_su2 (c : Int) (bus : List Nat) (rs : List Slot) :
    pendingCnt c bus (rs.map (fun slot =>
      if slot.valid = true ∧ slot.state_updated = true then
        { slot with valid := false, state_updated := false }
      else slot)) = pendingCnt c bus rs := by
  unfold pendingCnt
  rw [List.countP_map]
  refine List.countP_congr (fun σ hσ => ?_)
  simp only [Function.comp_apply]
  by_cases hcond : σ.valid = true ∧ σ.state_updated = true
  · rw [if_pos hcond]
    simp [hcond.2]
  · rw [if_neg hcond]

/-- Retirement phase: from the mid-cycle invariant and bus
exhaustiveness, the boundary invariant holds after the cycle. -/
theorem pc5_inv_su2 (cfg : Cfg) (N : Nat) (s : State)
    (hmid : MidInv cfg N s) (hbe : BE s) :
    Inv cfg N (state_update_stage_second_half s) := by
  have hfieldsG : ∀ σ : Slot,
      ((if σ.valid = true ∧ σ.state_updated = true then
        ({ σ with valid := false, state_updated := false } : Slot)
        else σ) = σ ∧ ¬(σ.valid = true ∧ σ.state_updated = true)) ∨
      ((if σ.valid = true ∧ σ.state_updated = true then
        ({ σ with valid := false, state_updated := false } : Slot)
        else σ) = { σ with valid := false, state_updated := false } ∧
        σ.valid = true ∧ σ.state_updated = true) := by
    intro σ
    by_cases hc : σ.valid = true ∧ σ.state_updated = true
    · exact Or.inr ⟨if_pos hc, hc⟩
    · exact Or.inl ⟨if_neg hc, hc⟩
  have hrseq : (state_update_stage_second_half s).reservation_station =
      s.reservation_station.map (fun slot =>
        if slot.valid = true ∧ slot.state_updated = true then
          { slot with valid := false, state_updated := false }
        else slot) := rfl
  have hsub : List.Sublist (validTags
      (state_update_stage_second_half s).reservation_station)
      (validTags s.reservation_station) := by
    rw [hrseq]
    refine pc5_validTags_map_sublist _ ?_ s.reservation_station
    intro σ
    rcases hfieldsG σ with ⟨heq, _⟩ | ⟨heq, _⟩
    · exact Or.inl (by rw [heq]; exact ⟨rfl, rfl⟩)
    · exact Or.inr (by rw [heq])
  refine ⟨?_, ?_, ?_, ?_, ?_, ?_, ?_, ?_, ?_, ?_, hmid.queueOk,
    hmid.srcOk, ?_, ?_⟩
  · intro σ7 hσ7 hv7
    rw [hrseq] at hσ7
    obtain ⟨σ0, hσ0, hσeq⟩ := List.mem_map.mp hσ7
    rcases hfieldsG σ0 with ⟨heq, hnc⟩ | ⟨heq, hc⟩
    · rw [heq] at hσeq
      rw [← hσeq] at hv7 ⊢
      obtain ⟨o1, o2, o3, _⟩ := hmid.slotOk σ0 hσ0 hv7
      refine ⟨o1, o2, o3, ?_⟩
      cases hsu : σ0.state_updated
      · rfl
      · exact absurd ⟨hv7, hsu⟩ hnc
    · rw [heq] at hσeq
      rw [← hσeq] at hv7
      exact absurd hv7 (by simp)
  · refine List.Nodup.sublist ?_ hmid.nodup
    exact List.Sublist.append hsub (List.Sublist.refl _)
  · intro t ht
    refine hmid.tagLt t ?_
    rcases List.mem_append.mp ht with hl | hr
    · exact List.mem_append.mpr (Or.inl (hsub.mem hl))
    · exact List.mem_append.mpr (Or.inr hr)
  · intro t ht
    obtain ⟨σw, hmemw, hvw, htagw, hfw, hcw, hsw⟩ := hmid.busOk t ht
    have hkeep : (if σw.valid = true ∧ σw.state_updated = true then
        ({ σw with valid := false, state_updated := false } : Slot)
        else σw) = σw := by
      refine if_neg ?_
      intro hcon
      rw [hsw] at hcon
      exact absurd hcon.2 (by simp)
    refine ⟨σw, ?_, hvw, htagw, hfw, hcw, hsw⟩
    rw [hrseq]
    exact List.mem_map.mpr ⟨σw, hmemw, hkeep⟩
  · intro hb σ7 hσ7 hv7 hc7
    rw [hrseq] at hσ7
    obtain ⟨σ0, hσ0, hσeq⟩ := List.mem_map.mp hσ7
    rcases hfieldsG σ0 with ⟨heq, hnc⟩ | ⟨heq, hc⟩
    · rw [heq] at hσeq
      rw [← hσeq] at hv7 hc7
      have := hbe hb σ0 hσ0 hv7 hc7
      exact absurd ⟨hv7, this⟩ hnc
    · rw [heq] at hσeq
      rw [← hσeq] at hv7
      exact absurd hv7 (by simp)
  · show s.k0_fu_available + pendingCnt 0 s.result_bus_tags
      (state_update_stage_second_half s).reservation_station =
      cfg.K0_FU_COUNT
    rw [hrseq, pc5_pending_su2]
    exact hmid.fuAcct0
  · show s.k1_fu_available + pendingCnt 1 s.result_bus_tags
      (state_update_stage_second_half s).reservation_station =
      cfg.K1_FU_COUNT
    rw [hrseq, pc5_pending_su2]
    exact hmid.fuAcct1
  · show s.k2_fu_available + pendingCnt 2 s.result_bus_tags
      (state_update_stage_second_half s).reservation_station =
      cfg.K2_FU_COUNT
    rw [hrseq, pc5_pending_su2]
    exact hmid.fuAcct2
  · intro r hr w hw
    obtain ⟨σw, hmemw, hvw, htagw, hdw, hsw⟩ := hmid.inflOk r hr w hw
    have hkeep : (if σw.valid = true ∧ σw.state_updated = true then
        ({ σw with valid := false, state_updated := false } : Slot)
        else σw) = σw := by
      refine if_neg ?_
      intro hcon
      rw [hsw] at hcon
      exact absurd hcon.2 (by simp)
    refine ⟨σw, ?_, hvw, htagw, hdw, hsw⟩
    rw [hrseq]
    exact List.mem_map.mpr ⟨σw, hmemw, hkeep⟩
  · exact hmid.inflNodup
  · have hsplit := pc5_countP_and_split (fun σ : Slot => σ.valid)
      (fun σ : Slot => σ.state_updated) s.reservation_station
    have hkept : (state_update_stage_second_half
        s).reservation_station.countP (fun σ => σ.valid) =
        s.reservation_station.countP (fun σ =>
          σ.valid && !σ.state_updated) := by
      rw [hrseq, List.countP_map]
      refine List.countP_congr (fun σ hσ => ?_)
      simp only [Function.comp_apply]
      rcases hfieldsG σ with ⟨heq, hnc⟩ | ⟨heq, hc⟩
      · rw [heq]
        cases hv : σ.valid
        · simp [hv]
        · have hsu : σ.state_updated = false := by
            cases hs2 : σ.state_updated
            · rfl
            · exact absurd ⟨hv, hs2⟩ hnc
          simp [hv, hsu]
      · rw [heq]
        simp [hc.1, hc.2]
    have hret : (state_update_stage_second_half
        s).instructions_retired = s.instructions_retired +
        s.reservation_station.countP (fun σ =>
          σ.valid && σ.state_updated) := rfl
    show (state_update_stage_second_half s).instructions_retired +
      s.dispatch_queue.length +
      (state_update_stage_second_half s).reservation_station.countP
        (fun σ => σ.valid) + s.source.length = N
    rw [hret, hkept]
    have hcons := hmid.cons
    omega
  · rw [hrseq, List.length_map]
    exact hmid.rsLen

/-- C5 core preservation: one full cycle of procsim.cpp keeps the run
invariant. -/
theorem pc5_inv_step (cfg : Cfg) (N : Nat) (s : State)
    (hR : 1 ≤ cfg.RESULT_BUSES) (hinv : Inv cfg N s) :
    Inv cfg N (cycleStep cfg s) := by
  have h0 := pc5_mid_of_inv cfg N s hinv
  obtain ⟨h1, hb1⟩ := pc5_mid_su1 cfg N (tick s) h0
  obtain ⟨h2, he2⟩ := pc5_mid_ex1 cfg N _ hR h1 hb1
  obtain ⟨h3, he3⟩ := pc5_mid_sch1 cfg N _ h2 he2
  obtain ⟨h4, he4⟩ := pc5_mid_dis1 cfg N _ h3 he3
  obtain ⟨h5, he5⟩ := pc5_mid_fetch cfg N _ h4 he4
  obtain ⟨h6, he6⟩ := pc5_mid_sch2 cfg N _ h5 he5
  exact pc5_inv_su2 cfg N _ h6 he6

end Procsim.PC

namespace Procsim.PC

/-- The cycle tick does not change the measure. -/
theorem pc5_tick_M (s : State) : M (tick s) = M s := rfl

/-- The state-update phase never raises the measure. -/
theorem pc5_su1_M_le (s : State)
    (hnd : (validTags s.reservation_station).Nodup)
    (hbusW : ∀ t ∈ s.result_bus_tags, ∃ σ ∈ s.reservation_station,
      σ.valid = true ∧ σ.instruction.tag = t) :
    M (state_update_stage_first_half s) ≤ M s := by
  obtain ⟨hq, hsrc, _, _, _, _, _, _, _⟩ := pc5_su1_comps s
  unfold M
  rw [hq, hsrc, pc5_su1_rs s hnd hbusW]
  have hpot : rsPot (s.reservation_station.map (fun σ =>
      if σ.valid = true ∧ σ.instruction.tag ∈ s.result_bus_tags then
        { σ with state_updated := true } else σ)) ≤
      rsPot s.reservation_station := by
    refine pc5_rsPot_map_le _ _ (fun σ hσ => ?_)
    by_cases hc : σ.valid = true ∧ σ.instruction.tag ∈ s.result_bus_tags
    · rw [if_pos hc]
      exact pc5_slotPot_mark σ
    · rw [if_neg hc]
  omega

/-- With a nonempty bus, the state-update phase strictly lowers the
measure. -/
theorem pc5_su1_M_lt (s : State)
    (hnd : (validTags s.reservation_station).Nodup)
    (hbusOk : ∀ t ∈ s.result_bus_tags, ∃ σ ∈ s.reservation_station,
      σ.valid = true ∧ σ.instruction.tag = t ∧ σ.fired = true ∧
      σ.completed = true ∧ σ.state_updated = false)
    (hne : s.result_bus_tags ≠ []) :
    M (state_update_stage_first_half s) < M s := by
  obtain ⟨hq, hsrc, _, _, _, _, _, _, _⟩ := pc5_su1_comps s
  have hbusW : ∀ t ∈ s.result_bus_tags, ∃ σ ∈ s.reservation_station,
      σ.valid = true ∧ σ.instruction.tag = t := by
    intro t ht
    obtain ⟨σ, hm, hv, htag, _, _, _⟩ := hbusOk t ht
    exact ⟨σ, hm, hv, htag⟩
  unfold M
  rw [hq, hsrc, pc5_su1_rs s hnd hbusW]
  have hpot : rsPot (s.reservation_station.map (fun σ =>
      if σ.valid = true ∧ σ.instruction.tag ∈ s.result_bus_tags then
        { σ with state_updated := true } else σ)) <
      rsPot s.reservation_station := by
    refine pc5_rsPot_map_lt _ _ (fun σ hσ => ?_) ?_
    · by_cases hc : σ.valid = true ∧
          σ.instruction.tag ∈ s.result_bus_tags
      · rw [if_pos hc]
        exact pc5_slotPot_mark σ
      · rw [if_neg hc]
    · rcases hb : s.result_bus_tags with _ | ⟨t0, brest⟩
      · exact absurd hb hne
      · obtain ⟨σ, hm, hv, htag, hf, hc, hs⟩ := hbusOk t0
          (by rw [hb]; exact List.mem_cons_self t0 brest)
        refine ⟨σ, hm, ?_⟩
        have hmem0 : σ.instruction.tag ∈ t0 :: brest := by
          rw [htag]
          exact List.mem_cons_self t0 brest
        have hcond : σ.valid = true ∧
            σ.instruction.tag ∈ t0 :: brest := ⟨hv, hmem0⟩
        rw [if_pos hcond]
        exact pc5_slotPot_mark_lt σ hv hf hc hs
  omega

/-- The execute phase never raises the measure. -/
theorem pc5_ex1_M_le (cfg : Cfg) (s : State) :
    M (execute_stage_first_half cfg s) ≤ M s := by
  unfold M
  show 6 * s.source.length + 5 * s.dispatch_queue.length +
    rsPot (s.reservation_station.map (exec_tick s.current_cycle)) ≤ _
  have hpot := pc5_rsPot_map_le (exec_tick s.current_cycle)
    s.reservation_station (fun σ _ => pc5_slotPot_exec_tick
      s.current_cycle σ)
  omega

/-- The fire phase never raises the measure. -/
theorem pc5_sch1_M_le (s : State) :
    M (schedule_stage_first_half s) ≤ M s := by
  unfold M
  show 6 * s.source.length + 5 * s.dispatch_queue.length +
    rsPot (fire_pairs_go s.current_cycle _ s.reservation_station
      s.register_ready s.register_last_scheduled_writer
      s.k0_fu_available s.k1_fu_available s.k2_fu_available).1 ≤ _
  have hpot := pc5_fire_fold_rsPot s.current_cycle
    ((collect_ready s.register_last_state_updated
      s.register_in_flight_writers 0
      s.reservation_station).insertionSort Procsim.pairLe)
    s.reservation_station s.register_ready
    s.register_last_scheduled_writer s.k0_fu_available
    s.k1_fu_available s.k2_fu_available
  omega

/-- The dispatch phase never raises the measure. -/
theorem pc5_dis1_M_le (s : State) :
    M (dispatch_stage_first_half s) ≤ M s := by
  unfold M
  show 6 * s.source.length +
    5 * (dispatch_first_go s.current_cycle s.reservation_station
      s.dispatch_queue s.register_in_flight_writers
      s.instruction_cycles).2.1.length +
    rsPot (dispatch_first_go s.current_cycle s.reservation_station
      s.dispatch_queue s.register_in_flight_writers
      s.instruction_cycles).1 ≤ _
  have := pc5_dis1_measure s.current_cycle s.reservation_station
    s.dispatch_queue s.register_in_flight_writers s.instruction_cycles
  omega

/-- The fetch stage never raises the measure. -/
theorem pc5_fetch_stage_M_le (cfg : Cfg) (s : State) :
    M (fetch_stage cfg s) ≤ M s :=
  pc5_fetch_M_le s.current_cycle cfg.FETCH_RATE s

/-- The wakeup-refresh phase keeps the measure. -/
theorem pc5_sch2_M_le (s : State) :
    M (schedule_stage_second_half s) ≤ M s := by
  unfold M
  show 6 * s.source.length + 5 * s.dispatch_queue.length +
    rsPot (s.reservation_station.map _) ≤ _
  have hpot : rsPot (schedule_stage_second_half
      s).reservation_station ≤ rsPot s.reservation_station := by
    refine pc5_rsPot_map_le _ _ (fun σ hσ => ?_)
    by_cases hc : σ.valid = true ∧ σ.fired = false ∧
        σ.completed = false
    · rw [if_pos hc]
      exact Nat.le_of_eq (pc5_slotPot_sch2 σ _ _)
    · rw [if_neg hc]
  have hpot2 : rsPot ((schedule_stage_second_half
      s).reservation_station) = rsPot (s.reservation_station.map
      (fun slot => if slot.valid = true ∧ slot.fired = false ∧
          slot.completed = false then
        { slot with
            src1_ready :=
              if slot.instruction.src_reg1 = -1 then true
              else s.register_ready slot.instruction.src_reg1
            src2_ready :=
              if slot.instruction.src_reg2 = -1 then true
              else s.register_ready slot.instruction.src_reg2 }
      else slot)) := rfl
  rw [hpot2] at hpot
  omega

/-- The retirement phase never raises the measure. -/
theorem pc5_su2_M_le (s : State) :
    M (state_update_stage_second_half s) ≤ M s := by
  unfold M
  show 6 * s.source.length + 5 * s.dispatch_queue.length +
    rsPot (s.reservation_station.map _) ≤ _
  have hpot : rsPot (s.reservation_station.map (fun slot =>
      if slot.valid = true ∧ slot.state_updated = true then
        { slot with valid := false, state_updated := false }
      else slot)) ≤ rsPot s.reservation_station := by
    refine pc5_rsPot_map_le _ _ (fun σ hσ => ?_)
    exact pc5_slotPot_su2 σ
  omega

end Procsim.PC

namespace Procsim.PC

/-- With an empty result bus, the state-update first half is a no-op. -/
theorem pc5_su1_nil (s : State) (h : s.result_bus_tags = []) :
    state_update_stage_first_half s = s := by
  have h1 : state_update_stage_first_half s =
      { s with result_bus_tags := [] } := by
    unfold state_update_stage_first_half
    rw [h]
    rfl
  rw [h1, ← h]

/-- Without an occupied completed unreported slot, no broadcast candidate
is collected. -/
theorem pc5_collect_completed_nil (rs : List Slot)
    (h : ∀ σ ∈ rs, σ.valid = true → σ.completed = true →
      σ.state_updated = true) :
    ∀ i, collect_completed i rs = [] := by
  induction rs with
  | nil => intro i; rfl
  | cons head rest ih =>
    intro i
    rw [collect_completed]
    have hn : ¬(head.valid = true ∧ head.completed = true ∧
        head.state_updated = false) := by
      intro hcon
      have := h head (List.mem_cons_self head rest) hcon.1 hcon.2.1
      rw [this] at hcon
      exact absurd hcon.2.2 (by decide)
    rw [if_neg hn]
    exact ih (fun σ hσ => h σ (List.mem_cons_of_mem head hσ)) (i + 1)

/-- Without an occupied slot, no fire candidate is collected. -/
theorem pc5_collect_ready_nil (lsu : Int → Nat)
    (infl : Int → List Nat) (rs : List Slot)
    (h : ∀ σ ∈ rs, σ.valid = false) :
    ∀ i, collect_ready lsu infl i rs = [] := by
  induction rs with
  | nil => intro i; rfl
  | cons head rest ih =>
    intro i
    rw [collect_ready]
    have hn : ¬(head.valid = true ∧ head.fired = false ∧
        head.completed = false ∧
        src_ready head.instruction.src_reg1 head.instruction.tag lsu
          infl = true ∧
        src_ready head.instruction.src_reg2 head.instruction.tag lsu
          infl = true) := by
      intro hcon
      have := h head (List.mem_cons_self head rest)
      rw [this] at hcon
      exact absurd hcon.1 (by decide)
    rw [if_neg hn]
    exact ih (fun σ hσ => h σ (List.mem_cons_of_mem head hσ)) (i + 1)

/-- Every occupied-slot tag is carried by some occupied slot. -/
theorem pc5_validTags_mem_inv (rs : List Slot) (t : Nat)
    (h : t ∈ validTags rs) :
    ∃ σ ∈ rs, σ.valid = true ∧ σ.instruction.tag = t := by
  unfold validTags at h
  rw [List.mem_filterMap] at h
  obtain ⟨σ, hm, hf⟩ := h
  by_cases hv : σ.valid = true
  · rw [if_pos hv] at hf
    injection hf with hf
    exact ⟨σ, hm, hv, hf⟩
  · rw [if_neg hv] at hf
    exact absurd hf (by simp)

/-- An instruction no in-flight writer of its source register precedes is
ready to read that register. -/
theorem pc5_min_src_ready (r : Int) (t : Nat) (lsu : Int → Nat)
    (infl : Int → List Nat)
    (h : r ≠ -1 → ∀ w ∈ infl r, t ≤ w) :
    src_ready r t lsu infl = true := by
  unfold src_ready
  by_cases hr : r = -1
  · rw [if_pos hr]
  · rw [if_neg hr]
    have hw := h hr
    by_cases hle : t ≤ lsu r
    · rw [if_pos hle]
      simp only [Bool.not_eq_true', List.any_eq_false,
        Bool.and_eq_true, decide_eq_true_eq, not_and]
      intro w hwm hlt
      have := hw w hwm
      omega
    · rw [if_neg hle]
      by_cases hc : ((infl r).isEmpty ||
          decide (maxElem (infl r) ≤ lsu r)) = true
      · rw [if_pos hc]
      · rw [if_neg hc]
        simp only [Bool.not_eq_true', List.any_eq_false,
          Bool.and_eq_true, decide_eq_true_eq, not_and]
        intro w hwm hlt
        have := hw w hwm
        omega

/-- Admitting the head of a nonempty queue into a free leading slot
strictly lowers the dispatch measure. -/
theorem pc5_dis1_measure_lt (c : Nat) (σ0 : Slot) (rest : List Slot)
    (inst : ProcInst) (qt : List ProcInst) (infl : Int → List Nat)
    (st : Nat → Stamps) (hv : σ0.valid = false) :
    5 * (dispatch_first_go c (σ0 :: rest) (inst :: qt) infl
        st).2.1.length +
      rsPot (dispatch_first_go c (σ0 :: rest) (inst :: qt) infl
        st).1 <
      5 * (inst :: qt).length + rsPot (σ0 :: rest) := by
  rw [dispatch_first_go]
  simp only []
  rw [if_neg (by simp [hv])]
  have hrec := pc5_dis1_measure c rest qt
    (if inst.dest_reg ≠ -1 then
      Procsim.updFun infl inst.dest_reg
        (setInsert inst.tag (infl inst.dest_reg))
    else infl)
    (Procsim.updFun st inst.tag { st inst.tag with schedule := c + 1 })
  have hpot0 : slotPot σ0 = 0 := by
    unfold slotPot
    rw [if_pos hv]
  have hpotNew : ∀ σn : Slot, σn.valid = true → σn.fired = false →
      slotPot σn = 4 := by
    intro σn h1 h2
    unfold slotPot
    rw [if_neg (by rw [h1]; exact fun hcon => absurd hcon (by decide)),
      if_pos h2]
  unfold rsPot at hrec ⊢
  simp only [List.map_cons, List.sum_cons, List.length_cons]
  rw [hpot0, hpotNew _ rfl rfl]
  dsimp only at hrec ⊢
  omega

end Procsim.PC

namespace Procsim.PC

/-- The two second-half phases never raise the measure. -/
theorem pc5_tailA (s : State) :
    M (state_update_stage_second_half
      (schedule_stage_second_half s)) ≤ M s :=
  le_trans (pc5_su2_M_le _) (pc5_sch2_M_le s)

/-- From fetch to the end of the cycle the measure never rises. -/
theorem pc5_tailB (cfg : Cfg) (s : State) :
    M (state_update_stage_second_half (schedule_stage_second_half
      (fetch_stage cfg s))) ≤ M s :=
  le_trans (pc5_tailA _) (pc5_fetch_stage_M_le cfg s)

/-- From dispatch to the end of the cycle the measure never rises. -/
theorem pc5_tailC (cfg : Cfg) (s : State) :
    M (state_update_stage_second_half (schedule_stage_second_half
      (fetch_stage cfg (dispatch_stage_first_half s)))) ≤ M s :=
  le_trans (pc5_tailB cfg _) (pc5_dis1_M_le s)

/-- From the fire phase to the end of the cycle the measure never
rises. -/
theorem pc5_tailD (cfg : Cfg) (s : State) :
    M (state_update_stage_second_half (schedule_stage_second_half
      (fetch_stage cfg (dispatch_stage_first_half
        (schedule_stage_first_half s))))) ≤ M s :=
  le_trans (pc5_tailC cfg _) (pc5_sch1_M_le s)

/-- From the execute phase to the end of the cycle the measure never
rises. -/
theorem pc5_tailE (cfg : Cfg) (s : State) :
    M (state_update_stage_second_half (schedule_stage_second_half
      (fetch_stage cfg (dispatch_stage_first_half
        (schedule_stage_first_half
          (execute_stage_first_half cfg s)))))) ≤ M s :=
  le_trans (pc5_tailD cfg _) (pc5_ex1_M_le cfg s)

/-- With pending source instructions a cycle strictly lowers the
measure: the fetch stage consumes at least one of them. -/
theorem pc5_case_fetch (cfg : Cfg) (N : Nat) (s : State)
    (hF : 1 ≤ cfg.FETCH_RATE) (hinv : Inv cfg N s)
    (hsrc : s.source ≠ []) :
    M (cycleStep cfg s) < M s := by
  have hndv : (validTags s.reservation_station).Nodup :=
    List.Nodup.of_append_left hinv.nodup
  have hbusW : ∀ t ∈ s.result_bus_tags, ∃ σ ∈ s.reservation_station,
      σ.valid = true ∧ σ.instruction.tag = t := by
    intro t ht
    obtain ⟨σ, hm, hv, htag, _, _, _⟩ := hinv.busOk t ht
    exact ⟨σ, hm, hv, htag⟩
  have h4src : (dispatch_stage_first_half (schedule_stage_first_half
      (execute_stage_first_half cfg (state_update_stage_first_half
        (tick s))))).source = s.source :=
    (pc5_su1_comps (tick s)).2.1
  have hx : (dispatch_stage_first_half (schedule_stage_first_half
      (execute_stage_first_half cfg (state_update_stage_first_half
        (tick s))))).source ≠ [] := by
    rw [h4src]
    exact hsrc
  show M (state_update_stage_second_half (schedule_stage_second_half
    (fetch_stage cfg (dispatch_stage_first_half
      (schedule_stage_first_half (execute_stage_first_half cfg
        (state_update_stage_first_half (tick s)))))))) < M s
  refine Nat.lt_of_le_of_lt (pc5_tailA _) ?_
  refine Nat.lt_of_lt_of_le
    (pc5_fetch_M_lt _ cfg.FETCH_RATE _ hF hx) ?_
  calc M (dispatch_stage_first_half (schedule_stage_first_half
        (execute_stage_first_half cfg (state_update_stage_first_half
          (tick s)))))
      ≤ M (schedule_stage_first_half (execute_stage_first_half cfg
          (state_update_stage_first_half (tick s)))) :=
        pc5_dis1_M_le _
    _ ≤ M (execute_stage_first_half cfg
          (state_update_stage_first_half (tick s))) :=
        pc5_sch1_M_le _
    _ ≤ M (state_update_stage_first_half (tick s)) :=
        pc5_ex1_M_le cfg _
    _ ≤ M (tick s) := pc5_su1_M_le (tick s) hndv hbusW
    _ = M s := pc5_tick_M s

/-- With a nonempty result bus a cycle strictly lowers the measure: the
state-update phase marks the broadcast slots. -/
theorem pc5_case_bus (cfg : Cfg) (N : Nat) (s : State)
    (hinv : Inv cfg N s) (hbus : s.result_bus_tags ≠ []) :
    M (cycleStep cfg s) < M s := by
  have hndv : (validTags s.reservation_station).Nodup :=
    List.Nodup.of_append_left hinv.nodup
  show M (state_update_stage_second_half (schedule_stage_second_half
    (fetch_stage cfg (dispatch_stage_first_half
      (schedule_stage_first_half (execute_stage_first_half cfg
        (state_update_stage_first_half (tick s)))))))) < M s
  refine Nat.lt_of_le_of_lt (pc5_tailE cfg _) ?_
  refine Nat.lt_of_lt_of_le
    (pc5_su1_M_lt (tick s) hndv hinv.busOk hbus) ?_
  exact Nat.le_of_eq (pc5_tick_M s)

end Procsim.PC

namespace Procsim.PC

/-- With an empty bus and an occupied executing slot a cycle strictly
lowers the measure: the execute phase completes that slot. -/
theorem pc5_case_exec (cfg : Cfg) (N : Nat) (s : State)
    (hinv : Inv cfg N s) (hbus : s.result_bus_tags = [])
    (σ : Slot) (hm : σ ∈ s.reservation_station) (hv : σ.valid = true)
    (hf : σ.fired = true) (hc : σ.completed = false) :
    M (cycleStep cfg s) < M s := by
  have hsu : state_update_stage_first_half (tick s) = tick s :=
    pc5_su1_nil (tick s) hbus
  have hl : σ.execute_cycles_left = 1 :=
    (hinv.slotOk σ hm hv).2.2.1 hf hc
  have hex : M (execute_stage_first_half cfg (tick s)) <
      M (tick s) := by
    unfold M
    show 6 * s.source.length + 5 * s.dispatch_queue.length +
      rsPot (s.reservation_station.map
        (exec_tick (tick s).current_cycle)) <
      6 * s.source.length + 5 * s.dispatch_queue.length +
      rsPot s.reservation_station
    have hpot := pc5_rsPot_map_lt (exec_tick (tick s).current_cycle)
      s.reservation_station
      (fun τ _ => pc5_slotPot_exec_tick (tick s).current_cycle τ)
      ⟨σ, hm, pc5_slotPot_exec_tick_lt (tick s).current_cycle σ
        hv hf hc hl⟩
    omega
  show M (state_update_stage_second_half (schedule_stage_second_half
    (fetch_stage cfg (dispatch_stage_first_half
      (schedule_stage_first_half (execute_stage_first_half cfg
        (state_update_stage_first_half (tick s)))))))) < M s
  rw [hsu]
  refine Nat.lt_of_le_of_lt (pc5_tailD cfg _) ?_
  exact Nat.lt_of_lt_of_le hex (Nat.le_of_eq (pc5_tick_M s))

end Procsim.PC

namespace Procsim.PC

/-- With an empty bus, no executing or completed slot, but at least one
occupied slot, a cycle strictly lowers the measure: the fire phase fires
the head of the sorted candidate list (the minimum occupied tag is always
a candidate, and every pool with a pending instruction is full). -/
theorem pc5_case_fire (cfg : Cfg) (N : Nat) (s : State)
    (hinv : Inv cfg N s) (hbus : s.result_bus_tags = [])
    (hnofc : ¬∃ σ ∈ s.reservation_station, σ.valid = true ∧
      σ.fired = true ∧ σ.completed = false)
    (hvalid : ∃ σ ∈ s.reservation_station, σ.valid = true) :
    M (cycleStep cfg s) < M s := by
  have hnovc : ∀ σ ∈ s.reservation_station, σ.valid = true →
      σ.completed = false := by
    intro σ hm hv
    cases hc : σ.completed
    · rfl
    · have hsu := hinv.busEmpty hbus σ hm hv hc
      have hnsu := (hinv.slotOk σ hm hv).2.2.2
      rw [hnsu] at hsu
      exact absurd hsu (by decide)
  have hnof : ∀ σ ∈ s.reservation_station, σ.valid = true →
      σ.fired = false := by
    intro σ hm hv
    cases hf : σ.fired
    · rfl
    · exact absurd ⟨σ, hm, hv, hf, hnovc σ hm hv⟩ hnofc
  have hsu : state_update_stage_first_half (tick s) = tick s :=
    pc5_su1_nil (tick s) hbus
  have hmapid : s.reservation_station.map
      (exec_tick (tick s).current_cycle) = s.reservation_station := by
    apply pc5_map_id_of
    intro σ hm
    unfold exec_tick
    rw [if_neg]
    intro hcon
    have hf := hnof σ hm hcon.1
    rw [hf] at hcon
    exact absurd hcon.2.1 (by decide)
  have hcands : collect_completed 0 (s.reservation_station.map
      (exec_tick (tick s).current_cycle)) = [] := by
    rw [hmapid]
    exact pc5_collect_completed_nil s.reservation_station
      (hinv.busEmpty hbus) 0
  have hrsu : (execute_stage_first_half cfg
      (tick s)).reservation_station = s.reservation_station := by
    show s.reservation_station.map (exec_tick (tick s).current_cycle) =
      s.reservation_station
    exact hmapid
  have hk0u : (execute_stage_first_half cfg (tick s)).k0_fu_available =
      s.k0_fu_available := by
    show (bus_push_go cfg.RESULT_BUSES ((collect_completed 0
      (s.reservation_station.map
        (exec_tick (tick s).current_cycle))).insertionSort
        Procsim.bcastLe)
      (s.reservation_station.map (exec_tick (tick s).current_cycle)) 0
      s.result_bus_tags s.k0_fu_available s.k1_fu_available
      s.k2_fu_available).2.1 = s.k0_fu_available
    rw [hcands]
    rfl
  have hk1u : (execute_stage_first_half cfg (tick s)).k1_fu_available =
      s.k1_fu_available := by
    show (bus_push_go cfg.RESULT_BUSES ((collect_completed 0
      (s.reservation_station.map
        (exec_tick (tick s).current_cycle))).insertionSort
        Procsim.bcastLe)
      (s.reservation_station.map (exec_tick (tick s).current_cycle)) 0
      s.result_bus_tags s.k0_fu_available s.k1_fu_available
      s.k2_fu_available).2.2.1 = s.k1_fu_available
    rw [hcands]
    rfl
  have hk2u : (execute_stage_first_half cfg (tick s)).k2_fu_available =
      s.k2_fu_available := by
    show (bus_push_go cfg.RESULT_BUSES ((collect_completed 0
      (s.reservation_station.map
        (exec_tick (tick s).current_cycle))).insertionSort
        Procsim.bcastLe)
      (s.reservation_station.map (exec_tick (tick s).current_cycle)) 0
      s.result_bus_tags s.k0_fu_available s.k1_fu_available
      s.k2_fu_available).2.2.2 = s.k2_fu_available
    rw [hcands]
    rfl
  obtain ⟨σv, hσvm, hσvv⟩ := hvalid
  have htne : validTags s.reservation_station ≠ [] :=
    List.ne_nil_of_mem (pc5_mem_validTags _ σv hσvm hσvv)
  obtain ⟨tmin, htm, hmin⟩ := pc5_exists_min _ htne
  obtain ⟨σt, hσtm, hσtv, hσttag⟩ := pc5_validTags_mem_inv _ _ htm
  obtain ⟨⟨k, hk⟩, hgetk⟩ := List.mem_iff_get.mp hσtm
  have hgetq : s.reservation_station.get? k = some σt := by
    rw [List.get?_eq_get hk, hgetk]
  have hready : ∀ r : Int, r ≠ -1 →
      ∀ w ∈ s.register_in_flight_writers r, tmin ≤ w := by
    intro r hr w hw
    obtain ⟨σw, hσwm, hσwv, hσwtag, _, _⟩ := hinv.inflOk r hr w hw
    have hwm : w ∈ validTags s.reservation_station := by
      rw [← hσwtag]
      exact pc5_mem_validTags _ σw hσwm hσwv
    exact hmin w hwm
  have hr1 : src_ready σt.instruction.src_reg1 σt.instruction.tag
      s.register_last_state_updated s.register_in_flight_writers =
      true := by
    apply pc5_min_src_ready
    intro hr w hw
    rw [hσttag]
    exact hready _ hr w hw
  have hr2 : src_ready σt.instruction.src_reg2 σt.instruction.tag
      s.register_last_state_updated s.register_in_flight_writers =
      true := by
    apply pc5_min_src_ready
    intro hr w hw
    rw [hσttag]
    exact hready _ hr w hw
  have hmemcr : (σt.instruction.tag, k) ∈ collect_ready
      s.register_last_state_updated s.register_in_flight_writers 0
      s.reservation_station :=
    (pc5_collect_ready_mem _ _ _ 0 _ _).mpr
      ⟨k, σt, by omega, hgetq, hσtv, hnof σt hσtm hσtv,
        hnovc σt hσtm hσtv, hr1, hr2, rfl⟩
  have hmem' : (σt.instruction.tag, k) ∈ (collect_ready
      s.register_last_state_updated s.register_in_flight_writers 0
      s.reservation_station).insertionSort Procsim.pairLe :=
    ((List.perm_insertionSort Procsim.pairLe _).mem_iff).mpr hmemcr
  rcases hsorted : (collect_ready s.register_last_state_updated
      s.register_in_flight_writers 0
      s.reservation_station).insertionSort Procsim.pairLe with
    _ | ⟨⟨th, jh⟩, rest⟩
  · rw [hsorted] at hmem'
    exact absurd hmem' (List.not_mem_nil _)
  · have hhd : (th, jh) ∈ collect_ready s.register_last_state_updated
        s.register_in_flight_writers 0 s.reservation_station := by
      have hh : (th, jh) ∈ (collect_ready s.register_last_state_updated
          s.register_in_flight_writers 0
          s.reservation_station).insertionSort Procsim.pairLe := by
        rw [hsorted]
        exact List.mem_cons_self _ _
      exact ((List.perm_insertionSort Procsim.pairLe _).mem_iff).mp hh
    obtain ⟨kh, σh, hjh, hgeth, hvh, hnfh, hnch, hsr1, hsr2, htagh⟩ :=
      (pc5_collect_ready_mem _ _ _ 0 _ _).mp hhd
    have hjk : jh = kh := by omega
    have hσhm : σh ∈ s.reservation_station := List.get?_mem hgeth
    have hop := (hinv.slotOk σh hσhm hvh).1
    have hpend0 : pendingCnt 0 s.result_bus_tags
        s.reservation_station = 0 := by
      unfold pendingCnt
      rw [List.countP_eq_zero]
      intro σ hm
      cases hv : σ.valid
      · simp [hv]
      · simp [hv, hnof σ hm hv]
    have hpend1 : pendingCnt 1 s.result_bus_tags
        s.reservation_station = 0 := by
      unfold pendingCnt
      rw [List.countP_eq_zero]
      intro σ hm
      cases hv : σ.valid
      · simp [hv]
      · simp [hv, hnof σ hm hv]
    have hpend2 : pendingCnt 2 s.result_bus_tags
        s.reservation_station = 0 := by
      unfold pendingCnt
      rw [List.countP_eq_zero]
      intro σ hm
      cases hv : σ.valid
      · simp [hv]
      · simp [hv, hnof σ hm hv]
    have ha0 := hinv.fuAcct0
    have ha1 := hinv.fuAcct1
    have ha2 := hinv.fuAcct2
    rw [hpend0] at ha0
    rw [hpend1] at ha1
    rw [hpend2] at ha2
    have hcap := hop.2
    have hacq : (Procsim.fu_type σh.instruction.op_code = 0 ∧
        0 < s.k0_fu_available) ∨
        (Procsim.fu_type σh.instruction.op_code = 1 ∧
          0 < s.k1_fu_available) ∨
        (Procsim.fu_type σh.instruction.op_code = 2 ∧
          0 < s.k2_fu_available) := by
      rcases hop.1 with ho | ho | ho | ho
      · have hft : Procsim.fu_type σh.instruction.op_code = 1 := by
          rw [ho]
          decide
        rw [hft] at hcap
        have hcv : capOf cfg 1 = cfg.K1_FU_COUNT := rfl
        rw [hcv] at hcap
        exact Or.inr (Or.inl ⟨hft, by omega⟩)
      · have hft : Procsim.fu_type σh.instruction.op_code = 0 := by
          rw [ho]
          decide
        rw [hft] at hcap
        have hcv : capOf cfg 0 = cfg.K0_FU_COUNT := rfl
        rw [hcv] at hcap
        exact Or.inl ⟨hft, by omega⟩
      · have hft : Procsim.fu_type σh.instruction.op_code = 1 := by
          rw [ho]
          decide
        rw [hft] at hcap
        have hcv : capOf cfg 1 = cfg.K1_FU_COUNT := rfl
        rw [hcv] at hcap
        exact Or.inr (Or.inl ⟨hft, by omega⟩)
      · have hft : Procsim.fu_type σh.instruction.op_code = 2 := by
          rw [ho]
          decide
        rw [hft] at hcap
        have hcv : capOf cfg 2 = cfg.K2_FU_COUNT := rfl
        rw [hcv] at hcap
        exact Or.inr (Or.inr ⟨hft, by omega⟩)
    have hgetj : s.reservation_station.get? jh = some σh := by
      rw [hjk]
      exact hgeth
    have hlt : M (schedule_stage_first_half
        (execute_stage_first_half cfg (tick s))) <
        M (execute_stage_first_half cfg (tick s)) := by
      unfold M
      show 6 * s.source.length + 5 * s.dispatch_queue.length +
        rsPot (fire_pairs_go (tick s).current_cycle
          ((collect_ready s.register_last_state_updated
            s.register_in_flight_writers 0
            ((execute_stage_first_half cfg
              (tick s)).reservation_station)).insertionSort
            Procsim.pairLe)
          ((execute_stage_first_half cfg (tick s)).reservation_station)
          s.register_ready s.register_last_scheduled_writer
          ((execute_stage_first_half cfg (tick s)).k0_fu_available)
          ((execute_stage_first_half cfg (tick s)).k1_fu_available)
          ((execute_stage_first_half cfg
            (tick s)).k2_fu_available)).1 <
        6 * s.source.length + 5 * s.dispatch_queue.length +
          rsPot ((execute_stage_first_half cfg
            (tick s)).reservation_station)
      rw [hrsu, hk0u, hk1u, hk2u, hsorted]
      have hfire := pc5_fire_fold_head_lt (tick s).current_cycle th jh
        rest s.reservation_station s.register_ready
        s.register_last_scheduled_writer s.k0_fu_available
        s.k1_fu_available s.k2_fu_available σh hgetj hvh hnfh hnch hacq
      omega
    show M (state_update_stage_second_half (schedule_stage_second_half
      (fetch_stage cfg (dispatch_stage_first_half
        (schedule_stage_first_half (execute_stage_first_half cfg
          (state_update_stage_first_half (tick s)))))))) < M s
    rw [hsu]
    refine Nat.lt_of_le_of_lt (pc5_tailC cfg _) ?_
    exact Nat.lt_of_lt_of_le hlt (Nat.le_trans
      (pc5_ex1_M_le cfg (tick s)) (Nat.le_of_eq (pc5_tick_M s)))

end Procsim.PC

namespace Procsim.PC

/-- With an empty bus, an empty reservation station and a nonempty
dispatch queue, a cycle strictly lowers the measure: the dispatch phase
admits the queue head into the free leading slot. -/
theorem pc5_case_disp (cfg : Cfg) (N : Nat) (s : State)
    (hinv : Inv cfg N s) (hbus : s.result_bus_tags = [])
    (hnoval : ∀ σ ∈ s.reservation_station, σ.valid = false)
    (hq : s.dispatch_queue ≠ []) :
    M (cycleStep cfg s) < M s := by
  have hsu : state_update_stage_first_half (tick s) = tick s :=
    pc5_su1_nil (tick s) hbus
  have hmapid : s.reservation_station.map
      (exec_tick (tick s).current_cycle) = s.reservation_station := by
    apply pc5_map_id_of
    intro σ hm
    unfold exec_tick
    rw [if_neg]
    intro hcon
    rw [hnoval σ hm] at hcon
    exact absurd hcon.1 (by decide)
  have hrsu : (execute_stage_first_half cfg
      (tick s)).reservation_station = s.reservation_station := by
    show s.reservation_station.map (exec_tick (tick s).current_cycle) =
      s.reservation_station
    exact hmapid
  have hcr : collect_ready s.register_last_state_updated
      s.register_in_flight_writers 0 s.reservation_station = [] :=
    pc5_collect_ready_nil _ _ _ hnoval 0
  have hrsv : (schedule_stage_first_half (execute_stage_first_half cfg
      (tick s))).reservation_station = s.reservation_station := by
    show (fire_pairs_go (tick s).current_cycle
      ((collect_ready s.register_last_state_updated
        s.register_in_flight_writers 0
        ((execute_stage_first_half cfg
          (tick s)).reservation_station)).insertionSort
        Procsim.pairLe)
      ((execute_stage_first_half cfg (tick s)).reservation_station)
      s.register_ready s.register_last_scheduled_writer
      ((execute_stage_first_half cfg (tick s)).k0_fu_available)
      ((execute_stage_first_half cfg (tick s)).k1_fu_available)
      ((execute_stage_first_half cfg (tick s)).k2_fu_available)).1 =
      s.reservation_station
    rw [hrsu, hcr]
    rfl
  obtain ⟨inst, qt, hqe⟩ : ∃ a b, s.dispatch_queue = a :: b := by
    rcases hx : s.dispatch_queue with _ | ⟨a, b⟩
    · exact absurd hx hq
    · exact ⟨a, b, rfl⟩
  obtain ⟨σ0, rrest, hrse⟩ : ∃ a b,
      s.reservation_station = a :: b := by
    rcases hx : s.reservation_station with _ | ⟨a, b⟩
    · exfalso
      have hlen := hinv.rsLen
      rw [hx] at hlen
      have hopq := hinv.queueOk inst
        (by rw [hqe]; exact List.mem_cons_self _ _)
      have hcap := hopq.2
      have hle : capOf cfg (Procsim.fu_type inst.op_code) ≤
          cfg.K0_FU_COUNT + cfg.K1_FU_COUNT + cfg.K2_FU_COUNT := by
        unfold capOf
        split
        · omega
        · split
          · omega
          · split
            · omega
            · omega
      unfold Cfg.rs_size at hlen
      simp only [List.length_nil] at hlen
      omega
    · exact ⟨a, b, rfl⟩
  have hv0 : σ0.valid = false :=
    hnoval σ0 (by rw [hrse]; exact List.mem_cons_self _ _)
  have hlt : M (dispatch_stage_first_half (schedule_stage_first_half
      (execute_stage_first_half cfg (tick s)))) <
      M (schedule_stage_first_half
        (execute_stage_first_half cfg (tick s))) := by
    unfold M
    show 6 * s.source.length +
      5 * (dispatch_first_go (tick s).current_cycle
        ((schedule_stage_first_half (execute_stage_first_half cfg
          (tick s))).reservation_station) s.dispatch_queue
        s.register_in_flight_writers
        ((schedule_stage_first_half (execute_stage_first_half cfg
          (tick s))).instruction_cycles)).2.1.length +
      rsPot (dispatch_first_go (tick s).current_cycle
        ((schedule_stage_first_half (execute_stage_first_half cfg
          (tick s))).reservation_station) s.dispatch_queue
        s.register_in_flight_writers
        ((schedule_stage_first_half (execute_stage_first_half cfg
          (tick s))).instruction_cycles)).1 <
      6 * s.source.length + 5 * s.dispatch_queue.length +
        rsPot ((schedule_stage_first_half (execute_stage_first_half cfg
          (tick s))).reservation_station)
    rw [hrsv, hqe, hrse]
    have hstrict := pc5_dis1_measure_lt (tick s).current_cycle σ0 rrest
      inst qt s.register_in_flight_writers
      ((schedule_stage_first_half (execute_stage_first_half cfg
        (tick s))).instruction_cycles) hv0
    omega
  show M (state_update_stage_second_half (schedule_stage_second_half
    (fetch_stage cfg (dispatch_stage_first_half
      (schedule_stage_first_half (execute_stage_first_half cfg
        (state_update_stage_first_half (tick s)))))))) < M s
  rw [hsu]
  refine Nat.lt_of_le_of_lt (pc5_tailB cfg _) ?_
  refine Nat.lt_of_lt_of_le hlt ?_
  exact Nat.le_trans (pc5_sch1_M_le _) (Nat.le_trans
    (pc5_ex1_M_le cfg _) (Nat.le_of_eq (pc5_tick_M s)))

end Procsim.PC

namespace Procsim.PC

/-- Progress: with a positive fetch rate, every cycle of a non-finished
invariant-respecting run strictly lowers the global measure. -/
theorem pc5_M_lt_step (cfg : Cfg) (N : Nat) (s : State)
    (hF : 1 ≤ cfg.FETCH_RATE) (hinv : Inv cfg N s)
    (hnd : done s = false) :
    M (cycleStep cfg s) < M s := by
  by_cases hsrc : s.source = []
  · by_cases hbus : s.result_bus_tags = []
    · by_cases hfired : ∃ σ ∈ s.reservation_station, σ.valid = true ∧
          σ.fired = true ∧ σ.completed = false
      · obtain ⟨σ, hm, hv, hf, hc⟩ := hfired
        exact pc5_case_exec cfg N s hinv hbus σ hm hv hf hc
      · by_cases hvalid : ∃ σ ∈ s.reservation_station, σ.valid = true
        · exact pc5_case_fire cfg N s hinv hbus hfired hvalid
        · have hnoval : ∀ σ ∈ s.reservation_station,
              σ.valid = false := by
            intro σ hm
            cases hv : σ.valid
            · rfl
            · exact absurd ⟨σ, hm, hv⟩ hvalid
          by_cases hq : s.dispatch_queue = []
          · exfalso
            have hdone : done s = true := by
              unfold done all_rs_empty
              rw [hsrc, hq]
              simp only [List.isEmpty_nil, Bool.true_and]
              rw [List.all_eq_true]
              intro σ hσ
              rw [hnoval σ hσ]
              rfl
            rw [hdone] at hnd
            exact absurd hnd (by decide)
          · exact pc5_case_disp cfg N s hinv hbus hnoval hq
    · exact pc5_case_bus cfg N s hinv hbus
  · exact pc5_case_fetch cfg N s hF hinv hsrc

end Procsim.PC

namespace Procsim.PC

/-- `setup_proc` establishes the run invariant when every input
instruction has a recognized opcode with a nonzero pool. -/
theorem pc5_inv_setup (cfg : Cfg) (input : List ProcInst)
    (hops : ∀ inst ∈ input, opOk cfg inst) :
    Inv cfg input.length (setup_proc cfg input) := by
  have hvt : ∀ n : Nat,
      validTags (List.replicate n ({} : Slot)) = [] := by
    intro n
    induction n with
    | zero => rfl
    | succ k ih =>
      rw [List.replicate_succ, pc5_validTags_cons_invalid _ _ rfl, ih]
  have hcnt : (List.replicate cfg.rs_size ({} : Slot)).countP
      (fun σ => σ.valid) = 0 := by
    rw [List.countP_eq_zero]
    intro σ hm
    rw [List.eq_of_mem_replicate hm]
    decide
  have hpend : ∀ c : Int, pendingCnt c []
      (List.replicate cfg.rs_size ({} : Slot)) = 0 := by
    intro c
    unfold pendingCnt
    rw [List.countP_eq_zero]
    intro σ hm
    rw [List.eq_of_mem_replicate hm]
    simp
  refine ⟨?_, ?_, ?_, ?_, ?_, ?_, ?_, ?_, ?_, ?_, ?_, ?_, ?_, ?_⟩
  · intro σ hm hv
    rw [List.eq_of_mem_replicate hm] at hv
    exact absurd hv (by decide)
  · show (validTags (List.replicate cfg.rs_size {}) ++
      queueTags []).Nodup
    rw [hvt]
    simp [queueTags]
  · intro t ht
    rw [show (setup_proc cfg input).reservation_station =
      List.replicate cfg.rs_size {} from rfl, hvt,
      show (setup_proc cfg input).dispatch_queue = [] from rfl] at ht
    simp [queueTags] at ht
  · intro t ht
    exact absurd ht (List.not_mem_nil t)
  · intro _ σ hm hv
    rw [List.eq_of_mem_replicate hm] at hv
    exact absurd hv (by decide)
  · show cfg.K0_FU_COUNT + pendingCnt 0 []
      (List.replicate cfg.rs_size {}) = cfg.K0_FU_COUNT
    rw [hpend 0]
    omega
  · show cfg.K1_FU_COUNT + pendingCnt 1 []
      (List.replicate cfg.rs_size {}) = cfg.K1_FU_COUNT
    rw [hpend 1]
    omega
  · show cfg.K2_FU_COUNT + pendingCnt 2 []
      (List.replicate cfg.rs_size {}) = cfg.K2_FU_COUNT
    rw [hpend 2]
    omega
  · intro r _ w hw
    exact absurd hw (List.not_mem_nil w)
  · intro r
    exact List.nodup_nil
  · intro inst hm
    exact absurd hm (List.not_mem_nil inst)
  · exact hops
  · show 0 + ([] : List ProcInst).length +
      (List.replicate cfg.rs_size ({} : Slot)).countP
        (fun σ => σ.valid) + input.length = input.length
    rw [hcnt]
    simp
  · exact List.length_replicate _ _

/-- At a finished state the invariant forces full retirement. -/
theorem pc5_done_retired (cfg : Cfg) (N : Nat) (s : State)
    (hinv : Inv cfg N s) (hd : done s = true) :
    s.instructions_retired = N := by
  unfold done at hd
  simp only [Bool.and_eq_true] at hd
  obtain ⟨⟨hsrc, hq⟩, hrs⟩ := hd
  have hsrc' : s.source = [] := List.isEmpty_iff_eq_nil.mp hsrc
  have hq' : s.dispatch_queue = [] := List.isEmpty_iff_eq_nil.mp hq
  have hcnt : s.reservation_station.countP (fun σ => σ.valid) = 0 := by
    rw [List.countP_eq_zero]
    intro σ hm
    unfold all_rs_empty at hrs
    rw [List.all_eq_true] at hrs
    have h2 := hrs σ hm
    simp only [Bool.not_eq_true'] at h2
    simp [h2]
  have hc := hinv.cons
  rw [hsrc', hq', hcnt] at hc
  simp only [List.length_nil] at hc
  omega

/-- Fuel induction on the measure: an invariant-respecting state reaches
a finished, fully retired state in finitely many cycles. -/
theorem pc5_run_aux (cfg : Cfg) (N : Nat) (hF : 1 ≤ cfg.FETCH_RATE)
    (hR : 1 ≤ cfg.RESULT_BUSES) :
    ∀ (m : Nat) (s : State), Inv cfg N s → M s ≤ m →
      ∃ n, done (steps cfg n s) = true ∧
        (steps cfg n s).instructions_retired = N := by
  intro m
  induction m with
  | zero =>
    intro s hinv hm
    cases hd : done s with
    | true => exact ⟨0, hd, pc5_done_retired cfg N s hinv hd⟩
    | false =>
      have hlt := pc5_M_lt_step cfg N s hF hinv hd
      exact absurd (Nat.lt_of_lt_of_le hlt hm) (Nat.not_lt_zero _)
  | succ m ih =>
    intro s hinv hm
    cases hd : done s with
    | true => exact ⟨0, hd, pc5_done_retired cfg N s hinv hd⟩
    | false =>
      have hlt := pc5_M_lt_step cfg N s hF hinv hd
      have hinv2 := pc5_inv_step cfg N s hR hinv
      obtain ⟨n, hn1, hn2⟩ := ih (cycleStep cfg s) hinv2 (by omega)
      refine ⟨n + 1, ?_, ?_⟩
      · show done ((cycleStep cfg)^[n + 1] s) = true
        rw [Function.iterate_succ_apply]
        exact hn1
      · show ((cycleStep cfg)^[n + 1] s).instructions_retired = N
        rw [Function.iterate_succ_apply]
        exact hn2

end Procsim.PC

namespace Procsim

/-- C5 (amended): for every finite input stream in which every
instruction's opcode is one the code recognizes (−1, 0, 1 or 2) and the
pool of its class has nonzero capacity, and with a positive fetch rate
and at least one result bus, the procsim.cpp simulation loop terminates —
eventually the source is exhausted, the dispatch queue is empty and no
reservation-station slot is occupied — and at that point the retired
count equals the fetched count. -/
theorem c5_termination_amended (cfg : Cfg) (input : List ProcInst)
    (hF : 1 ≤ cfg.FETCH_RATE) (hR : 1 ≤ cfg.RESULT_BUSES)
    (hops : ∀ inst ∈ input, PC.opOk cfg inst) :
    ∃ n, PC.done (PC.steps cfg n (PC.setup_proc cfg input)) = true ∧
      (PC.steps cfg n
        (PC.setup_proc cfg input)).instructions_retired =
        input.length :=
  PC.pc5_run_aux cfg input.length hF hR
    (PC.M (PC.setup_proc cfg input)) (PC.setup_proc cfg input)
    (PC.pc5_inv_setup cfg input hops) (Nat.le_refl _)

/-- Witness for the amended C5 theorem: scenario 1 (F=1, R=1, one unit
per pool, one recognized dependency-free instruction) satisfies every
hypothesis and terminates with its single instruction retired. -/
theorem c5_termination_amended_witness :
    1 ≤ Scen.c7cfg.FETCH_RATE ∧ 1 ≤ Scen.c7cfg.RESULT_BUSES ∧
    (∀ inst ∈ Scen.c7in, PC.opOk Scen.c7cfg inst) ∧
    ∃ n, PC.done (PC.steps Scen.c7cfg n
        (PC.setup_proc Scen.c7cfg Scen.c7in)) = true ∧
      (PC.steps Scen.c7cfg n
        (PC.setup_proc Scen.c7cfg Scen.c7in)).instructions_retired =
        Scen.c7in.length :=
  ⟨by decide, by decide,
    by
      intro inst hm
      simp only [Scen.c7in, List.mem_singleton] at hm
      subst hm
      exact ⟨by decide, by decide⟩,
    c5_termination_amended Scen.c7cfg Scen.c7in (by decide) (by decide)
      (by
        intro inst hm
        simp only [Scen.c7in, List.mem_singleton] at hm
        subst hm
        exact ⟨by decide, by decide⟩)⟩

end Procsim
